import Mathlib

/-!
Shallow embedding of the registry/plugin consistency core of
`scripts/plugin-builder.py` (class `PluginBuilder`), and proofs of the
frozen claims about it.

Modelling decisions (data the claims never mention is omitted, everything
the claims touch is carried faithfully):

* The filesystem state `FS` records, for each asset type, the listing of
  `registry/<type>/` (absent directory = `none`), the listing of
  `plugins/` (each plugin directory with its manifest state and its three
  optional per-type subdirectories), and the set of existing paths that
  lie outside the registry (targets of stray symlinks).
* A directory entry is identified by its entry name (the final path
  component); file contents, sizes, modification times and extracted
  descriptions are not modelled — no claim mentions them.
* A symbolic link stores its resolved target (`Path.resolve()` of the
  link): either a registry path `registry/<type>/<entry>` or a path
  outside the registry.  `Path.exists()` / `is_file()` / `is_dir()`
  follow links, `is_symlink()` does not, exactly as in `pathlib`.
  Whether an existing outside target is a file or a directory is not
  modelled (no claim depends on it); outside targets count as neither
  `is_file` nor `is_dir`.
* Python exceptions become error values; since the Python mutations are
  in-place, every mutating operation returns the state reached so far
  *together with* the error, so partially-applied mutations (e.g. the
  registry rename that precedes a crash in the symlink-update loop) are
  observable.
-/

set_option linter.unusedVariables false

namespace PB

/-- The three asset types of the registry (`class AssetType(Enum)`). -/
inductive AssetType
  | command
  | agent
  | skill
deriving DecidableEq, Repr

/-- `AssetType.value` — the directory name of each asset type. -/
def AssetType.value : AssetType → String
  | .command => "commands"
  | .agent => "agents"
  | .skill => "skills"

/-- Iteration order of `list(AssetType)`. -/
def allAssetTypes : List AssetType := [.command, .agent, .skill]

/-! ### Python `pathlib` name helpers -/

/-- Index of the last `'.'` in a character list, if any. -/
def lastDotIdx : List Char → Option Nat
  | [] => none
  | c :: rest =>
    match lastDotIdx rest with
    | some i => some (i + 1)
    | none => if c = '.' then some 0 else none

/-- `PurePath.suffix`: the final extension including the dot, or `""`.
Mirrors CPython: the last dot must be neither the first nor the last
character of the name. -/
def pySuffix (s : String) : String :=
  let cs := s.toList
  match lastDotIdx cs with
  | none => ""
  | some i => if 0 < i ∧ i + 1 < cs.length then String.mk (cs.drop i) else ""

/-- `PurePath.stem`: the name without its final extension. -/
def pyStem (s : String) : String :=
  let cs := s.toList
  match lastDotIdx cs with
  | none => s
  | some i => if 0 < i ∧ i + 1 < cs.length then String.mk (cs.take i) else s

/-- Whether an entry name is hidden (`name.startswith(".")`). -/
def isHidden (s : String) : Bool :=
  match s.toList with
  | '.' :: _ => true
  | _ => false

/-- Non-overlapping, left-to-right removal of every occurrence of `".md"`,
as performed by Python's `str.replace(".md", "")`. -/
def removeMdAll : List Char → List Char
  | '.' :: 'm' :: 'd' :: rest => removeMdAll rest
  | c :: rest => c :: removeMdAll rest
  | [] => []

/-- `name.endswith(".md")`. -/
def endsWithMd (s : String) : Bool :=
  List.isSuffixOf [Char.ofNat 46, Char.ofNat 109, Char.ofNat 100] s.toList

/-- `item.name.replace(".md", "") if item.name.endswith(".md") else item.name`. -/
def stripMdName (s : String) : String :=
  if endsWithMd s then String.mk (removeMdAll s.toList) else s

/-! ### Filesystem state -/

/-- An entry of a `registry/<type>/` directory: a regular file (entry name
includes its extension) or a directory. -/
inductive RegEntry
  | file (fullName : String)
  | dir (name : String)
deriving DecidableEq, Repr

/-- The name of a registry directory entry. -/
def RegEntry.entryName : RegEntry → String
  | .file f => f
  | .dir n => n

/-- `path.is_file()` for a registry entry. -/
def RegEntry.isFileEntry : RegEntry → Bool
  | .file _ => true
  | .dir _ => false

/-- The resolved target of a symbolic link: a path
`registry/<type>/<entry>` or a path outside the registry root. -/
inductive LinkTarget
  | reg (t : AssetType) (entry : String)
  | outside (p : String)
deriving DecidableEq, Repr

/-- Kind of an entry of a plugin's per-type subdirectory. -/
inductive PEntryKind
  | file
  | dir
  | symlink (target : LinkTarget)
deriving DecidableEq, Repr

/-- An entry of a plugin's per-type subdirectory. -/
structure PluginEntry where
  entryName : String
  kind : PEntryKind
deriving DecidableEq, Repr

/-- State of a plugin's `.claude-plugin/plugin.json`: absent, present but
unparseable, or parsed with an optional `"name"` field (the other manifest
fields play no role in any claim). -/
inductive ManifestState
  | absent
  | malformed
  | parsed (name : Option String)
deriving DecidableEq, Repr

/-- A directory under `plugins/`.  A per-type subdirectory that does not
exist is `none`. -/
structure PluginDir where
  dirName : String
  manifest : ManifestState
  commandsSub : Option (List PluginEntry)
  agentsSub : Option (List PluginEntry)
  skillsSub : Option (List PluginEntry)
deriving DecidableEq, Repr

/-- The per-type subdirectory of a plugin directory. -/
def PluginDir.sub (pd : PluginDir) : AssetType → Option (List PluginEntry)
  | .command => pd.commandsSub
  | .agent => pd.agentsSub
  | .skill => pd.skillsSub

/-- Replace one per-type subdirectory. -/
def PluginDir.setSub (pd : PluginDir) : AssetType → Option (List PluginEntry) → PluginDir
  | .command, es => { pd with commandsSub := es }
  | .agent, es => { pd with agentsSub := es }
  | .skill, es => { pd with skillsSub := es }

/-- The filesystem state seen by `PluginBuilder`. -/
structure FS where
  regCommands : Option (List RegEntry)
  regAgents : Option (List RegEntry)
  regSkills : Option (List RegEntry)
  plugins : List PluginDir
  outsideExists : List String
deriving DecidableEq, Repr

/-- The listing of `registry/<type>/`, or `none` if that directory does
not exist. -/
def FS.regDir (fs : FS) : AssetType → Option (List RegEntry)
  | .command => fs.regCommands
  | .agent => fs.regAgents
  | .skill => fs.regSkills

/-- Replace the listing of `registry/<type>/`. -/
def FS.setRegDir (fs : FS) : AssetType → Option (List RegEntry) → FS
  | .command, es => { fs with regCommands := es }
  | .agent, es => { fs with regAgents := es }
  | .skill, es => { fs with regSkills := es }

/-- Entries of `registry/<type>/` (`[]` when the directory is absent);
used where the code has already ensured or created the directory. -/
def regDirEntries (fs : FS) (t : AssetType) : List RegEntry :=
  (fs.regDir t).getD []

/-- Lookup of the entry named `n` in `registry/<type>/`
(`(registry_dir / type / n).exists()`-style lookup). -/
def regLookup (fs : FS) (t : AssetType) (n : String) : Option RegEntry :=
  (fs.regDir t).bind (·.find? (·.entryName == n))

/-- `(registry_dir / type / n).exists()`. -/
def regHasEntry (fs : FS) (t : AssetType) (n : String) : Bool :=
  (regLookup fs t n).isSome

/-- Whether the resolved path of a link exists on disk. -/
def targetExists (fs : FS) : LinkTarget → Bool
  | .reg t e => regHasEntry fs t e
  | .outside p => fs.outsideExists.contains p

/-- Whether the resolved path of a link is a regular file. -/
def targetIsFile (fs : FS) : LinkTarget → Bool
  | .reg t e =>
    match regLookup fs t e with
    | some (.file _) => true
    | _ => false
  | .outside _ => false

/-- Whether the resolved path of a link is a directory. -/
def targetIsDir (fs : FS) : LinkTarget → Bool
  | .reg t e =>
    match regLookup fs t e with
    | some (.dir _) => true
    | _ => false
  | .outside _ => false

/-- `item.is_file()` for a plugin entry (follows symlinks). -/
def PluginEntry.isFile (fs : FS) (e : PluginEntry) : Bool :=
  match e.kind with
  | .file => true
  | .dir => false
  | .symlink tg => targetIsFile fs tg

/-- `item.is_dir()` for a plugin entry (follows symlinks). -/
def PluginEntry.isDir (fs : FS) (e : PluginEntry) : Bool :=
  match e.kind with
  | .file => false
  | .dir => true
  | .symlink tg => targetIsDir fs tg

/-- `item.is_symlink()`. -/
def PluginEntry.isSymlink (e : PluginEntry) : Bool :=
  match e.kind with
  | .symlink _ => true
  | _ => false

/-- `item.exists()` for a plugin entry (follows symlinks). -/
def PluginEntry.existsOnDisk (fs : FS) (e : PluginEntry) : Bool :=
  match e.kind with
  | .file => true
  | .dir => true
  | .symlink tg => targetExists fs tg

/-! ### Registry Index (`get_registry_assets`) -/

/-- An asset of the registry (`@dataclass Asset`); `entry` is the backing
directory entry name, standing for the `path` attribute.  The derived
`description`, `size_bytes` and `modified` attributes are not modelled. -/
structure Asset where
  name : String
  assetType : AssetType
  entry : String
deriving DecidableEq, Repr

/-- Assets discovered in one `registry/<type>/` listing: hidden entries
are skipped, an `.md` file yields its stem, a directory yields its name,
any other file is ignored. -/
def assetsOfDir (t : AssetType) : Option (List RegEntry) → List Asset
  | none => []
  | some es =>
    es.filterMap fun e =>
      if isHidden e.entryName then none
      else
        match e with
        | .file f => if pySuffix f == ".md" then some ⟨pyStem f, t, f⟩ else none
        | .dir n => some ⟨n, t, n⟩

/-- Code-point lexicographic strict comparison of character lists — the
order Python's string `<` uses. -/
def charListLt : List Char → List Char → Bool
  | [], [] => false
  | [], _ :: _ => true
  | _ :: _, [] => false
  | a :: as, b :: bs =>
    if a.toNat < b.toNat then true
    else if b.toNat < a.toNat then false
    else charListLt as bs

/-- Python's string `<`. -/
def strLt (a b : String) : Prop := charListLt a.toList b.toList = true

/-- Python's string `<=` (`¬ b < a`), the order of every `sorted` call. -/
def strLe (a b : String) : Prop := charListLt b.toList a.toList = false

instance : DecidableRel strLt := fun a b =>
  inferInstanceAs (Decidable (_ = true))

instance : DecidableRel strLe := fun a b =>
  inferInstanceAs (Decidable (_ = false))

/-- `charListLt` is asymmetric. -/
theorem charListLt_asymm : ∀ {x y : List Char},
    charListLt x y = true → charListLt y x = false := by
  intro x
  induction x with
  | nil =>
    intro y h
    cases y with
    | nil => simp [charListLt] at h
    | cons b bs => simp [charListLt]
  | cons a as ih =>
    intro y h
    cases y with
    | nil => simp [charListLt] at h
    | cons b bs =>
      simp only [charListLt] at h ⊢
      by_cases h1 : a.toNat < b.toNat
      · have h2 : ¬ b.toNat < a.toNat := by omega
        simp [h1, h2]
      · by_cases h2 : b.toNat < a.toNat
        · simp [h1, h2] at h
        · simp only [h1, h2, if_false] at h ⊢
          exact ih h

/-- Lexicographic comparability: if `x < z` then `x < y` or `y < z`. -/
theorem charListLt_connex : ∀ {x z : List Char} (y : List Char),
    charListLt x z = true → charListLt x y = true ∨ charListLt y z = true := by
  intro x
  induction x with
  | nil =>
    intro z y h
    cases z with
    | nil => simp [charListLt] at h
    | cons c cs =>
      cases y with
      | nil => right; simp [charListLt]
      | cons b bs => left; simp [charListLt]
  | cons a as ih =>
    intro z y h
    cases z with
    | nil => simp [charListLt] at h
    | cons c cs =>
      cases y with
      | nil => right; simp [charListLt]
      | cons b bs =>
        simp only [charListLt] at h ⊢
        by_cases hab : a.toNat < b.toNat
        · left; simp [hab]
        · by_cases hbc : b.toNat < c.toNat
          · right; simp [hbc]
          · by_cases hac : a.toNat < c.toNat
            · omega
            · by_cases hca : c.toNat < a.toNat
              · simp [hac, hca] at h
              · have hba : ¬ b.toNat < a.toNat := by omega
                have hcb : ¬ c.toNat < b.toNat := by omega
                simp only [hac, hca, if_false] at h
                rcases ih bs h with hl | hr
                · left; simp [hab, hba, hl]
                · right; simp [hbc, hcb, hr]

instance : IsTotal String strLe :=
  ⟨fun a b => by
    unfold strLe
    cases h : charListLt b.toList a.toList with
    | false => exact Or.inl rfl
    | true => exact Or.inr (charListLt_asymm h)⟩

instance : IsTrans String strLe :=
  ⟨fun a b c hab hbc => by
    unfold strLe at *
    cases h : charListLt c.toList a.toList with
    | false => rfl
    | true =>
      rcases charListLt_connex b.toList h with hl | hr
      · rw [hbc] at hl
        exact absurd hl (by simp)
      · rw [hab] at hr
        exact absurd hr (by simp)⟩

/-- Sort key order of `get_registry_assets`:
`(a.asset_type.value, a.name)` compared as Python tuples. -/
def assetLe (a b : Asset) : Prop :=
  strLt a.assetType.value b.assetType.value ∨
    (a.assetType.value = b.assetType.value ∧ strLe a.name b.name)

instance : DecidableRel assetLe := fun a b =>
  inferInstanceAs (Decidable (strLt a.assetType.value b.assetType.value ∨
    (a.assetType.value = b.assetType.value ∧ strLe a.name b.name)))

/-- `get_registry_assets(asset_type)`. -/
def get_registry_assets (fs : FS) (t? : Option AssetType) : List Asset :=
  let types := match t? with
    | some t => [t]
    | none => allAssetTypes
  List.insertionSort assetLe (types.flatMap fun t => assetsOfDir t (fs.regDir t))

/-! ### Plugin Index (`get_plugins`, `_list_plugin_assets`) -/

/-- `_list_plugin_assets`: names contributed by one per-type
subdirectory, de-duplicated and sorted (`sorted(set(names))`). -/
def listPluginAssets (fs : FS) : Option (List PluginEntry) → List String
  | none => []
  | some es =>
    let names := es.filterMap fun e =>
      if isHidden e.entryName then none
      else if e.isFile fs && (pySuffix e.entryName == ".md") then
        some (pyStem e.entryName)
      else if e.isDir fs || e.isSymlink then
        some (stripMdName e.entryName)
      else none
    List.insertionSort strLe names.dedup

/-- A plugin as returned by `get_plugins` (`@dataclass Plugin`); the
`description`, `version`, `keywords` and `category` manifest fields are
not modelled — no claim mentions them. -/
structure Plugin where
  name : String
  commands : List String
  agents : List String
  skills : List String
deriving DecidableEq, Repr

/-- The per-type asset-name list of a plugin. -/
def Plugin.listOf (p : Plugin) : AssetType → List String
  | .command => p.commands
  | .agent => p.agents
  | .skill => p.skills

/-- The `Plugin` built from one qualifying plugin directory. -/
def pluginOfDir (fs : FS) (pd : PluginDir) (n? : Option String) : Plugin :=
  { name := n?.getD pd.dirName
    commands := listPluginAssets fs (pd.sub .command)
    agents := listPluginAssets fs (pd.sub .agent)
    skills := listPluginAssets fs (pd.sub .skill) }

/-- Order on plugins used by `get_plugins` (`key=lambda p: p.name`). -/
def pluginLe (p q : Plugin) : Prop := strLe p.name q.name

instance : DecidableRel pluginLe := fun p q =>
  inferInstanceAs (Decidable (strLe p.name q.name))

instance : IsTotal Plugin pluginLe :=
  ⟨fun p q => IsTotal.total (r := strLe) p.name q.name⟩

instance : IsTrans Plugin pluginLe :=
  ⟨fun p q r hpq hqr => IsTrans.trans (r := strLe) _ _ _ hpq hqr⟩

/-- `get_plugins()`: hidden directories and directories without a
parseable manifest are skipped; the result is sorted by name. -/
def get_plugins (fs : FS) : List Plugin :=
  let ps := fs.plugins.filterMap fun pd =>
    if isHidden pd.dirName then none
    else
      match pd.manifest with
      | .absent => none
      | .malformed => none
      | .parsed n? => some (pluginOfDir fs pd n?)
  List.insertionSort pluginLe ps

/-! ### Usage Resolver (`get_usage_info`) -/

/-- `@dataclass UsageInfo`. -/
structure UsageInfo where
  assetName : String
  assetType : AssetType
  plugins : List String
deriving DecidableEq, Repr

/-- `usage_count` property. -/
def UsageInfo.usage_count (u : UsageInfo) : Nat := u.plugins.length

/-- The dict key `f"{type.value}:{name}"`. -/
def keyStr (t : AssetType) (n : String) : String := t.value ++ ":" ++ n

/-- The usage dict, as an insertion-ordered association list. -/
abbrev UsageMap := List (String × UsageInfo)

/-- Dict lookup. -/
def umLookup (m : UsageMap) (k : String) : Option UsageInfo :=
  (m.find? (·.1 == k)).map (·.2)

/-- Dict assignment `usage[key] = u` (overwrites in place, appends when
the key is new). -/
def umInsert (m : UsageMap) (k : String) (u : UsageInfo) : UsageMap :=
  if (m.find? (·.1 == k)).isSome then
    m.map fun p => if p.1 == k then (p.1, u) else p
  else m ++ [(k, u)]

/-- `usage[key].plugins.append(pname)` guarded by `if key in usage`. -/
def umAppend (m : UsageMap) (k : String) (pname : String) : UsageMap :=
  m.map fun p =>
    if p.1 == k then (p.1, { p.2 with plugins := p.2.plugins ++ [pname] }) else p

/-- One plugin's contribution to the usage dict: its three per-type name
lists, in the order the code visits them. -/
def usageAddPlugin (m : UsageMap) (p : Plugin) : UsageMap :=
  let m1 := p.commands.foldl (fun m n => umAppend m (keyStr .command n) p.name) m
  let m2 := p.agents.foldl (fun m n => umAppend m (keyStr .agent n) p.name) m1
  p.skills.foldl (fun m n => umAppend m (keyStr .skill n) p.name) m2

/-- The initialisation step of `get_usage_info`: one empty `UsageInfo`
per registry asset. -/
def usageInitStep (m : UsageMap) (a : Asset) : UsageMap :=
  umInsert m (keyStr a.assetType a.name) ⟨a.name, a.assetType, []⟩

/-- `get_usage_info()`. -/
def get_usage_info (fs : FS) : UsageMap :=
  let init := (get_registry_assets fs none).foldl usageInitStep []
  (get_plugins fs).foldl usageAddPlugin init

/-! ### Errors -/

/-- Exceptions raised by the mutation operations.  `ValueError`s are
split by the §7 taxonomy; `inUse` carries the list of referencing plugin
names that the message enumerates; `fileExists` is `os.symlink`'s
`FileExistsError`; `fsError` is the `FileNotFoundError` raised by
iterating a missing directory. -/
inductive Err
  | notFound (msg : String)
  | alreadyExists (msg : String)
  | inUse (plugins : List String)
  | fileExists (path : String)
  | fsError (path : String)
deriving DecidableEq, Repr

/-- Decidable equality of operation results. -/
def exceptEq {ε α : Type} [DecidableEq ε] [DecidableEq α] :
    (a b : Except ε α) → Decidable (a = b)
  | .ok a, .ok b =>
    if h : a = b then .isTrue (h ▸ rfl) else .isFalse fun hh => h (Except.ok.inj hh)
  | .ok _, .error _ => .isFalse fun hh => Except.noConfusion hh
  | .error _, .ok _ => .isFalse fun hh => Except.noConfusion hh
  | .error e, .error f =>
    if h : e = f then .isTrue (h ▸ rfl) else .isFalse fun hh => h (Except.error.inj hh)

instance {ε α : Type} [DecidableEq ε] [DecidableEq α] : DecidableEq (Except ε α) :=
  exceptEq

/-- The `ValueError` message of the delete guard:
`f"Asset is used by plugins: {plugins}. Use --force to delete anyway."`. -/
def inUseMessage (plugins : List String) : String :=
  "Asset is used by plugins: " ++ String.intercalate ", " plugins ++
    ". Use --force to delete anyway."

/-! ### Mutation operations

Each operation returns the filesystem state it reached (mutations are
in place in the Python) together with `.ok` of its return value or
`.error` of the exception it raised. -/

/-- A source path argument of `add_to_registry` / `sync_from_directory`
entries: an existing file, an existing directory, or a missing path. -/
inductive Source
  | file (fullName : String)
  | dir (name : String)
  | missing (name : String)
deriving DecidableEq, Repr

/-- The final path component of a source path. -/
def Source.pathName : Source → String
  | .file f => f
  | .dir n => n
  | .missing n => n

/-- `add_to_registry(source_path, asset_type, name)`. -/
def add_to_registry (fs : FS) (src : Source) (t : AssetType) (name? : Option String) :
    FS × Except Err Asset :=
  match src with
  | .missing n =>
    (fs, .error (.notFound ("Source path does not exist: " ++ n)))
  | .file f =>
    let name := name?.getD (pyStem f)
    -- target_dir.mkdir(parents=True, exist_ok=True)
    let fs1 := fs.setRegDir t (some (regDirEntries fs t))
    if regHasEntry fs1 t f then
      (fs1, .error (.alreadyExists ("Asset already exists in registry: " ++ f)))
    else
      let fs2 := fs1.setRegDir t (some (regDirEntries fs1 t ++ [.file f]))
      (fs2, .ok ⟨name, t, f⟩)
  | .dir d =>
    let name := name?.getD d
    let fs1 := fs.setRegDir t (some (regDirEntries fs t))
    if regHasEntry fs1 t name then
      (fs1, .error (.alreadyExists ("Asset already exists in registry: " ++ name)))
    else
      let fs2 := fs1.setRegDir t (some (regDirEntries fs1 t ++ [.dir name]))
      (fs2, .ok ⟨name, t, name⟩)

/-- Lookup of a plugin directory by name (`self.plugins_dir / name`). -/
def lookupPluginDir (fs : FS) (n : String) : Option PluginDir :=
  fs.plugins.find? (·.dirName == n)

/-- Replace one plugin's per-type subdirectory listing. -/
def FS.updatePlugin (fs : FS) (n : String) (t : AssetType) (es : List PluginEntry) : FS :=
  { fs with
    plugins := fs.plugins.map fun pd =>
      if pd.dirName == n then pd.setSub t (some es) else pd }

/-- Locate the registry entry of a named asset the way `rename_asset` /
`delete_asset` / `add_asset_to_plugin` do: try `<name>` first, then
`<name>.md`. -/
def findAssetEntry (fs : FS) (t : AssetType) (n : String) : Option RegEntry :=
  match regLookup fs t n with
  | some e => some e
  | none => regLookup fs t (n ++ ".md")

/-- The plugin-side entry name `add_asset_to_plugin` links under:
`registry_path.name` for a file, the bare asset name for a directory. -/
def targetName (re : RegEntry) (assetName : String) : String :=
  match re with
  | .file f => f
  | .dir _ => assetName

/-- `add_asset_to_plugin(plugin_name, asset_name, asset_type)`.  Returns
`true` when a link was created, `false` for the already-exists no-op. -/
def add_asset_to_plugin (fs : FS) (pluginName assetName : String) (t : AssetType) :
    FS × Except Err Bool :=
  match lookupPluginDir fs pluginName with
  | none =>
    (fs, .error (.notFound ("Plugin '" ++ pluginName ++ "' does not exist")))
  | some pd =>
    match findAssetEntry fs t assetName with
    | none =>
      (fs, .error (.notFound
        ("Asset '" ++ assetName ++ "' not found in registry/" ++ t.value)))
    | some re =>
      -- target_dir.mkdir(exist_ok=True)
      let entries := (pd.sub t).getD []
      let fs1 := fs.updatePlugin pluginName t entries
      -- target_path.exists() follows symlinks
      if entries.any fun e => e.entryName == targetName re assetName && e.existsOnDisk fs then
        (fs1, .ok false)
      else if entries.any fun e => e.entryName == targetName re assetName then
        -- a same-named dangling symlink: os.symlink raises FileExistsError
        (fs1, .error (.fileExists (targetName re assetName)))
      else
        (fs1.updatePlugin pluginName t
          (entries ++ [⟨targetName re assetName, .symlink (.reg t re.entryName)⟩]), .ok true)

/-- Whether a plugin entry is a symlink whose `resolve()` equals `tgt`. -/
def resolvesTo (e : PluginEntry) (tgt : LinkTarget) : Bool :=
  match e.kind with
  | .symlink s => decide (s = tgt)
  | _ => false

/-- One iteration of `rename_asset`'s inner loop over a plugin
subdirectory: replace a symlink resolving to the old registry path by a
fresh link named `newLinkName` to the new path; `os.symlink` fails if an
entry of that name is still present. -/
def renameDirStep (oldT : LinkTarget) (newLinkName : String) (newT : LinkTarget)
    (acc : List PluginEntry × Option Err) (item : PluginEntry) :
    List PluginEntry × Option Err :=
  match acc with
  | (cur, some e) => (cur, some e)
  | (cur, none) =>
    if resolvesTo item oldT then
      let cur1 := cur.filter fun e => e.entryName != item.entryName
      if cur1.any fun e => e.entryName == newLinkName then
        (cur1, some (.fileExists newLinkName))
      else
        (cur1 ++ [⟨newLinkName, .symlink newT⟩], none)
    else (cur, none)

/-- `rename_asset`'s inner loop over one plugin subdirectory. -/
def renameDirLinks (oldT : LinkTarget) (newLinkName : String) (newT : LinkTarget)
    (entries : List PluginEntry) : List PluginEntry × Option Err :=
  entries.foldl (renameDirStep oldT newLinkName newT) (entries, none)

/-- `rename_asset`'s outer loop body for one plugin: missing plugin
directory or missing per-type subdirectory makes `iterdir()` raise
`FileNotFoundError`. -/
def renamePluginStep (t : AssetType) (oldT : LinkTarget) (newLinkName : String)
    (newT : LinkTarget) (acc : FS × Option Err) (p : Plugin) : FS × Option Err :=
  match acc with
  | (fs, some e) => (fs, some e)
  | (fs, none) =>
    match lookupPluginDir fs p.name with
    | none => (fs, some (.fsError p.name))
    | some pd =>
      match pd.sub t with
      | none => (fs, some (.fsError (p.name ++ "/" ++ t.value)))
      | some entries =>
        let (es', err?) := renameDirLinks oldT newLinkName newT entries
        (fs.updatePlugin p.name t es', err?)

/-- `old_path.rename(new_path)`: the registry entry named `oldEntryName`
becomes a same-kind entry named `newEntryName`. -/
def renameRegistry (fs : FS) (t : AssetType) (oldEntryName newEntryName : String)
    (isFile : Bool) : FS :=
  fs.setRegDir t (some ((regDirEntries fs t).map fun e =>
    if e.entryName == oldEntryName then
      (if isFile then RegEntry.file newEntryName else RegEntry.dir newEntryName)
    else e))

/-- `rename_asset(old_name, new_name, asset_type)`. -/
def rename_asset (fs : FS) (old new : String) (t : AssetType) : FS × Except Err Unit :=
  match findAssetEntry fs t old with
  | none =>
    (fs, .error (.notFound
      ("Asset '" ++ old ++ "' not found in registry/" ++ t.value)))
  | some oldEntry =>
    let newEntryName := if oldEntry.isFileEntry then new ++ ".md" else new
    if regHasEntry fs t newEntryName then
      (fs, .error (.alreadyExists ("Asset '" ++ new ++ "' already exists")))
    else
      let fs1 := renameRegistry fs t oldEntry.entryName newEntryName oldEntry.isFileEntry
      let newLinkName := if pySuffix newEntryName == ".md" then new ++ ".md" else new
      match (get_plugins fs1).foldl
        (renamePluginStep t (.reg t oldEntry.entryName) newLinkName
          (.reg t newEntryName)) (fs1, none) with
      | (fs2, some e) => (fs2, .error e)
      | (fs2, none) => (fs2, .ok ())

/-- `delete_asset`'s outer loop body for one plugin: remove every symlink
of the per-type subdirectory that resolves to the asset's path; a missing
plugin directory or subdirectory makes `iterdir()` raise. -/
def deletePluginStep (t : AssetType) (tgt : LinkTarget)
    (acc : FS × Option Err) (p : Plugin) : FS × Option Err :=
  match acc with
  | (fs, some e) => (fs, some e)
  | (fs, none) =>
    match lookupPluginDir fs p.name with
    | none => (fs, some (.fsError p.name))
    | some pd =>
      match pd.sub t with
      | none => (fs, some (.fsError (p.name ++ "/" ++ t.value)))
      | some entries =>
        (fs.updatePlugin p.name t (entries.filter fun e => !resolvesTo e tgt), none)

/-- `usage[key].plugins` of the delete guard: the plugins referencing
`(asset_type, name)` according to `get_usage_info`, `[]` when the key is
absent. -/
def referencedPlugins (fs : FS) (t : AssetType) (name : String) : List String :=
  match umLookup (get_usage_info fs) (keyStr t name) with
  | some u => u.plugins
  | none => []

/-- `delete_asset(asset_name, asset_type, force)`. -/
def delete_asset (fs : FS) (name : String) (t : AssetType) (force : Bool) :
    FS × Except Err Unit :=
  if !(referencedPlugins fs t name).isEmpty && !force then
    (fs, .error (.inUse (referencedPlugins fs t name)))
  else
    match findAssetEntry fs t name with
    | none => (fs, .error (.notFound ("Asset '" ++ name ++ "' not found")))
    | some entry =>
      match (get_plugins fs).foldl
          (deletePluginStep t (.reg t entry.entryName)) (fs, none) with
      | (fs1, some e) => (fs1, .error e)
      | (fs1, none) =>
        (fs1.setRegDir t
          (some ((regDirEntries fs1 t).filter fun e => e.entryName != entry.entryName)),
         .ok ())

/-! ### Validator (`validate`, `rebuild_symlinks`) -/

/-- Issue kinds reported by `validate`. -/
inductive IssueKind
  | broken
  | warning
deriving DecidableEq, Repr

/-- One validation issue: the offending symlink identified by plugin
name, asset type and entry name. -/
structure Issue where
  kind : IssueKind
  plugin : String
  atype : AssetType
  entryName : String
deriving DecidableEq, Repr

/-- Per-entry accumulation of `validate`: a symlink whose resolved target
does not exist is `broken` (clears the overall flag); one resolving
outside the registry root is a `warning`; anything else contributes
nothing. -/
def validateStepEntry (fs : FS) (pname : String) (t : AssetType)
    (acc : Bool × List Issue) (e : PluginEntry) : Bool × List Issue :=
  match e.kind with
  | .symlink tgt =>
    if !targetExists fs tgt then
      (false, acc.2 ++ [⟨.broken, pname, t, e.entryName⟩])
    else
      match tgt with
      | .reg _ _ => acc
      | .outside _ => (acc.1, acc.2 ++ [⟨.warning, pname, t, e.entryName⟩])
  | _ => acc

/-- `validate()`: the returned boolean plus the accumulated issue list.
Plugins whose directory or per-type subdirectory is absent are skipped. -/
def validate (fs : FS) : Bool × List Issue :=
  (get_plugins fs).foldl
    (fun acc p =>
      allAssetTypes.foldl
        (fun acc t =>
          match (lookupPluginDir fs p.name).bind (·.sub t) with
          | none => acc
          | some entries => entries.foldl (validateStepEntry fs p.name t) acc)
        acc)
    (true, [])

/-- One per-type subdirectory pass of `rebuild_symlinks`: each symlink
whose target still exists is deleted and recreated under the same name
with a freshly computed relative path to the same resolved target;
dangling links are left untouched. -/
def rebuildDir (fs : FS) (entries : List PluginEntry) : List PluginEntry :=
  entries.map fun e =>
    match e.kind with
    | .symlink tg => if targetExists fs tg then ⟨e.entryName, .symlink tg⟩ else e
    | _ => e

/-- `rebuild_symlinks`'s loop body for one plugin: every existing
per-type subdirectory gets its live links recreated. -/
def rebuildPlugin (fs : FS) (n : String) : FS :=
  allAssetTypes.foldl
    (fun fs t =>
      match (lookupPluginDir fs n).bind (·.sub t) with
      | none => fs
      | some entries => fs.updatePlugin n t (rebuildDir fs entries))
    fs

/-- `rebuild_symlinks(plugin_name)`: plugins whose directory or per-type
subdirectory is absent are skipped, never an error. -/
def rebuild_symlinks (fs : FS) (pname? : Option String) : FS × Except Err Unit :=
  let ps := get_plugins fs
  match pname? with
  | some n =>
    let ps := ps.filter (·.name == n)
    if ps.isEmpty then
      (fs, .error (.notFound ("Plugin '" ++ n ++ "' not found")))
    else
      (ps.foldl (fun fs p => rebuildPlugin fs p.name) fs, .ok ())
  | none => (ps.foldl (fun fs p => rebuildPlugin fs p.name) fs, .ok ())

/-! ### Sync (`sync_from_directory`) -/

/-- An entry of the external source directory handed to `sync`. -/
inductive SrcEntry
  | file (fullName : String)
  | dir (name : String)
  | other (name : String)
deriving DecidableEq, Repr

/-- The name of a source-directory entry. -/
def SrcEntry.entryName : SrcEntry → String
  | .file f => f
  | .dir n => n
  | .other n => n

/-- The derived asset name of a source entry that `sync` would consider:
hidden entries, files without the `.md` suffix, and non-file non-dir
entries are skipped. -/
def syncName (e : SrcEntry) : Option (String × Source) :=
  if isHidden e.entryName then none
  else
    match e with
    | .file f => if pySuffix f == ".md" then some (pyStem f, .file f) else none
    | .dir d => some (d, .dir d)
    | .other _ => none

/-- One iteration of `sync_from_directory`'s loop. -/
def syncStep (existing : List String) (t : AssetType) (dryRun : Bool)
    (acc : FS × Nat × Nat × Option Err) (item : SrcEntry) :
    FS × Nat × Nat × Option Err :=
  match acc with
  | (fs, a, s, some e) => (fs, a, s, some e)
  | (fs, a, s, none) =>
    match syncName item with
    | none => (fs, a, s, none)
    | some (name, srcPath) =>
      if existing.contains name then (fs, a, s + 1, none)
      else if dryRun then (fs, a + 1, s, none)
      else
        match add_to_registry fs srcPath t (some name) with
        | (fs', .ok _) => (fs', a + 1, s, none)
        | (fs', .error e) => (fs', a, s, some e)

/-- `sync_from_directory(source_dir, asset_type, dry_run)`: the source
directory is `none` when it does not exist; returns `(added, skipped)`.
The set of already-present names is computed once, up front. -/
def sync_from_directory (fs : FS) (src : Option (List SrcEntry)) (t : AssetType)
    (dryRun : Bool) : FS × Except Err (Nat × Nat) :=
  match src with
  | none => (fs, .error (.notFound "Source directory does not exist"))
  | some items =>
    let existing := (get_registry_assets fs (some t)).map (·.name)
    match items.foldl (syncStep existing t dryRun) (fs, 0, 0, none) with
    | (fs, a, s, none) => (fs, .ok (a, s))
    | (fs, _, _, some e) => (fs, .error e)

/-! ### Operation sequences (for the uniqueness claim) -/

/-- A registry mutation, as in the uniqueness claim. -/
inductive RegOp
  | add (src : Source) (t : AssetType) (name : Option String)
  | ren (old new : String) (t : AssetType)
  | del (name : String) (t : AssetType) (force : Bool)
deriving DecidableEq, Repr

/-- Apply one operation, reporting the reached state and success. -/
def applyOp (fs : FS) : RegOp → FS × Bool
  | .add s t n =>
    let (fs', r) := add_to_registry fs s t n
    (fs', r.toBool)
  | .ren old new t =>
    let (fs', r) := rename_asset fs old new t
    (fs', r.toBool)
  | .del n t f =>
    let (fs', r) := delete_asset fs n t f
    (fs', r.toBool)

/-- Apply a sequence of operations; `none` as soon as one raises. -/
def applySeqOk (fs : FS) : List RegOp → Option FS
  | [] => some fs
  | op :: ops =>
    let (fs', ok) := applyOp fs op
    if ok then applySeqOk fs' ops else none

/-! ### Well-formedness

Invariants every real on-disk state satisfies: within one directory,
entry names never repeat; additionally (for claims that need to locate a
plugin's directory from its `Plugin`) plugin directory names are not
hidden and manifests do not rename their plugin away from its directory
name. -/

/-- No duplicate entry names in any `registry/<type>/` listing. -/
def regWf (fs : FS) : Prop :=
  ∀ t ∈ allAssetTypes, ((regDirEntries fs t).map RegEntry.entryName).Nodup

/-- A parsed manifest either carries no `"name"` or names its own
directory. -/
def manifestSelfNamed (pd : PluginDir) : Prop :=
  pd.manifest = .absent ∨ pd.manifest = .malformed ∨
    pd.manifest = .parsed none ∨ pd.manifest = .parsed (some pd.dirName)

/-- Well-formedness of one plugin directory: not hidden, self-named
manifest, no duplicate entry names in any per-type subdirectory. -/
def pluginDirWf (pd : PluginDir) : Prop :=
  isHidden pd.dirName = false ∧ manifestSelfNamed pd ∧
  ∀ t ∈ allAssetTypes, (((pd.sub t).getD []).map PluginEntry.entryName).Nodup

/-- Plugin-side well-formedness: distinct plugin directory names, each
directory well-formed. -/
def pluginsWf (fs : FS) : Prop :=
  (fs.plugins.map PluginDir.dirName).Nodup ∧ ∀ pd ∈ fs.plugins, pluginDirWf pd

/-- Full well-formedness. -/
def fsWf (fs : FS) : Prop := regWf fs ∧ pluginsWf fs

instance (fs : FS) : Decidable (regWf fs) :=
  inferInstanceAs (Decidable (∀ t ∈ allAssetTypes,
    ((regDirEntries fs t).map RegEntry.entryName).Nodup))

instance (pd : PluginDir) : Decidable (manifestSelfNamed pd) :=
  inferInstanceAs (Decidable (pd.manifest = .absent ∨ pd.manifest = .malformed ∨
    pd.manifest = .parsed none ∨ pd.manifest = .parsed (some pd.dirName)))

instance (pd : PluginDir) : Decidable (pluginDirWf pd) :=
  inferInstanceAs (Decidable (isHidden pd.dirName = false ∧ manifestSelfNamed pd ∧
    ∀ t ∈ allAssetTypes, (((pd.sub t).getD []).map PluginEntry.entryName).Nodup))

instance (fs : FS) : Decidable (pluginsWf fs) :=
  inferInstanceAs (Decidable ((fs.plugins.map PluginDir.dirName).Nodup ∧
    ∀ pd ∈ fs.plugins, pluginDirWf pd))

instance (fs : FS) : Decidable (fsWf fs) :=
  inferInstanceAs (Decidable (regWf fs ∧ pluginsWf fs))

/-- An asset backed by a directory entry of the same name (directory
form) as opposed to the `<name>.md` file form. -/
def Asset.dirBacked (a : Asset) : Prop := a.entry = a.name

/-- Whether `sync` would skip a source entry: it derives a name and that
name is already present in the registry for the type. -/
def syncSkips (fs : FS) (t : AssetType) (e : SrcEntry) : Bool :=
  match syncName e with
  | some (n, _) => ((get_registry_assets fs (some t)).map Asset.name).contains n
  | none => false

/-- Whether `sync` would add a source entry: it derives a name not yet
present in the registry for the type. -/
def syncAdds (fs : FS) (t : AssetType) (e : SrcEntry) : Bool :=
  match syncName e with
  | some (n, _) => !((get_registry_assets fs (some t)).map Asset.name).contains n
  | none => false

/-- Modelled from the spec's §4.5 wording (the per-link classification
rule): a symlink whose resolved target does not exist yields a `broken`
issue; one whose target exists but lies outside the registry root yields
a `warning`; non-symlink entries yield nothing. -/
def classifyEntry (fs : FS) (pname : String) (t : AssetType) (e : PluginEntry) :
    Option Issue :=
  match e.kind with
  | .symlink tgt =>
    if !targetExists fs tgt then some ⟨.broken, pname, t, e.entryName⟩
    else
      match tgt with
      | .reg _ _ => none
      | .outside _ => some ⟨.warning, pname, t, e.entryName⟩
  | _ => none

/-- Modelled from the spec's §4.5 wording: the full issue list, one pass
over every plugin, every asset type, every entry of the existing
per-type subdirectories. -/
def validateIssuesSpec (fs : FS) : List Issue :=
  (get_plugins fs).flatMap fun p =>
    allAssetTypes.flatMap fun t =>
      match (lookupPluginDir fs p.name).bind (·.sub t) with
      | none => []
      | some entries => entries.filterMap (classifyEntry fs p.name t)

/-- An issue that does not clear the overall `valid` flag. -/
def nonBroken (i : Issue) : Bool := i.kind != IssueKind.broken

/-- Total number of plugin references recorded in a usage map. -/
def umTotal (m : UsageMap) : Nat := (m.map fun kv => kv.2.plugins.length).sum

/-- Whether a name matches a registry asset of the given type. -/
def regMatch (fs : FS) (t : AssetType) (n : String) : Bool :=
  (get_registry_assets fs none).any fun a => a.assetType == t && a.name == n

/-- Whether a plugin directory qualifies for `get_plugins`. -/
def pluginVisible (pd : PluginDir) : Bool :=
  !isHidden pd.dirName &&
    (match pd.manifest with
     | .parsed _ => true
     | _ => false)

/-- Remove from one plugin's per-type subdirectory every entry resolving
to the target, writing the listing back. -/
def filterSubdir (t : AssetType) (tgt : LinkTarget) (pd : PluginDir) : PluginDir :=
  pd.setSub t (some (((pd.sub t).getD []).filter fun e => !resolvesTo e tgt))

/-- Apply `filterSubdir` to the named plugin directories. -/
def deletedPlugins (t : AssetType) (tgt : LinkTarget) (names : List String)
    (l : List PluginDir) : List PluginDir :=
  l.map fun pd => if pd.dirName ∈ names then filterSubdir t tgt pd else pd

/-- What the inner rename loop does to one subdirectory listing when it
succeeds: replace the (first) entry resolving to the old registry path by
a fresh symlink named `nl` to the new path. -/
def renameSubdirEntries (oldT : LinkTarget) (nl : String) (newT : LinkTarget)
    (es : List PluginEntry) : List PluginEntry :=
  match es.find? fun x => resolvesTo x oldT with
  | none => es
  | some e => (es.filter fun x => x.entryName != e.entryName) ++ [⟨nl, .symlink newT⟩]

/-- Apply the subdirectory renaming to the named plugin directories. -/
def renamedPlugins (t : AssetType) (oldT : LinkTarget) (nl : String) (newT : LinkTarget)
    (names : List String) (l : List PluginDir) : List PluginDir :=
  l.map fun pd => if pd.dirName ∈ names then
    pd.setSub t (some (renameSubdirEntries oldT nl newT ((pd.sub t).getD []))) else pd

/-- Every asset type is in the enumeration list. -/
theorem mem_allAssetTypes (t : AssetType) : t ∈ allAssetTypes := by
  cases t <;> simp [allAssetTypes]

/-- `regWf` specialised to one type. -/
theorem regWf_at {fs : FS} (h : regWf fs) (t : AssetType) :
    ((regDirEntries fs t).map RegEntry.entryName).Nodup :=
  h t (mem_allAssetTypes t)

/-! ### String helper lemmas -/

/-- Strings with equal character data are equal. -/
theorem strExt {a b : String} (h : a.data = b.data) : a = b := by
  cases a; cases b; exact congrArg String.mk h

/-- Append on explicit character lists. -/
theorem mk_append_mk (l1 l2 : List Char) :
    String.mk l1 ++ String.mk l2 = String.mk (l1 ++ l2) := by
  apply strExt; simp

/-- The dict keys `f"{type.value}:{name}"` are injective in the pair
`(type, name)`. -/
theorem keyStr_inj {t t' : AssetType} {n n' : String}
    (h : keyStr t n = keyStr t' n') : t = t' ∧ n = n' := by
  have hd : (keyStr t n).data = (keyStr t' n').data := by rw [h]
  simp only [keyStr, String.data_append] at hd
  cases t <;> cases t' <;>
    simp_all [AssetType.value] <;> exact strExt hd

/-- A Python name is its stem followed by its suffix. -/
theorem pyStem_append_pySuffix (s : String) : pyStem s ++ pySuffix s = s := by
  cases s with
  | mk data =>
    simp only [pyStem, pySuffix, String.toList]
    cases h : lastDotIdx data with
    | none => simp
    | some i =>
      dsimp only
      by_cases hc : 0 < i ∧ i + 1 < data.length
      · rw [if_pos hc, if_pos hc, mk_append_mk, List.take_append_drop]
      · rw [if_neg hc, if_neg hc]
        apply strExt; simp

/-- A name with suffix `.md` is its stem plus `".md"`. -/
theorem md_entry_eq {f : String} (h : pySuffix f = ".md") :
    f = pyStem f ++ ".md" := by
  conv_lhs => rw [← pyStem_append_pySuffix f]
  rw [h]

/-- A name with suffix `.md` differs from its stem. -/
theorem md_entry_ne_stem {f : String} (h : pySuffix f = ".md") :
    f ≠ pyStem f := by
  intro he
  have h2 := md_entry_eq h
  rw [← he] at h2
  have hlen : f.length = f.length + ".md".length := by
    conv_lhs => rw [h2]
    exact String.length_append _ _
  have h3 : ".md".length = 3 := rfl
  omega

/-! ### Registry scan lemmas -/

/-- Each asset discovered in a type directory carries that type, and its
kind and name determine its backing entry name. -/
theorem assetsOfDir_shape {t : AssetType} {d : Option (List RegEntry)} {a : Asset}
    (ha : a ∈ assetsOfDir t d) :
    a.assetType = t ∧
      (a.entry = a.name ∨ (pySuffix a.entry = ".md" ∧ a.name = pyStem a.entry)) := by
  match d with
  | none => simp [assetsOfDir] at ha
  | some es =>
    simp only [assetsOfDir, List.mem_filterMap] at ha
    obtain ⟨e, _, he⟩ := ha
    by_cases hh : isHidden e.entryName
    · simp [hh] at he
    · cases e with
      | file f =>
        simp only [hh, Bool.false_eq_true, if_false] at he
        by_cases hmd : pySuffix f == ".md"
        · simp only [hmd, if_true] at he
          cases he
          exact ⟨rfl, Or.inr ⟨by simpa using hmd, rfl⟩⟩
        · simp [hmd] at he
      | dir n =>
        simp only [hh, Bool.false_eq_true, if_false] at he
        cases he
        exact ⟨rfl, Or.inl rfl⟩

/-- Two assets of one scan with equal name and equal storage kind have
equal backing entries. -/
theorem entry_eq_of_name_kind {a b : Asset}
    (hsa : a.entry = a.name ∨ (pySuffix a.entry = ".md" ∧ a.name = pyStem a.entry))
    (hsb : b.entry = b.name ∨ (pySuffix b.entry = ".md" ∧ b.name = pyStem b.entry))
    (hn : a.name = b.name) (hk : a.dirBacked ↔ b.dirBacked) :
    a.entry = b.entry := by
  rcases hsa with hda | ⟨hfa, hna⟩
  · have hdb : b.dirBacked := hk.mp hda
    rw [hda, hdb, hn]
  · have hnda : ¬ a.dirBacked := by
      intro hda
      exact md_entry_ne_stem hfa (hda.trans hna)
    have hndb : ¬ b.dirBacked := fun hdb => hnda (hk.mpr hdb)
    rcases hsb with hdb | ⟨hfb, hnb⟩
    · exact absurd hdb hndb
    · rw [md_entry_eq hfa, md_entry_eq hfb, ← hna, ← hnb, hn]

/-- Within one well-formed type directory, discovered assets have
pairwise distinct backing entries. -/
theorem assetsOfDir_pairwise_entry {t : AssetType} {es : List RegEntry}
    (h : (es.map RegEntry.entryName).Nodup) :
    List.Pairwise (fun a b : Asset => a.entry ≠ b.entry) (assetsOfDir t (some es)) := by
  have hp : List.Pairwise (fun e e' : RegEntry => e.entryName ≠ e'.entryName) es := by
    rw [List.Nodup, List.pairwise_map] at h
    exact h
  refine List.Pairwise.filterMap _ ?_ hp
  intro e e' hne a ha b hb
  have hae : a.entry = e.entryName := by
    by_cases hh : isHidden e.entryName
    · simp [hh] at ha
    · cases e with
      | file f =>
        simp only [hh, Bool.false_eq_true, if_false] at ha
        by_cases hmd : pySuffix f == ".md"
        · simp only [hmd, if_true, Option.mem_def, Option.some.injEq] at ha
          cases ha; rfl
        · simp [hmd] at ha
      | dir n =>
        simp only [hh, Bool.false_eq_true, if_false, Option.mem_def,
          Option.some.injEq] at ha
        cases ha; rfl
  have hbe : b.entry = e'.entryName := by
    by_cases hh : isHidden e'.entryName
    · simp [hh] at hb
    · cases e' with
      | file f =>
        simp only [hh, Bool.false_eq_true, if_false] at hb
        by_cases hmd : pySuffix f == ".md"
        · simp only [hmd, if_true, Option.mem_def, Option.some.injEq] at hb
          cases hb; rfl
        · simp [hmd] at hb
      | dir n =>
        simp only [hh, Bool.false_eq_true, if_false, Option.mem_def,
          Option.some.injEq] at hb
        cases hb; rfl
  rw [hae, hbe]
  exact hne

/-- Distinctness transported to the claim's relation: two assets of the
same type, name and storage kind cannot both be produced. -/
theorem uniqueness_of_regWf {fs : FS} (h : regWf fs) :
    List.Pairwise
      (fun a b : Asset =>
        a.assetType = b.assetType → a.name = b.name → ¬(a.dirBacked ↔ b.dirBacked))
      (get_registry_assets fs none) := by
  have hsym : ∀ {a b : Asset},
      (a.assetType = b.assetType → a.name = b.name → ¬(a.dirBacked ↔ b.dirBacked)) →
      (b.assetType = a.assetType → b.name = a.name → ¬(b.dirBacked ↔ a.dirBacked)) := by
    intro a b hab ht hn hk
    exact hab ht.symm hn.symm hk.symm
  refine ((List.perm_insertionSort assetLe _).pairwise_iff hsym).mpr ?_
  have key : ∀ t : AssetType,
      List.Pairwise
        (fun a b : Asset =>
          a.assetType = b.assetType → a.name = b.name → ¬(a.dirBacked ↔ b.dirBacked))
        (assetsOfDir t (fs.regDir t)) := by
    intro t
    cases hd : fs.regDir t with
    | none => simp [assetsOfDir]
    | some es =>
      have hnd : (es.map RegEntry.entryName).Nodup := by
        have := regWf_at h t
        rw [regDirEntries, hd] at this
        exact this
      refine List.Pairwise.imp_of_mem ?_ (assetsOfDir_pairwise_entry (t := t) hnd)
      intro a b ha hb hne ht hn hk
      exact hne (entry_eq_of_name_kind
        (assetsOfDir_shape ha).2 (assetsOfDir_shape hb).2 hn hk)
  have cross : ∀ {t t' : AssetType}, t ≠ t' →
      ∀ a ∈ assetsOfDir t (fs.regDir t), ∀ b ∈ assetsOfDir t' (fs.regDir t'),
        a.assetType = b.assetType → a.name = b.name → ¬(a.dirBacked ↔ b.dirBacked) := by
    intro t t' htt a ha b hb hab
    have h1 := (assetsOfDir_shape ha).1
    have h2 := (assetsOfDir_shape hb).1
    exact absurd (h1 ▸ h2 ▸ hab) htt
  show List.Pairwise _ (allAssetTypes.flatMap _)
  simp only [allAssetTypes, List.flatMap_cons, List.flatMap_nil, List.append_nil]
  rw [List.pairwise_append, List.pairwise_append]
  refine ⟨key .command, ⟨key .agent, key .skill, cross (by simp) ⟩, ?_⟩
  intro a ha b hb
  rw [List.mem_append] at hb
  rcases hb with hb | hb
  · exact cross (by simp) a ha b hb
  · exact cross (by simp) a ha b hb

/-! ### Frame lemmas for the state accessors -/

/-- Reading back the written registry directory. -/
theorem regDir_setRegDir_self (fs : FS) (t : AssetType) (d : Option (List RegEntry)) :
    (fs.setRegDir t d).regDir t = d := by
  cases t <;> rfl

/-- Writing one registry directory leaves the others unchanged. -/
theorem regDir_setRegDir_other {t t' : AssetType} (h : t' ≠ t) (fs : FS)
    (d : Option (List RegEntry)) : (fs.setRegDir t d).regDir t' = fs.regDir t' := by
  cases t <;> cases t' <;> first | rfl | exact absurd rfl h

/-- Updating a plugin subdirectory does not touch the registry. -/
theorem regDir_updatePlugin (fs : FS) (n : String) (t : AssetType)
    (es : List PluginEntry) (t' : AssetType) :
    (fs.updatePlugin n t es).regDir t' = fs.regDir t' := by
  cases t' <;> rfl

/-- Writing a registry directory does not touch the plugins. -/
theorem plugins_setRegDir (fs : FS) (t : AssetType) (d : Option (List RegEntry)) :
    (fs.setRegDir t d).plugins = fs.plugins := by
  cases t <;> rfl

/-- `regWf` only depends on the registry directories. -/
theorem regWf_of_regDir_eq {a b : FS} (h : ∀ t', a.regDir t' = b.regDir t')
    (hb : regWf b) : regWf a := by
  intro t ht
  simp only [regDirEntries, h]
  exact regWf_at hb t

/-- `rename_asset`'s plugin loop never touches the registry. -/
theorem renamePluginStep_regDir (t : AssetType) (oT : LinkTarget) (nl : String)
    (nT : LinkTarget) (acc : FS × Option Err) (p : Plugin) (t' : AssetType) :
    ((renamePluginStep t oT nl nT acc p).1).regDir t' = (acc.1).regDir t' := by
  unfold renamePluginStep
  split
  · rfl
  · split
    · rfl
    · split
      · rfl
      · split
        exact regDir_updatePlugin ..

/-- Fold version of the previous lemma. -/
theorem foldl_renamePlugins_regDir (t : AssetType) (oT : LinkTarget) (nl : String)
    (nT : LinkTarget) (ps : List Plugin) (acc : FS × Option Err) (t' : AssetType) :
    ((ps.foldl (renamePluginStep t oT nl nT) acc).1).regDir t' = (acc.1).regDir t' := by
  induction ps generalizing acc with
  | nil => rfl
  | cons p ps ih => rw [List.foldl_cons, ih, renamePluginStep_regDir]

/-- `delete_asset`'s plugin loop never touches the registry. -/
theorem deletePluginStep_regDir (t : AssetType) (tgt : LinkTarget)
    (acc : FS × Option Err) (p : Plugin) (t' : AssetType) :
    ((deletePluginStep t tgt acc p).1).regDir t' = (acc.1).regDir t' := by
  unfold deletePluginStep
  split
  · rfl
  · split
    · rfl
    · split
      · rfl
      · exact regDir_updatePlugin ..

/-- Fold version of the previous lemma. -/
theorem foldl_deletePlugins_regDir (t : AssetType) (tgt : LinkTarget)
    (ps : List Plugin) (acc : FS × Option Err) (t' : AssetType) :
    ((ps.foldl (deletePluginStep t tgt) acc).1).regDir t' = (acc.1).regDir t' := by
  induction ps generalizing acc with
  | nil => rfl
  | cons p ps ih => rw [List.foldl_cons, ih, deletePluginStep_regDir]

/-! ### Preservation of registry well-formedness -/

/-- A name the registry lookup misses is not among the entry names. -/
theorem not_mem_names_of_not_hasEntry {fs : FS} {t : AssetType} {n : String}
    (h : regHasEntry fs t n = false) :
    n ∉ (regDirEntries fs t).map RegEntry.entryName := by
  intro hmem
  rw [List.mem_map] at hmem
  obtain ⟨e, he, hen⟩ := hmem
  unfold regHasEntry regLookup at h
  cases hd : fs.regDir t with
  | none =>
    rw [regDirEntries, hd] at he
    simp at he
  | some es =>
    rw [hd] at h
    have hfn : es.find? (fun x => x.entryName == n) = none := by
      cases hfind : es.find? (fun x => x.entryName == n) with
      | none => rfl
      | some v => simp [hfind] at h
    rw [List.find?_eq_none] at hfn
    rw [regDirEntries, hd] at he
    exact hfn e he (by simp [hen])

/-- Substituting one absent name for another preserves distinctness. -/
theorem nodup_map_subst {l : List String} {o n : String} (hn : n ∉ l) (hd : l.Nodup) :
    (l.map fun x => if x = o then n else x).Nodup := by
  induction l with
  | nil => simp
  | cons a l ih =>
    rw [List.map_cons, List.nodup_cons]
    rw [List.nodup_cons] at hd
    rw [List.mem_cons, not_or] at hn
    refine ⟨?_, ih hn.2 hd.2⟩
    intro hmem
    rw [List.mem_map] at hmem
    obtain ⟨x, hx, hxe⟩ := hmem
    by_cases hao : a = o
    · rw [if_pos hao] at hxe
      by_cases hxo : x = o
      · rw [hao] at hd
        exact hd.1 (hxo ▸ hx)
      · rw [if_neg hxo] at hxe
        exact hn.2 (hxe ▸ hx)
    · rw [if_neg hao] at hxe
      by_cases hxo : x = o
      · rw [if_pos hxo] at hxe
        exact hn.1 hxe
      · rw [if_neg hxo] at hxe
        exact hd.1 (hxe ▸ hx)

/-- Re-creating a registry type directory with its own listing preserves
well-formedness. -/
theorem regWf_set_same {fs : FS} (h : regWf fs) (t : AssetType) :
    regWf (fs.setRegDir t (some (regDirEntries fs t))) := by
  intro t' ht'
  by_cases he : t' = t
  · subst he
    simp only [regDirEntries, regDir_setRegDir_self, Option.getD_some]
    exact regWf_at h t'
  · simp only [regDirEntries, regDir_setRegDir_other he]
    exact regWf_at h t'

/-- Appending an entry with a fresh name preserves well-formedness. -/
theorem regWf_append {fs : FS} (h : regWf fs) (t : AssetType) (e : RegEntry)
    (he : regHasEntry fs t e.entryName = false) :
    regWf (fs.setRegDir t (some (regDirEntries fs t ++ [e]))) := by
  intro t' ht'
  by_cases heq : t' = t
  · subst heq
    simp only [regDirEntries, regDir_setRegDir_self, Option.getD_some, List.map_append,
      List.map_cons, List.map_nil]
    rw [List.nodup_append]
    refine ⟨regWf_at h t', List.nodup_singleton _, ?_⟩
    intro x hx hx1
    rw [List.mem_singleton] at hx1
    subst hx1
    exact not_mem_names_of_not_hasEntry he hx
  · simp only [regDirEntries, regDir_setRegDir_other heq]
    exact regWf_at h t'

/-- `add_to_registry` preserves registry well-formedness, whatever its
outcome. -/
theorem regWf_add {fs : FS} (h : regWf fs) (src : Source) (t : AssetType)
    (name? : Option String) : regWf (add_to_registry fs src t name?).1 := by
  unfold add_to_registry
  cases src with
  | missing n => exact h
  | file f =>
    dsimp only
    split
    · exact regWf_set_same h t
    · next hcond =>
      have hbase := regWf_set_same h t
      refine regWf_append hbase t (.file f) ?_
      rw [Bool.not_eq_true] at hcond
      exact hcond
  | dir d =>
    dsimp only
    split
    · exact regWf_set_same h t
    · next hcond =>
      have hbase := regWf_set_same h t
      refine regWf_append hbase t (.dir (name?.getD d)) ?_
      rw [Bool.not_eq_true] at hcond
      exact hcond

/-- The names after `renameRegistry` are the old names with
`oldEntryName` substituted by `newEntryName`. -/
theorem renameRegistry_names (fs : FS) (t : AssetType) (o n : String) (isFile : Bool) :
    (regDirEntries (renameRegistry fs t o n isFile) t).map RegEntry.entryName =
      ((regDirEntries fs t).map RegEntry.entryName).map
        fun x => if x = o then n else x := by
  unfold renameRegistry
  simp only [regDirEntries, regDir_setRegDir_self, Option.getD_some]
  rw [List.map_map, List.map_map]
  apply List.map_congr_left
  intro e he
  by_cases hx : e.entryName = o
  · simp only [Function.comp_apply, hx, beq_self_eq_true, if_true, if_pos]
    cases isFile <;> simp [RegEntry.entryName]
  · have hb : (e.entryName == o) = false := by simp [hx]
    simp [Function.comp_apply, hb, hx]

/-- `renameRegistry` does not touch the other type directories. -/
theorem renameRegistry_regDir_other {t t' : AssetType} (h : t' ≠ t) (fs : FS)
    (o n : String) (isFile : Bool) :
    (renameRegistry fs t o n isFile).regDir t' = fs.regDir t' :=
  regDir_setRegDir_other h ..

/-- `renameRegistry` to a fresh name preserves well-formedness. -/
theorem regWf_renameRegistry {fs : FS} (h : regWf fs) {t : AssetType} {o n : String}
    (isFile : Bool) (hn : regHasEntry fs t n = false) :
    regWf (renameRegistry fs t o n isFile) := by
  intro t' ht'
  by_cases heq : t' = t
  · subst heq
    rw [renameRegistry_names]
    exact nodup_map_subst (not_mem_names_of_not_hasEntry hn) (regWf_at h t')
  · unfold renameRegistry
    simp only [regDirEntries, regDir_setRegDir_other heq]
    exact regWf_at h t'

/-- `rename_asset`'s tail (plugin loop plus result assembly) preserves
registry well-formedness. -/
theorem regWf_rename_tail {fs1 : FS} (hwf1 : regWf fs1) (t : AssetType)
    (oT : LinkTarget) (nl : String) (nT : LinkTarget) (ps : List Plugin) :
    regWf ((match ps.foldl (renamePluginStep t oT nl nT) (fs1, none) with
      | (fs2, some e) => ((fs2 : FS), (Except.error e : Except Err Unit))
      | (fs2, none) => (fs2, Except.ok ())) : FS × Except Err Unit).1 := by
  rcases hres : ps.foldl (renamePluginStep t oT nl nT) (fs1, none) with ⟨fs2, err?⟩
  have hreg2 : ∀ t', fs2.regDir t' = fs1.regDir t' := by
    intro t'
    have := foldl_renamePlugins_regDir t oT nl nT ps (fs1, none) t'
    rw [hres] at this
    exact this
  cases err? <;> exact regWf_of_regDir_eq hreg2 hwf1

/-- `rename_asset` preserves registry well-formedness, whatever its
outcome. -/
theorem regWf_rename {fs : FS} (h : regWf fs) (old new : String) (t : AssetType) :
    regWf (rename_asset fs old new t).1 := by
  unfold rename_asset
  cases hf : findAssetEntry fs t old with
  | none => exact h
  | some oldEntry =>
    dsimp only
    by_cases hnew :
        regHasEntry fs t (if oldEntry.isFileEntry then new ++ ".md" else new) = true
    · rw [if_pos hnew]
      exact h
    · rw [if_neg hnew]
      rw [Bool.not_eq_true] at hnew
      exact regWf_rename_tail (regWf_renameRegistry h oldEntry.isFileEntry hnew) _ _ _ _ _

/-- `delete_asset`'s tail preserves registry well-formedness. -/
theorem regWf_delete_tail {fs : FS} (h : regWf fs) (t : AssetType)
    (entry : RegEntry) (ps : List Plugin) :
    regWf ((match ps.foldl (deletePluginStep t (.reg t entry.entryName)) (fs, none) with
      | (fs1, some e) => ((fs1 : FS), (Except.error e : Except Err Unit))
      | (fs1, none) =>
        (fs1.setRegDir t
          (some ((regDirEntries fs1 t).filter fun e => e.entryName != entry.entryName)),
         Except.ok ())) : FS × Except Err Unit).1 := by
  rcases hres : ps.foldl (deletePluginStep t (.reg t entry.entryName)) (fs, none)
    with ⟨fs1, err?⟩
  have hreg1 : ∀ t', fs1.regDir t' = fs.regDir t' := by
    intro t'
    have := foldl_deletePlugins_regDir t (.reg t entry.entryName) ps (fs, none) t'
    rw [hres] at this
    exact this
  have hwf1 : regWf fs1 := regWf_of_regDir_eq hreg1 h
  cases err? with
  | some e => exact hwf1
  | none =>
    intro t' ht'
    by_cases heq : t' = t
    · subst heq
      simp only [regDirEntries, regDir_setRegDir_self, Option.getD_some]
      refine List.Nodup.sublist (List.Sublist.map _ (List.filter_sublist _)) ?_
      exact regWf_at hwf1 t'
    · simp only [regDirEntries, regDir_setRegDir_other heq]
      exact regWf_at hwf1 t'

/-- `delete_asset` preserves registry well-formedness, whatever its
outcome. -/
theorem regWf_delete {fs : FS} (h : regWf fs) (name : String) (t : AssetType)
    (force : Bool) : regWf (delete_asset fs name t force).1 := by
  unfold delete_asset
  split
  · exact h
  · cases hf : findAssetEntry fs t name with
    | none => exact h
    | some entry => exact regWf_delete_tail h t entry (get_plugins fs)

/-- Every operation preserves registry well-formedness, whatever its
outcome. -/
theorem regWf_applyOp {fs : FS} (h : regWf fs) (op : RegOp) :
    regWf (applyOp fs op).1 := by
  cases op with
  | add s t n =>
    have := regWf_add h s t n
    rcases hres : add_to_registry fs s t n with ⟨fs', r⟩
    rw [hres] at this
    simp only [applyOp, hres]
    exact this
  | ren old new t =>
    have := regWf_rename h old new t
    rcases hres : rename_asset fs old new t with ⟨fs', r⟩
    rw [hres] at this
    simp only [applyOp, hres]
    exact this
  | del n t f =>
    have := regWf_delete h n t f
    rcases hres : delete_asset fs n t f with ⟨fs', r⟩
    rw [hres] at this
    simp only [applyOp, hres]
    exact this

/-- A completed operation sequence preserves registry well-formedness. -/
theorem regWf_applySeqOk {fs fs' : FS} {ops : List RegOp} (h : regWf fs)
    (ha : applySeqOk fs ops = some fs') : regWf fs' := by
  induction ops generalizing fs with
  | nil =>
    unfold applySeqOk at ha
    cases ha
    exact h
  | cons op ops ih =>
    unfold applySeqOk at ha
    rcases hres : applyOp fs op with ⟨fs1, ok⟩
    rw [hres] at ha
    dsimp only at ha
    cases ok with
    | false => simp at ha
    | true =>
      rw [if_pos rfl] at ha
      have hwf1 : regWf fs1 := by
        have := regWf_applyOp h op
        rw [hres] at this
        exact this
      exact ih hwf1 ha

end PB

namespace PB

/-! ### Claim C1 — registry uniqueness -/

/-- **C1, counterexample.**  Starting from an empty (duplicate-free)
registry, the error-free sequence "add directory asset `a`, add file
asset `a.md`" produces two registry assets that share
`(asset_type, name) = (commands, "a")`: `add_to_registry` only checks for
an existing target of the *same storage form*, so a file-backed and a
directory-backed asset of the same name coexist. -/
theorem registry_uniqueness_counterexample :
    get_registry_assets (⟨some [], some [], some [], [], []⟩ : FS) none = [] ∧
    applySeqOk (⟨some [], some [], some [], [], []⟩ : FS)
        [.add (.dir "a") .command none, .add (.file "a.md") .command none] =
      some ⟨some [.dir "a", .file "a.md"], some [], some [], [], []⟩ ∧
    ¬ List.Pairwise (fun a b : Asset => ¬(a.assetType = b.assetType ∧ a.name = b.name))
        (get_registry_assets
          (⟨some [.dir "a", .file "a.md"], some [], some [], [], []⟩ : FS) none) := by
  refine ⟨by decide, by decide, ?_⟩
  intro hp
  have h2 : get_registry_assets
      (⟨some [.dir "a", .file "a.md"], some [], some [], [], []⟩ : FS) none =
      [⟨"a", .command, "a"⟩, ⟨"a", .command, "a.md"⟩] := by decide
  rw [h2, List.pairwise_cons] at hp
  exact hp.1 ⟨"a", .command, "a.md"⟩ (by simp) ⟨rfl, rfl⟩

/-- **C1 (amended).**  Starting from a well-formed registry (no directory
listing repeats an entry name — in particular no two assets share
`(asset_type, name, storage kind)`), after any error-free sequence of
add-to-registry, rename and delete operations, no two assets returned by
`get_registry_assets` share `(asset_type, name)` *and* the same storage
kind (file-backed vs directory-backed); a file-backed and a
directory-backed asset may still share `(asset_type, name)`, as the
counterexample shows. -/
theorem registry_uniqueness_amended (fs : FS) (ops : List RegOp) (fs' : FS)
    (hwf : regWf fs) (h : applySeqOk fs ops = some fs') :
    List.Pairwise
      (fun a b : Asset =>
        a.assetType = b.assetType → a.name = b.name → ¬(a.dirBacked ↔ b.dirBacked))
      (get_registry_assets fs' none) :=
  uniqueness_of_regWf (regWf_applySeqOk hwf h)

/-- **C1, witness.**  The amended theorem applied to a concrete two-step
sequence. -/
theorem registry_uniqueness_amended_witness :
    List.Pairwise
      (fun a b : Asset =>
        a.assetType = b.assetType → a.name = b.name → ¬(a.dirBacked ↔ b.dirBacked))
      (get_registry_assets
        (⟨some [.dir "a", .file "a.md"], some [], some [], [], []⟩ : FS) none) :=
  registry_uniqueness_amended ⟨some [], some [], some [], [], []⟩
    [.add (.dir "a") .command none, .add (.file "a.md") .command none]
    ⟨some [.dir "a", .file "a.md"], some [], some [], [], []⟩
    (by decide) (by decide)

end PB

namespace PB

/-! ### Claim C9 — sync dry-run frame property -/

/-- In dry-run mode the sync loop keeps the filesystem untouched, never
raises, and counts exactly the would-add and already-existing entries. -/
theorem syncStep_foldl_dry (existing : List String) (t : AssetType) :
    ∀ (items : List SrcEntry) (fs : FS) (a s : Nat),
      items.foldl (syncStep existing t true) (fs, a, s, none) =
        (fs,
         a + items.countP (fun e =>
           match syncName e with
           | some (n, _) => !existing.contains n
           | none => false),
         s + items.countP (fun e =>
           match syncName e with
           | some (n, _) => existing.contains n
           | none => false),
         none) := by
  intro items
  induction items with
  | nil => intro fs a s; simp
  | cons e items ih =>
    intro fs a s
    rw [List.foldl_cons]
    cases hn : syncName e with
    | none =>
      have hstep : syncStep existing t true (fs, a, s, none) e = (fs, a, s, none) := by
        unfold syncStep
        rw [hn]
      rw [hstep, ih, List.countP_cons, List.countP_cons]
      simp [hn]
    | some np =>
      rcases np with ⟨n, sp⟩
      cases hc : existing.contains n with
      | true =>
        have hstep : syncStep existing t true (fs, a, s, none) e = (fs, a, s + 1, none) := by
          unfold syncStep
          rw [hn]
          dsimp only
          rw [hc]
          rfl
        rw [hstep, ih, List.countP_cons, List.countP_cons]
        simp only [hn, hc, Bool.not_true, Bool.not_false, Bool.false_eq_true,
          Bool.true_eq_false, if_false, if_true, Nat.add_zero, Prod.mk.injEq,
          eq_self_iff_true, true_and, and_true]
        omega
      | false =>
        have hstep : syncStep existing t true (fs, a, s, none) e = (fs, a + 1, s, none) := by
          unfold syncStep
          rw [hn]
          dsimp only
          rw [hc]
          rfl
        rw [hstep, ih, List.countP_cons, List.countP_cons]
        simp only [hn, hc, Bool.not_true, Bool.not_false, Bool.false_eq_true,
          Bool.true_eq_false, if_false, if_true, Nat.add_zero, Prod.mk.injEq,
          eq_self_iff_true, true_and, and_true]
        omega

/-- **C9.**  `sync_from_directory` with `dry_run` set writes nothing:
the filesystem component of the result is the input state itself; it
still succeeds, reporting as `added` the number of qualifying entries
whose derived name is new and as `skipped` the number whose derived name
already exists in the registry for that type. -/
theorem sync_dry_run_frame (fs : FS) (items : List SrcEntry) (t : AssetType) :
    sync_from_directory fs (some items) t true =
      (fs, .ok (items.countP (syncAdds fs t), items.countP (syncSkips fs t))) := by
  have ha : items.countP (fun e =>
      match syncName e with
      | some (n, _) => !((get_registry_assets fs (some t)).map (fun x => x.name)).contains n
      | none => false) = items.countP (syncAdds fs t) := by
    apply List.countP_congr
    intro e he
    unfold syncAdds
    cases syncName e with
    | none => rfl
    | some np => rcases np with ⟨n, sp⟩; rfl
  have hs : items.countP (fun e =>
      match syncName e with
      | some (n, _) => ((get_registry_assets fs (some t)).map (fun x => x.name)).contains n
      | none => false) = items.countP (syncSkips fs t) := by
    apply List.countP_congr
    intro e he
    unfold syncSkips
    cases syncName e with
    | none => rfl
    | some np => rcases np with ⟨n, sp⟩; rfl
  unfold sync_from_directory
  dsimp only
  rw [syncStep_foldl_dry]
  dsimp only
  rw [Nat.zero_add, Nat.zero_add, ha, hs]

end PB

namespace PB

/-! ### Claim C7 — validator classification -/

/-- Generic accumulation: a fold whose step conjoins a flag and appends
a per-element issue list. -/
theorem foldl_accum {β : Type} (g : (Bool × List Issue) → β → (Bool × List Issue))
    (I : β → List Issue)
    (hg : ∀ acc b, g acc b = (acc.1 && (I b).all nonBroken, acc.2 ++ I b)) :
    ∀ (l : List β) (acc : Bool × List Issue),
      l.foldl g acc = (acc.1 && (l.flatMap I).all nonBroken, acc.2 ++ l.flatMap I) := by
  intro l
  induction l with
  | nil =>
    intro acc
    simp
  | cons b l ih =>
    intro acc
    rw [List.foldl_cons, hg, ih]
    simp [List.all_append, Bool.and_assoc, List.flatMap_cons]

/-- `filterMap` as a `flatMap` of `Option.toList`. -/
theorem filterMap_eq_flatMap_toList {α β : Type} (f : α → Option β) (l : List α) :
    l.flatMap (fun a => (f a).toList) = l.filterMap f := by
  induction l with
  | nil => rfl
  | cons a l ih =>
    rw [List.flatMap_cons, List.filterMap_cons]
    cases f a with
    | none => simpa using ih
    | some b => simp [ih]

/-- The per-entry accumulation step of `validate` produces exactly the
spec's classification. -/
theorem validateStepEntry_eq (fs : FS) (pname : String) (t : AssetType)
    (acc : Bool × List Issue) (e : PluginEntry) :
    validateStepEntry fs pname t acc e =
      (acc.1 && ((classifyEntry fs pname t e).toList).all nonBroken,
       acc.2 ++ (classifyEntry fs pname t e).toList) := by
  unfold validateStepEntry classifyEntry
  cases e.kind with
  | file => simp
  | dir => simp
  | symlink tgt =>
    dsimp only
    cases hex : targetExists fs tgt with
    | false =>
      simp [nonBroken]
    | true =>
      cases tgt with
      | reg t' e' => simp
      | outside p => simp [nonBroken]

/-- The per-type accumulation of `validate` for one plugin. -/
theorem validate_types_foldl (fs : FS) (pname : String) (acc : Bool × List Issue) :
    allAssetTypes.foldl
      (fun acc t =>
        match (lookupPluginDir fs pname).bind (·.sub t) with
        | none => acc
        | some entries => entries.foldl (validateStepEntry fs pname t) acc)
      acc =
      (acc.1 &&
        (allAssetTypes.flatMap fun t =>
          match (lookupPluginDir fs pname).bind (·.sub t) with
          | none => []
          | some entries => entries.filterMap (classifyEntry fs pname t)).all nonBroken,
       acc.2 ++
        allAssetTypes.flatMap fun t =>
          match (lookupPluginDir fs pname).bind (·.sub t) with
          | none => []
          | some entries => entries.filterMap (classifyEntry fs pname t)) := by
  apply foldl_accum
  intro acc t
  cases hsub : (lookupPluginDir fs pname).bind (·.sub t) with
  | none => simp
  | some entries =>
    dsimp only
    have := foldl_accum (validateStepEntry fs pname t)
      (fun e => (classifyEntry fs pname t e).toList)
      (validateStepEntry_eq fs pname t) entries acc
    rw [this, filterMap_eq_flatMap_toList]

/-- The fold of `validate` equals the spec classification, for every
state. -/
theorem validate_eq_spec (fs : FS) :
    validate fs = ((validateIssuesSpec fs).all nonBroken, validateIssuesSpec fs) := by
  unfold validate validateIssuesSpec
  have := foldl_accum
    (fun acc p =>
      allAssetTypes.foldl
        (fun acc t =>
          match (lookupPluginDir fs p.name).bind (·.sub t) with
          | none => acc
          | some entries => entries.foldl (validateStepEntry fs p.name t) acc)
        acc)
    (fun p =>
      allAssetTypes.flatMap fun t =>
        match (lookupPluginDir fs p.name).bind (·.sub t) with
        | none => []
        | some entries => entries.filterMap (classifyEntry fs p.name t))
    (fun acc p => validate_types_foldl fs p.name acc)
    (get_plugins fs) (true, [])
  rw [this]
  simp

end PB

namespace PB

/-- **C7.**  `validate` reports exactly one issue per symbolic-link
entry that is dangling (`broken`, clearing the overall flag) or resolves
outside the registry (`warning`, not affecting the flag), nothing for
other entries; the boolean is `true` exactly when no `broken` issue
exists.  In particular, a plugin holding one link to an existing
registry path and one link to a deleted path yields exactly one `broken`
issue and overall `false`. -/
theorem validator_classification :
    (∀ fs : FS,
      validate fs = ((validateIssuesSpec fs).all nonBroken, validateIssuesSpec fs)) ∧
    validate
      (⟨some [.file "a.md"], some [], some [],
        [⟨"P", .parsed none,
          some [⟨"a.md", .symlink (.reg .command "a.md")⟩,
                ⟨"gone.md", .symlink (.reg .command "gone.md")⟩],
          some [], some []⟩], []⟩ : FS) =
      (false, [⟨.broken, "P", .command, "gone.md"⟩]) :=
  ⟨validate_eq_spec, by decide⟩

end PB

namespace PB

/-! ### Usage map lemmas -/

/-- Keys are untouched by `umAppend`. -/
theorem umAppend_keys (m : UsageMap) (k : String) (pn : String) :
    (umAppend m k pn).map Prod.fst = m.map Prod.fst := by
  unfold umAppend
  rw [List.map_map]
  apply List.map_congr_left
  intro p hp
  show (if p.1 == k then (p.1, { p.2 with plugins := p.2.plugins ++ [pn] }) else p).1 = p.1
  split
  · rfl
  · rfl

/-- Lookup into a cons cell of the association list. -/
theorem umLookup_cons (a : String × UsageInfo) (m : UsageMap) (k : String) :
    umLookup (a :: m) k = if a.1 == k then some a.2 else umLookup m k := by
  unfold umLookup
  rw [List.find?]
  cases h : (a.1 == k) with
  | true => simp [h]
  | false => simp [h]

/-- Lookup through `umAppend`. -/
theorem umLookup_umAppend (m : UsageMap) (k' : String) (pn : String) (k : String) :
    umLookup (umAppend m k' pn) k =
      if k = k' then
        (umLookup m k).map fun u => { u with plugins := u.plugins ++ [pn] }
      else umLookup m k := by
  induction m with
  | nil =>
    unfold umAppend umLookup
    by_cases h : k = k' <;> simp [h]
  | cons a m ih =>
    show umLookup ((if a.1 == k' then (a.1, { a.2 with plugins := a.2.plugins ++ [pn] })
        else a) :: umAppend m k' pn) k = _
    by_cases hak' : a.1 = k' <;> by_cases hak : a.1 = k
    · subst hak' hak
      simp [umLookup_cons]
    · subst hak'
      have h1 : (a.1 == k) = false := by simp [hak]
      have h2 : ¬ k = a.1 := fun h => hak h.symm
      simp [umLookup_cons, h1, h2, ih]
    · subst hak
      have h1 : (a.1 == k') = false := by simp [hak']
      simp [umLookup_cons, h1, hak']
    · have h1 : (a.1 == k') = false := by simp [hak']
      have h2 : (a.1 == k) = false := by simp [hak]
      simp [umLookup_cons, h1, h2, ih]

end PB

namespace PB

/-- Presence of a key in the association list. -/
theorem find?_key_isSome (m : UsageMap) (k : String) :
    (m.find? (·.1 == k)).isSome = true ↔ k ∈ m.map Prod.fst := by
  induction m with
  | nil => simp
  | cons a m ih =>
    rw [List.find?]
    cases h : (a.1 == k) with
    | true =>
      simp only [Option.isSome_some, List.map_cons, List.mem_cons, true_iff]
      have ha : a.1 = k := by simpa using h
      exact Or.inl ha.symm
    | false =>
      simp only [List.map_cons, List.mem_cons]
      constructor
      · intro hh
        exact Or.inr (ih.mp hh)
      · intro hh
        rcases hh with hh | hh
        · exact absurd hh.symm (by simpa using h)
        · exact ih.mpr hh

/-- A key outside the key list looks up to nothing. -/
theorem umLookup_none_of_not_mem {m : UsageMap} {k : String}
    (h : k ∉ m.map Prod.fst) : umLookup m k = none := by
  unfold umLookup
  cases hf : m.find? (·.1 == k) with
  | none => rfl
  | some v =>
    exact absurd ((find?_key_isSome m k).mp (by rw [hf]; rfl)) h

/-- Keys after `umInsert`. -/
theorem umInsert_keys (m : UsageMap) (k : String) (u : UsageInfo) :
    (umInsert m k u).map Prod.fst =
      if k ∈ m.map Prod.fst then m.map Prod.fst
      else m.map Prod.fst ++ [k] := by
  unfold umInsert
  by_cases h : k ∈ m.map Prod.fst
  · rw [if_pos ((find?_key_isSome m k).mpr h), if_pos h]
    rw [List.map_map]
    apply List.map_congr_left
    intro p hp
    show (if p.1 == k then (p.1, u) else p).1 = p.1
    split
    · rfl
    · rfl
  · have : (m.find? (·.1 == k)).isSome = false := by
      cases hf : (m.find? (·.1 == k)).isSome with
      | false => rfl
      | true => exact absurd ((find?_key_isSome m k).mp hf) h
    rw [if_neg (by simp [this]), if_neg h]
    simp

/-- Lookup through the overwrite branch of `umInsert`. -/
theorem umLookup_replace (m : UsageMap) (k : String) (u : UsageInfo) (k' : String) :
    umLookup (m.map fun p => if p.1 == k then (p.1, u) else p) k' =
      if k' = k then (umLookup m k).map (fun _ => u) else umLookup m k' := by
  induction m with
  | nil => by_cases h : k' = k <;> simp [umLookup, h]
  | cons a m ih =>
    rw [List.map_cons, umLookup_cons]
    by_cases hak : a.1 = k <;> by_cases hak' : a.1 = k'
    · have hkk : k' = k := by rw [← hak', hak]
      subst hkk
      subst hak
      simp [umLookup_cons]
    · subst hak
      have h2 : ¬ k' = a.1 := fun hh => hak' hh.symm
      have hb : (a.1 == k') = false := by simp [hak']
      simp only [beq_iff_eq] at ih
      simp [umLookup_cons, ih, h2, hb]
    · subst hak'
      have hb : (a.1 == k) = false := by simp [hak]
      simp only [beq_iff_eq] at ih
      simp [umLookup_cons, ih, hb, hak]
    · have hb : (a.1 == k) = false := by simp [hak]
      have hb' : (a.1 == k') = false := by simp [hak']
      simp only [beq_iff_eq] at ih
      simp [umLookup_cons, hb, hb', ih]

/-- A present key looks up to something. -/
theorem umLookup_isSome_of_mem {m : UsageMap} {k : String}
    (h : k ∈ m.map Prod.fst) : (umLookup m k).isSome = true := by
  unfold umLookup
  cases hf : List.find? (fun x => x.1 == k) m with
  | none =>
    have := (find?_key_isSome m k).mpr h
    rw [hf] at this
    simp at this
  | some v => simp

/-- Lookup through `umInsert`. -/
theorem umLookup_umInsert (m : UsageMap) (k : String) (u : UsageInfo) (k' : String) :
    umLookup (umInsert m k u) k' = if k' = k then some u else umLookup m k' := by
  unfold umInsert
  by_cases h : (m.find? (·.1 == k)).isSome = true
  · rw [if_pos h]
    rw [umLookup_replace]
    by_cases hkk : k' = k
    · rw [if_pos hkk, if_pos hkk]
      have hm : k ∈ m.map Prod.fst := (find?_key_isSome m k).mp h
      cases hf : umLookup m k with
      | none =>
        have := umLookup_isSome_of_mem hm
        rw [hf] at this
        simp at this
      | some v => simp
    · rw [if_neg hkk, if_neg hkk]
  · rw [if_neg h]
    have hc : k ∉ m.map Prod.fst := fun hm => h ((find?_key_isSome m k).mpr hm)
    unfold umLookup
    rw [List.find?_append]
    by_cases hkk : k' = k
    · subst hkk
      have h0 := umLookup_none_of_not_mem hc
      unfold umLookup at h0
      cases hf : m.find? (·.1 == k') with
      | none => simp
      | some v => rw [hf] at h0; simp at h0
    · have hke : (k == k') = false := by
        simp only [beq_eq_false_iff_ne, ne_eq]
        exact fun hh => hkk hh.symm
      rw [if_neg hkk]
      cases hf : m.find? (·.1 == k') with
      | none => simp [List.find?, hke]
      | some v => simp

end PB

namespace PB

/-- Keys present after the initialisation fold. -/
theorem usageInit_mem_keys (l : List Asset) (m : UsageMap) (k : String) :
    k ∈ (l.foldl usageInitStep m).map Prod.fst ↔
      k ∈ m.map Prod.fst ∨ ∃ a ∈ l, k = keyStr a.assetType a.name := by
  induction l generalizing m with
  | nil => simp
  | cons a l ih =>
    rw [List.foldl_cons, ih]
    unfold usageInitStep
    rw [umInsert_keys]
    by_cases h : keyStr a.assetType a.name ∈ m.map Prod.fst
    · rw [if_pos h]
      constructor
      · intro hh
        rcases hh with hh | hh
        · exact Or.inl hh
        · exact Or.inr (by obtain ⟨b, hb, he⟩ := hh; exact ⟨b, by simp [hb], he⟩)
      · intro hh
        rcases hh with hh | hh
        · exact Or.inl hh
        · obtain ⟨b, hb, he⟩ := hh
          rw [List.mem_cons] at hb
          rcases hb with hb | hb
          · subst hb
            exact Or.inl (he ▸ h)
          · exact Or.inr ⟨b, hb, he⟩
    · rw [if_neg h]
      constructor
      · intro hh
        rcases hh with hh | hh
        · rw [List.mem_append, List.mem_singleton] at hh
          rcases hh with hh | hh
          · exact Or.inl hh
          · exact Or.inr ⟨a, by simp, hh⟩
        · exact Or.inr (by obtain ⟨b, hb, he⟩ := hh; exact ⟨b, by simp [hb], he⟩)
      · intro hh
        rcases hh with hh | hh
        · exact Or.inl (by rw [List.mem_append]; exact Or.inl hh)
        · obtain ⟨b, hb, he⟩ := hh
          rw [List.mem_cons] at hb
          rcases hb with hb | hb
          · subst hb
            exact Or.inl (by rw [List.mem_append, List.mem_singleton]; exact Or.inr he)
          · exact Or.inr ⟨b, hb, he⟩

/-- The initialisation fold keeps keys distinct. -/
theorem usageInit_keys_nodup (l : List Asset) (m : UsageMap)
    (hm : (m.map Prod.fst).Nodup) : ((l.foldl usageInitStep m).map Prod.fst).Nodup := by
  induction l generalizing m with
  | nil => exact hm
  | cons a l ih =>
    rw [List.foldl_cons]
    apply ih
    unfold usageInitStep
    rw [umInsert_keys]
    by_cases h : keyStr a.assetType a.name ∈ m.map Prod.fst
    · rw [if_pos h]
      exact hm
    · rw [if_neg h]
      rw [List.nodup_append]
      exact ⟨hm, List.nodup_singleton _, by
        intro x hx hx1
        rw [List.mem_singleton] at hx1
        subst hx1
        exact h hx⟩

/-- Lookup after the initialisation fold. -/
theorem usageInit_lookup (l : List Asset) (m : UsageMap) (t : AssetType) (n : String) :
    umLookup (l.foldl usageInitStep m) (keyStr t n) =
      if ∃ a ∈ l, a.assetType = t ∧ a.name = n then some ⟨n, t, []⟩
      else umLookup m (keyStr t n) := by
  induction l generalizing m with
  | nil => simp
  | cons a l ih =>
    rw [List.foldl_cons, ih]
    by_cases hex : ∃ b ∈ l, b.assetType = t ∧ b.name = n
    · rw [if_pos hex, if_pos (by obtain ⟨b, hb, hbb⟩ := hex; exact ⟨b, by simp [hb], hbb⟩)]
    · rw [if_neg hex]
      unfold usageInitStep
      rw [umLookup_umInsert]
      by_cases hk : keyStr t n = keyStr a.assetType a.name
      · obtain ⟨ht, hn⟩ := keyStr_inj hk
        rw [if_pos hk, if_pos ⟨a, by simp, ht.symm, hn.symm⟩, ht, hn]
      · rw [if_neg hk]
        rw [if_neg ?hno]
        case hno =>
          intro hh
          obtain ⟨b, hb, hbt, hbn⟩ := hh
          rw [List.mem_cons] at hb
          rcases hb with hb | hb
          · subst hb
            exact hk (by rw [hbt, hbn])
          · exact hex ⟨b, hb, hbt, hbn⟩

end PB

namespace PB

/-- Lookup after folding one per-type name list, for duplicate-free
lists: the plugin name is appended exactly when the list contains the
looked-up name under the matching type. -/
theorem namesFold_lookup (tc : AssetType) (pname : String) (names : List String)
    (hnd : names.Nodup) (m : UsageMap) (t : AssetType) (n : String) :
    umLookup (names.foldl (fun m x => umAppend m (keyStr tc x) pname) m) (keyStr t n) =
      if tc = t ∧ n ∈ names then
        (umLookup m (keyStr t n)).map fun u => { u with plugins := u.plugins ++ [pname] }
      else umLookup m (keyStr t n) := by
  revert hnd
  induction names generalizing m with
  | nil =>
    intro hnd
    simp
  | cons x xs ih =>
    intro hnd
    rw [List.nodup_cons] at hnd
    obtain ⟨hx, hxs⟩ := hnd
    rw [List.foldl_cons, ih _ hxs, umLookup_umAppend]
    by_cases htc : tc = t
    · by_cases hxn : x = n
      · subst hxn
        have hkey : keyStr t x = keyStr tc x := by rw [htc]
        have hnotin : ¬ (tc = t ∧ x ∈ xs) := fun hh => hx hh.2
        rw [if_neg hnotin, if_pos hkey, if_pos ⟨htc, by simp⟩]
      · have hkey : ¬ keyStr t n = keyStr tc x := fun hh => hxn (keyStr_inj hh).2.symm
        rw [if_neg hkey]
        by_cases hmem : n ∈ xs
        · rw [if_pos ⟨htc, hmem⟩, if_pos ⟨htc, by simp [hmem]⟩]
        · rw [if_neg (fun hh => hmem hh.2),
            if_neg (fun hh => by
              rcases List.mem_cons.mp hh.2 with h1 | h1
              · exact hxn h1.symm
              · exact hmem h1)]
    · have hkey : ¬ keyStr t n = keyStr tc x := fun hh => htc (keyStr_inj hh).1.symm
      rw [if_neg hkey, if_neg (fun hh => htc hh.1), if_neg (fun hh => htc hh.1)]

/-- Lookup after one plugin's contribution, for duplicate-free lists. -/
theorem usageAddPlugin_lookup (m : UsageMap) (p : Plugin) (t : AssetType) (n : String)
    (hc : p.commands.Nodup) (ha : p.agents.Nodup) (hs : p.skills.Nodup) :
    umLookup (usageAddPlugin m p) (keyStr t n) =
      if n ∈ p.listOf t then
        (umLookup m (keyStr t n)).map fun u => { u with plugins := u.plugins ++ [p.name] }
      else umLookup m (keyStr t n) := by
  unfold usageAddPlugin
  cases t with
  | command =>
    rw [namesFold_lookup .skill p.name p.skills hs]
    rw [if_neg (fun hh => by cases hh.1)]
    rw [namesFold_lookup .agent p.name p.agents ha]
    rw [if_neg (fun hh => by cases hh.1)]
    rw [namesFold_lookup .command p.name p.commands hc]
    by_cases hmem : n ∈ p.commands
    · rw [if_pos ⟨rfl, hmem⟩, if_pos (show n ∈ Plugin.listOf p .command from hmem)]
    · rw [if_neg (fun hh => hmem hh.2),
        if_neg (show ¬ n ∈ Plugin.listOf p .command from hmem)]
  | agent =>
    rw [namesFold_lookup .skill p.name p.skills hs]
    rw [if_neg (fun hh => by cases hh.1)]
    rw [namesFold_lookup .agent p.name p.agents ha]
    by_cases hmem : n ∈ p.agents
    · rw [if_pos ⟨rfl, hmem⟩]
      rw [namesFold_lookup .command p.name p.commands hc]
      rw [if_neg (fun hh => by cases hh.1)]
      rw [if_pos (show n ∈ Plugin.listOf p .agent from hmem)]
    · rw [if_neg (fun hh => hmem hh.2)]
      rw [namesFold_lookup .command p.name p.commands hc]
      rw [if_neg (fun hh => by cases hh.1)]
      rw [if_neg (show ¬ n ∈ Plugin.listOf p .agent from hmem)]
  | skill =>
    rw [namesFold_lookup .skill p.name p.skills hs]
    by_cases hmem : n ∈ p.skills
    · rw [if_pos ⟨rfl, hmem⟩]
      rw [namesFold_lookup .agent p.name p.agents ha]
      rw [if_neg (fun hh => by cases hh.1)]
      rw [namesFold_lookup .command p.name p.commands hc]
      rw [if_neg (fun hh => by cases hh.1)]
      rw [if_pos (show n ∈ Plugin.listOf p .skill from hmem)]
    · rw [if_neg (fun hh => hmem hh.2)]
      rw [namesFold_lookup .agent p.name p.agents ha]
      rw [if_neg (fun hh => by cases hh.1)]
      rw [namesFold_lookup .command p.name p.commands hc]
      rw [if_neg (fun hh => by cases hh.1)]
      rw [if_neg (show ¬ n ∈ Plugin.listOf p .skill from hmem)]

end PB

namespace PB

/-- Lookup after all plugins' contributions: the referencing plugins are
appended in fold order. -/
theorem pluginsFold_lookup (ps : List Plugin) (m : UsageMap) (t : AssetType) (n : String)
    (hnd : ∀ p ∈ ps, p.commands.Nodup ∧ p.agents.Nodup ∧ p.skills.Nodup) :
    umLookup (ps.foldl usageAddPlugin m) (keyStr t n) =
      (umLookup m (keyStr t n)).map fun u =>
        { u with plugins := u.plugins ++
            ((ps.filter fun p => decide (n ∈ p.listOf t)).map Plugin.name) } := by
  induction ps generalizing m with
  | nil =>
    simp only [List.foldl_nil, List.filter_nil, List.map_nil, List.append_nil]
    cases hf : umLookup m (keyStr t n) with
    | none => rfl
    | some u => rfl
  | cons p ps ih =>
    rw [List.foldl_cons]
    have hp := hnd p (by simp)
    rw [ih _ (fun q hq => hnd q (by simp [hq]))]
    rw [usageAddPlugin_lookup m p t n hp.1 hp.2.1 hp.2.2]
    by_cases hmem : n ∈ p.listOf t
    · rw [if_pos hmem, List.filter_cons_of_pos (by simpa using hmem)]
      rw [Option.map_map]
      cases hf : umLookup m (keyStr t n) with
      | none => simp
      | some u => simp [List.append_assoc]
    · rw [if_neg hmem, List.filter_cons_of_neg (by simpa using hmem)]

end PB

namespace PB

/-- Folding one name list never changes the key set. -/
theorem namesFold_keys (tc : AssetType) (pname : String) (names : List String)
    (m : UsageMap) :
    ((names.foldl (fun m x => umAppend m (keyStr tc x) pname) m).map Prod.fst) =
      m.map Prod.fst := by
  induction names generalizing m with
  | nil => rfl
  | cons x xs ih => rw [List.foldl_cons, ih, umAppend_keys]

/-- One plugin's contribution never changes the key set. -/
theorem usageAddPlugin_keys (m : UsageMap) (p : Plugin) :
    (usageAddPlugin m p).map Prod.fst = m.map Prod.fst := by
  unfold usageAddPlugin
  rw [namesFold_keys, namesFold_keys, namesFold_keys]

/-- The whole append phase never changes the key set. -/
theorem pluginsFold_keys (ps : List Plugin) (m : UsageMap) :
    ((ps.foldl usageAddPlugin m).map Prod.fst) = m.map Prod.fst := by
  induction ps generalizing m with
  | nil => rfl
  | cons p ps ih => rw [List.foldl_cons, ih, usageAddPlugin_keys]

/-- `_list_plugin_assets` returns a duplicate-free list. -/
theorem listPluginAssets_nodup (fs : FS) (o : Option (List PluginEntry)) :
    (listPluginAssets fs o).Nodup := by
  cases o with
  | none => simp [listPluginAssets]
  | some es =>
    unfold listPluginAssets
    exact ((List.perm_insertionSort strLe _).symm).nodup (List.nodup_dedup _)

/-- Membership in `get_plugins` decomposed into its source directory. -/
theorem mem_get_plugins {fs : FS} {p : Plugin} (hp : p ∈ get_plugins fs) :
    ∃ pd ∈ fs.plugins, ∃ n?,
      isHidden pd.dirName = false ∧ pd.manifest = .parsed n? ∧
      p = pluginOfDir fs pd n? := by
  unfold get_plugins at hp
  rw [(List.perm_insertionSort pluginLe _).mem_iff] at hp
  rw [List.mem_filterMap] at hp
  obtain ⟨pd, hpd, he⟩ := hp
  by_cases hh : isHidden pd.dirName
  · rw [if_pos hh] at he
    cases he
  · rw [if_neg hh] at he
    rw [Bool.not_eq_true] at hh
    cases hm : pd.manifest with
    | absent => rw [hm] at he; cases he
    | malformed => rw [hm] at he; cases he
    | parsed n? =>
      rw [hm] at he
      cases he
      exact ⟨pd, hpd, n?, hh, hm, rfl⟩

/-- The three name lists of a `get_plugins` plugin are duplicate-free. -/
theorem get_plugins_lists_nodup {fs : FS} {p : Plugin} (hp : p ∈ get_plugins fs) :
    p.commands.Nodup ∧ p.agents.Nodup ∧ p.skills.Nodup := by
  obtain ⟨pd, hpd, n?, hh, hm, he⟩ := mem_get_plugins hp
  subst he
  exact ⟨listPluginAssets_nodup fs _, listPluginAssets_nodup fs _,
    listPluginAssets_nodup fs _⟩

/-- `get_plugins` is sorted by plugin name. -/
theorem get_plugins_sorted (fs : FS) : (get_plugins fs).Pairwise pluginLe := by
  unfold get_plugins
  exact List.sorted_insertionSort pluginLe _

end PB

namespace PB

/-! ### Claim C5 — usage resolver coverage -/

/-- **C5.**  The usage map contains exactly one entry keyed
`"type:name"` for every registry asset and nothing else (so a plugin
reference naming no matching registry asset contributes nothing); the
entry for `(t, n)` lists precisely the plugins whose per-type list
contains `n`, in `get_plugins` order — alphabetical by plugin name — and
an unreferenced asset gets the empty list. -/
theorem usage_resolver_coverage (fs : FS) :
    ((get_usage_info fs).map Prod.fst).Nodup ∧
    (∀ k, k ∈ (get_usage_info fs).map Prod.fst ↔
      ∃ a ∈ get_registry_assets fs none, k = keyStr a.assetType a.name) ∧
    (∀ t n,
      umLookup (get_usage_info fs) (keyStr t n) =
        if ∃ a ∈ get_registry_assets fs none, a.assetType = t ∧ a.name = n then
          some ⟨n, t,
            ((get_plugins fs).filter fun p => decide (n ∈ p.listOf t)).map Plugin.name⟩
        else none) ∧
    (∀ t n u, umLookup (get_usage_info fs) (keyStr t n) = some u →
      u.plugins.Pairwise strLe) := by
  have hkeys : (get_usage_info fs).map Prod.fst =
      ((get_registry_assets fs none).foldl usageInitStep []).map Prod.fst := by
    unfold get_usage_info
    exact pluginsFold_keys _ _
  have hlookup : ∀ t n,
      umLookup (get_usage_info fs) (keyStr t n) =
        if ∃ a ∈ get_registry_assets fs none, a.assetType = t ∧ a.name = n then
          some ⟨n, t,
            ((get_plugins fs).filter fun p => decide (n ∈ p.listOf t)).map Plugin.name⟩
        else none := by
    intro t n
    unfold get_usage_info
    rw [pluginsFold_lookup _ _ _ _ (fun p hp => get_plugins_lists_nodup hp)]
    rw [usageInit_lookup]
    by_cases hex : ∃ a ∈ get_registry_assets fs none, a.assetType = t ∧ a.name = n
    · rw [if_pos hex, if_pos hex]
      simp
    · rw [if_neg hex, if_neg hex]
      rfl
  refine ⟨?_, ?_, hlookup, ?_⟩
  · rw [hkeys]
    exact usageInit_keys_nodup _ [] (by simp)
  · intro k
    rw [hkeys]
    rw [usageInit_mem_keys]
    simp
  · intro t n u hu
    rw [hlookup t n] at hu
    by_cases hex : ∃ a ∈ get_registry_assets fs none, a.assetType = t ∧ a.name = n
    · rw [if_pos hex] at hu
      cases hu
      rw [List.pairwise_map]
      refine List.Pairwise.filter _ ?_
      exact get_plugins_sorted fs
    · rw [if_neg hex] at hu
      cases hu

/-- **C5, witness.**  The coverage theorem applied to a one-asset,
one-plugin state. -/
theorem usage_resolver_coverage_witness :
    umLookup
      (get_usage_info
        (⟨some [.file "a.md"], some [], some [],
          [⟨"P", .parsed none,
            some [⟨"a.md", .symlink (.reg .command "a.md")⟩], some [], some []⟩],
          []⟩ : FS))
      (keyStr .command "a") = some ⟨"a", .command, ["P"]⟩ := by
  have h := (usage_resolver_coverage
    (⟨some [.file "a.md"], some [], some [],
      [⟨"P", .parsed none,
        some [⟨"a.md", .symlink (.reg .command "a.md")⟩], some [], some []⟩],
      []⟩ : FS)).2.2.1 .command "a"
  rw [h, if_pos (by decide)]
  decide

end PB

namespace PB

/-! ### Claim C8 — usage totals -/

/-- `umAppend` adds one reference per entry bearing the key. -/
theorem umTotal_umAppend (m : UsageMap) (k : String) (pn : String) :
    umTotal (umAppend m k pn) = umTotal m + m.countP (fun p => p.1 == k) := by
  induction m with
  | nil => rfl
  | cons a m ih =>
    show umTotal ((if a.1 == k then (a.1, { a.2 with plugins := a.2.plugins ++ [pn] })
      else a) :: umAppend m k pn) = _
    unfold umTotal at *
    rw [List.map_cons, List.sum_cons, List.map_cons, List.sum_cons, List.countP_cons]
    cases h : (a.1 == k) with
    | true =>
      simp only [h, if_true, if_pos]
      rw [ih]
      simp only [List.length_append, List.length_cons, List.length_nil]
      omega
    | false =>
      simp only [h, Bool.false_eq_true, if_false]
      rw [ih]
      omega

/-- With distinct keys, the per-key entry count is a membership test. -/
theorem countP_key_of_nodup {m : UsageMap} (hnd : (m.map Prod.fst).Nodup) (k : String) :
    m.countP (fun p => p.1 == k) = if k ∈ m.map Prod.fst then 1 else 0 := by
  have h1 : m.countP (fun p => p.1 == k) = (m.map Prod.fst).countP (· == k) := by
    rw [List.countP_map]
    rfl
  rw [h1]
  have h2 : (m.map Prod.fst).countP (· == k) = (m.map Prod.fst).count k := rfl
  rw [h2]
  by_cases h : k ∈ m.map Prod.fst
  · rw [if_pos h]
    exact List.count_eq_one_of_mem hnd h
  · rw [if_neg h]
    exact List.count_eq_zero_of_not_mem h

/-- Folding one name list adds one reference per name whose key is
present. -/
theorem namesFold_total (tc : AssetType) (pname : String) (names : List String)
    (m : UsageMap) (hnd : (m.map Prod.fst).Nodup) :
    umTotal (names.foldl (fun m x => umAppend m (keyStr tc x) pname) m) =
      umTotal m + names.countP (fun x => decide (keyStr tc x ∈ m.map Prod.fst)) := by
  induction names generalizing m with
  | nil => simp
  | cons x xs ih =>
    rw [List.foldl_cons]
    have hkeys : (umAppend m (keyStr tc x) pname).map Prod.fst = m.map Prod.fst :=
      umAppend_keys m (keyStr tc x) pname
    rw [ih _ (by rw [hkeys]; exact hnd)]
    rw [hkeys, umTotal_umAppend, countP_key_of_nodup hnd, List.countP_cons]
    by_cases h : keyStr tc x ∈ m.map Prod.fst
    · rw [if_pos h]
      have hd : decide (keyStr tc x ∈ m.map Prod.fst) = true := decide_eq_true h
      simp only [hd, if_true, if_pos]
      omega
    · rw [if_neg h]
      have hd : decide (keyStr tc x ∈ m.map Prod.fst) = false := decide_eq_false h
      simp only [hd, Bool.false_eq_true, if_false]
      omega

/-- One plugin's contribution to the reference total. -/
theorem usageAddPlugin_total (m : UsageMap) (p : Plugin)
    (hnd : (m.map Prod.fst).Nodup) :
    umTotal (usageAddPlugin m p) =
      umTotal m +
        (p.commands.countP (fun x => decide (keyStr .command x ∈ m.map Prod.fst)) +
         p.agents.countP (fun x => decide (keyStr .agent x ∈ m.map Prod.fst)) +
         p.skills.countP (fun x => decide (keyStr .skill x ∈ m.map Prod.fst))) := by
  unfold usageAddPlugin
  have hk1 : ((p.commands.foldl (fun m n => umAppend m (keyStr .command n) p.name) m).map
      Prod.fst) = m.map Prod.fst := namesFold_keys ..
  have hk2 : ((p.agents.foldl (fun m n => umAppend m (keyStr .agent n) p.name)
      (p.commands.foldl (fun m n => umAppend m (keyStr .command n) p.name) m)).map
      Prod.fst) = m.map Prod.fst := by
    rw [namesFold_keys, hk1]
  rw [namesFold_total _ _ _ _ (by rw [hk2]; exact hnd)]
  rw [namesFold_total _ _ _ _ (by rw [hk1]; exact hnd)]
  rw [namesFold_total _ _ _ _ hnd]
  rw [hk1, hk2]
  omega

/-- The append phase adds, per plugin, its number of matching names. -/
theorem pluginsFold_total (ps : List Plugin) (m : UsageMap)
    (hnd : (m.map Prod.fst).Nodup) :
    umTotal (ps.foldl usageAddPlugin m) =
      umTotal m + (ps.map fun p =>
        p.commands.countP (fun x => decide (keyStr .command x ∈ m.map Prod.fst)) +
        p.agents.countP (fun x => decide (keyStr .agent x ∈ m.map Prod.fst)) +
        p.skills.countP (fun x => decide (keyStr .skill x ∈ m.map Prod.fst))).sum := by
  induction ps generalizing m with
  | nil => simp
  | cons p ps ih =>
    rw [List.foldl_cons]
    have hkeys : (usageAddPlugin m p).map Prod.fst = m.map Prod.fst :=
      usageAddPlugin_keys m p
    rw [ih _ (by rw [hkeys]; exact hnd)]
    rw [hkeys, usageAddPlugin_total m p hnd, List.map_cons, List.sum_cons]
    omega

/-- All initial usage entries are empty. -/
theorem usageInit_values_nil (l : List Asset) (m : UsageMap)
    (hm : ∀ kv ∈ m, kv.2.plugins = []) :
    ∀ kv ∈ l.foldl usageInitStep m, kv.2.plugins = [] := by
  induction l generalizing m with
  | nil => exact hm
  | cons a l ih =>
    rw [List.foldl_cons]
    apply ih
    intro kv hkv
    unfold usageInitStep umInsert at hkv
    by_cases h : (m.find? (·.1 == keyStr a.assetType a.name)).isSome = true
    · rw [if_pos h] at hkv
      rw [List.mem_map] at hkv
      obtain ⟨q, hq, he⟩ := hkv
      by_cases hqk : q.1 == keyStr a.assetType a.name
      · rw [if_pos hqk] at he
        rw [← he]
      · rw [if_neg hqk] at he
        rw [← he]
        exact hm q hq
    · rw [if_neg h] at hkv
      rw [List.mem_append] at hkv
      rcases hkv with hkv | hkv
      · exact hm kv hkv
      · rw [List.mem_singleton] at hkv
        rw [hkv]

/-- A usage map of empty entries has total zero. -/
theorem umTotal_eq_zero {m : UsageMap} (h : ∀ kv ∈ m, kv.2.plugins = []) :
    umTotal m = 0 := by
  unfold umTotal
  apply List.sum_eq_zero
  intro x hx
  rw [List.mem_map] at hx
  obtain ⟨kv, hkv, he⟩ := hx
  rw [← he, h kv hkv]
  rfl

/-- The initial key set realises the "matches a registry asset of the
same type" test. -/
theorem mem_usage_keys_iff (fs : FS) (t : AssetType) (n : String) :
    (keyStr t n ∈ ((get_registry_assets fs none).foldl usageInitStep []).map Prod.fst) ↔
      regMatch fs t n = true := by
  rw [usageInit_mem_keys]
  unfold regMatch
  rw [List.any_eq_true]
  constructor
  · intro hh
    rcases hh with hh | ⟨a, ha, he⟩
    · simp at hh
    · obtain ⟨ht, hn⟩ := keyStr_inj he
      exact ⟨a, ha, by simp [ht.symm, hn.symm]⟩
  · rintro ⟨a, ha, he⟩
    simp only [Bool.and_eq_true, beq_iff_eq] at he
    exact Or.inr ⟨a, ha, by rw [he.1, he.2]⟩

/-- **C8.**  The sum of `usage_count` over all usage entries equals the
number of (plugin, asset-name) pairs across all plugins' three per-type
lists, restricted to names matching a registry asset of the same type. -/
theorem usage_totals (fs : FS) :
    ((get_usage_info fs).map fun kv => kv.2.usage_count).sum =
      ((get_plugins fs).map fun p =>
        p.commands.countP (regMatch fs .command) +
        p.agents.countP (regMatch fs .agent) +
        p.skills.countP (regMatch fs .skill)).sum := by
  have hinit_nodup := usageInit_keys_nodup (get_registry_assets fs none) [] (by simp)
  show umTotal (get_usage_info fs) = _
  unfold get_usage_info
  rw [pluginsFold_total _ _ hinit_nodup]
  rw [umTotal_eq_zero (usageInit_values_nil _ [] (by simp))]
  rw [Nat.zero_add]
  congr 1
  apply List.map_congr_left
  intro p hp
  have hc : ∀ (t : AssetType) (names : List String),
      names.countP (fun x => decide (keyStr t x ∈
        ((get_registry_assets fs none).foldl usageInitStep []).map Prod.fst)) =
      names.countP (regMatch fs t) := by
    intro t names
    apply List.countP_congr
    intro x hx
    have hiff := mem_usage_keys_iff fs t x
    cases hr : regMatch fs t x with
    | true => simp [hiff.mpr hr]
    | false =>
      have : ¬ keyStr t x ∈
          ((get_registry_assets fs none).foldl usageInitStep []).map Prod.fst := by
        intro hmem
        rw [hiff.mp hmem] at hr
        cases hr
      simp [this]
  rw [hc .command p.commands, hc .agent p.agents, hc .skill p.skills]

end PB

namespace PB

/-! ### Claim C6 — add-asset-to-plugin -/

/-- With distinct directory names, `find?` locates exactly the member. -/
theorem find?_dirName_eq_of_mem {l : List PluginDir} {pd : PluginDir}
    (hnd : (l.map PluginDir.dirName).Nodup) (hpd : pd ∈ l) :
    l.find? (·.dirName == pd.dirName) = some pd := by
  induction l with
  | nil => cases hpd
  | cons q qs ih =>
    rw [List.map_cons, List.nodup_cons] at hnd
    rw [List.mem_cons] at hpd
    rcases hpd with h | h
    · subst h
      rw [List.find?_cons_of_pos _ (by simp)]
    · have hq : q.dirName ≠ pd.dirName := by
        intro he
        exact hnd.1 (he ▸ List.mem_map_of_mem PluginDir.dirName h)
      rw [List.find?_cons_of_neg _ (by simpa using hq)]
      exact ih hnd.2 h

/-- With distinct directory names, the directory lookup finds exactly
the member. -/
theorem lookupPluginDir_eq_of_mem {fs : FS} {pd : PluginDir}
    (hnd : (fs.plugins.map PluginDir.dirName).Nodup) (hpd : pd ∈ fs.plugins) :
    lookupPluginDir fs pd.dirName = some pd :=
  find?_dirName_eq_of_mem hnd hpd

/-- Re-writing a subdirectory with its own content is the identity. -/
theorem updatePlugin_self {fs : FS} {pn : String} {pd : PluginDir} {t : AssetType}
    {es : List PluginEntry}
    (hnd : (fs.plugins.map PluginDir.dirName).Nodup)
    (hfind : lookupPluginDir fs pn = some pd) (hsub : pd.sub t = some es) :
    fs.updatePlugin pn t es = fs := by
  have hpn : pd.dirName = pn := by
    have := List.find?_some hfind
    simpa using this
  have hmem : pd ∈ fs.plugins := List.mem_of_find?_eq_some hfind
  have hself : pd.setSub t (some es) = pd := by
    cases t <;> (cases pd; cases hsub; rfl)
  unfold FS.updatePlugin
  have hple : fs.plugins.map (fun q =>
      if q.dirName == pn then q.setSub t (some es) else q) = fs.plugins := by
    conv_rhs => rw [← List.map_id fs.plugins]
    apply List.map_congr_left
    intro q hq
    show (if q.dirName == pn then q.setSub t (some es) else q) = q
    by_cases hqe : (q.dirName == pn) = true
    · have hq' : q.dirName = pn := by simpa using hqe
      have hqpd : q = pd :=
        List.inj_on_of_nodup_map hnd hq hmem (by rw [hq', hpn])
      rw [if_pos hqe, hqpd, hself]
    · rw [if_neg hqe]
  rw [hple]

/-- Two successive updates of the same subdirectory collapse to the
second. -/
theorem updatePlugin_updatePlugin (fs : FS) (pn : String) (t : AssetType)
    (es1 es2 : List PluginEntry) :
    (fs.updatePlugin pn t es1).updatePlugin pn t es2 = fs.updatePlugin pn t es2 := by
  unfold FS.updatePlugin
  simp only [List.map_map]
  have : ((fun q : PluginDir => if q.dirName == pn then q.setSub t (some es2) else q) ∘
      fun q : PluginDir => if q.dirName == pn then q.setSub t (some es1) else q) =
      fun q : PluginDir => if q.dirName == pn then q.setSub t (some es2) else q := by
    funext q
    by_cases hq : (q.dirName == pn) = true
    · have hname : (q.setSub t (some es1)).dirName = q.dirName := by
        cases t <;> rfl
      have hcomp : (q.setSub t (some es1)).setSub t (some es2) = q.setSub t (some es2) := by
        cases t <;> (cases q; rfl)
      simp only [Function.comp_apply, hq, if_true, if_pos, hname]
      rw [hcomp]
    · rw [Bool.not_eq_true] at hq
      simp only [Function.comp_apply, hq, Bool.false_eq_true, if_false]
  rw [this]

end PB

namespace PB

/-- **C6, counterexample.**  Plugin `P` exists, asset `x` is locatable
(`x.md` in the registry), and `P`'s `commands` subdirectory already
contains a same-named entry — a symbolic link whose target no longer
exists.  The claim says this is a no-op reporting success; in fact
`target_path.exists()` follows the dangling link, the existence check
fails, and `os.symlink` raises an unhandled `FileExistsError`. -/
theorem add_asset_to_plugin_counterexample :
    (lookupPluginDir
      (⟨some [.file "x.md"], some [], some [],
        [⟨"P", .parsed none,
          some [⟨"x.md", .symlink (.reg .command "y.md")⟩], some [], some []⟩],
        []⟩ : FS) "P").isSome = true ∧
    (findAssetEntry
      (⟨some [.file "x.md"], some [], some [],
        [⟨"P", .parsed none,
          some [⟨"x.md", .symlink (.reg .command "y.md")⟩], some [], some []⟩],
        []⟩ : FS) .command "x") = some (.file "x.md") ∧
    add_asset_to_plugin
      (⟨some [.file "x.md"], some [], some [],
        [⟨"P", .parsed none,
          some [⟨"x.md", .symlink (.reg .command "y.md")⟩], some [], some []⟩],
        []⟩ : FS) "P" "x" .command =
      (⟨some [.file "x.md"], some [], some [],
        [⟨"P", .parsed none,
          some [⟨"x.md", .symlink (.reg .command "y.md")⟩], some [], some []⟩],
        []⟩,
       .error (.fileExists "x.md")) := by
  refine ⟨by decide, by decide, by decide⟩

/-- **C6 (amended).**  `add_asset_to_plugin` fails when the plugin does
not exist or the asset cannot be located (`<name>` or `<name>.md`);
with both found, a same-named plugin entry that *exists* (a literal
entry, or a symlink whose resolved target exists) makes it a no-op that
reports success; a same-named entry that is a *dangling symlink* makes
`os.symlink` raise `FileExistsError`; otherwise it creates the per-type
subdirectory on demand and appends a relative symlink to the registry
asset. -/
theorem add_asset_to_plugin_amended (fs : FS) (pn an : String) (t : AssetType)
    (hnd : (fs.plugins.map PluginDir.dirName).Nodup) :
    (lookupPluginDir fs pn = none →
      add_asset_to_plugin fs pn an t =
        (fs, .error (.notFound ("Plugin '" ++ pn ++ "' does not exist")))) ∧
    (∀ pd, lookupPluginDir fs pn = some pd → findAssetEntry fs t an = none →
      add_asset_to_plugin fs pn an t =
        (fs, .error (.notFound ("Asset '" ++ an ++ "' not found in registry/" ++ t.value)))) ∧
    (∀ pd re es, lookupPluginDir fs pn = some pd → findAssetEntry fs t an = some re →
      pd.sub t = some es →
      ((∃ e ∈ es, e.entryName = targetName re an ∧ e.existsOnDisk fs = true) →
        add_asset_to_plugin fs pn an t = (fs, .ok false)) ∧
      ((∀ e ∈ es, e.entryName = targetName re an → e.existsOnDisk fs = false) →
       (∃ e ∈ es, e.entryName = targetName re an) →
        add_asset_to_plugin fs pn an t =
          (fs, .error (.fileExists (targetName re an)))) ∧
      ((∀ e ∈ es, e.entryName ≠ targetName re an) →
        add_asset_to_plugin fs pn an t =
          (fs.updatePlugin pn t
            (es ++ [⟨targetName re an, .symlink (.reg t re.entryName)⟩]), .ok true))) ∧
    (∀ pd re, lookupPluginDir fs pn = some pd → findAssetEntry fs t an = some re →
      pd.sub t = none →
      add_asset_to_plugin fs pn an t =
        (fs.updatePlugin pn t [⟨targetName re an, .symlink (.reg t re.entryName)⟩],
         .ok true)) := by
  refine ⟨?_, ?_, ?_, ?_⟩
  · intro h
    unfold add_asset_to_plugin
    rw [h]
  · intro pd h1 h2
    unfold add_asset_to_plugin
    rw [h1, h2]
  · intro pd re es h1 h2 hsub
    have hes : (pd.sub t).getD [] = es := by rw [hsub]; rfl
    refine ⟨?_, ?_, ?_⟩
    · intro hex
      unfold add_asset_to_plugin
      rw [h1, h2]
      dsimp only
      rw [hes]
      rw [if_pos ?pos]
      case pos =>
        rw [List.any_eq_true]
        obtain ⟨e, he, hn, hx⟩ := hex
        exact ⟨e, he, by simp [hn, hx]⟩
      rw [updatePlugin_self hnd h1 hsub]
    · intro hall hex
      unfold add_asset_to_plugin
      rw [h1, h2]
      dsimp only
      rw [hes]
      rw [if_neg ?neg1]
      case neg1 =>
        rw [List.any_eq_true]
        rintro ⟨e, he, hb⟩
        rw [Bool.and_eq_true, beq_iff_eq] at hb
        have := hall e he hb.1
        rw [this] at hb
        cases hb.2
      rw [if_pos ?pos2]
      case pos2 =>
        rw [List.any_eq_true]
        obtain ⟨e, he, hn⟩ := hex
        exact ⟨e, he, by simp [hn]⟩
      rw [updatePlugin_self hnd h1 hsub]
    · intro hall
      unfold add_asset_to_plugin
      rw [h1, h2]
      dsimp only
      rw [hes]
      rw [if_neg ?neg2]
      case neg2 =>
        rw [List.any_eq_true]
        rintro ⟨e, he, hb⟩
        rw [Bool.and_eq_true, beq_iff_eq] at hb
        exact hall e he hb.1
      rw [if_neg ?neg3]
      case neg3 =>
        rw [List.any_eq_true]
        rintro ⟨e, he, hb⟩
        rw [beq_iff_eq] at hb
        exact hall e he hb
      rw [updatePlugin_self hnd h1 hsub]
  · intro pd re h1 h2 hsub
    have hes : (pd.sub t).getD [] = ([] : List PluginEntry) := by rw [hsub]; rfl
    unfold add_asset_to_plugin
    rw [h1, h2]
    dsimp only
    rw [hes]
    rw [if_neg (by simp), if_neg (by simp)]
    rw [updatePlugin_updatePlugin]
    simp

/-- **C6, witness.**  The no-op branch of the amended theorem at a
concrete state: the plugin already holds a live link named `x.md`. -/
theorem add_asset_to_plugin_amended_witness :
    add_asset_to_plugin
      (⟨some [.file "x.md"], some [], some [],
        [⟨"P", .parsed none,
          some [⟨"x.md", .symlink (.reg .command "x.md")⟩], some [], some []⟩],
        []⟩ : FS) "P" "x" .command =
      (⟨some [.file "x.md"], some [], some [],
        [⟨"P", .parsed none,
          some [⟨"x.md", .symlink (.reg .command "x.md")⟩], some [], some []⟩],
        []⟩, .ok false) := by
  have h := add_asset_to_plugin_amended
    (⟨some [.file "x.md"], some [], some [],
      [⟨"P", .parsed none,
        some [⟨"x.md", .symlink (.reg .command "x.md")⟩], some [], some []⟩],
      []⟩ : FS) "P" "x" .command (by decide)
  exact (h.2.2.1
    ⟨"P", .parsed none,
      some [⟨"x.md", .symlink (.reg .command "x.md")⟩], some [], some []⟩
    (.file "x.md") [⟨"x.md", .symlink (.reg .command "x.md")⟩]
    (by decide) (by decide) (by decide)).1
    ⟨⟨"x.md", .symlink (.reg .command "x.md")⟩, by decide, by decide, by decide⟩

end PB

namespace PB

/-! ### Plugin identification under well-formedness -/

/-- `setSub` preserves the directory name. -/
theorem setSub_dirName (pd : PluginDir) (t : AssetType) (es : Option (List PluginEntry)) :
    (pd.setSub t es).dirName = pd.dirName := by
  cases t <;> rfl

/-- `updatePlugin` preserves the directory-name listing. -/
theorem updatePlugin_dirNames (fs : FS) (n : String) (t : AssetType)
    (es : List PluginEntry) :
    (fs.updatePlugin n t es).plugins.map PluginDir.dirName =
      fs.plugins.map PluginDir.dirName := by
  unfold FS.updatePlugin
  rw [List.map_map]
  apply List.map_congr_left
  intro q hq
  show ((if q.dirName == n then q.setSub t (some es) else q).dirName) = q.dirName
  split
  · exact setSub_dirName ..
  · rfl

/-- `updatePlugin` does not touch the outside-path set. -/
theorem outside_updatePlugin (fs : FS) (n : String) (t : AssetType)
    (es : List PluginEntry) :
    (fs.updatePlugin n t es).outsideExists = fs.outsideExists := rfl

/-- Under a self-named manifest, the plugin is named after its
directory. -/
theorem pluginOfDir_name {fs : FS} {pd : PluginDir} {n? : Option String}
    (hm : manifestSelfNamed pd) (hp : pd.manifest = .parsed n?) :
    (pluginOfDir fs pd n?).name = pd.dirName := by
  unfold pluginOfDir
  rcases hm with h | h | h | h <;> rw [hp] at h
  · cases h
  · cases h
  · cases h
    rfl
  · cases h
    rfl

/-- Under well-formedness the names of `get_plugins` are exactly the
directory names of the visible plugin directories (up to order). -/
theorem get_plugins_names_perm {fs : FS} (hwf : pluginsWf fs) :
    ((get_plugins fs).map Plugin.name).Perm
      ((fs.plugins.filter pluginVisible).map PluginDir.dirName) := by
  unfold get_plugins
  refine ((List.perm_insertionSort pluginLe _).map Plugin.name).trans ?_
  have he : ∀ l : List PluginDir, (∀ pd ∈ l, pd ∈ fs.plugins) →
      ((l.filterMap fun pd =>
        if isHidden pd.dirName then none
        else
          match pd.manifest with
          | .absent => none
          | .malformed => none
          | .parsed n? => some (pluginOfDir fs pd n?)).map Plugin.name) =
      ((l.filter pluginVisible).map PluginDir.dirName) := by
    intro l
    induction l with
    | nil => intro _; rfl
    | cons pd l ih =>
      intro hmem
      have hpd : pd ∈ fs.plugins := hmem pd (by simp)
      have hrest := ih fun q hq => hmem q (by simp [hq])
      rw [List.filterMap_cons]
      by_cases hh : isHidden pd.dirName
      · rw [if_pos hh]
        have hv : pluginVisible pd = false := by
          unfold pluginVisible
          rw [hh]
          rfl
        rw [List.filter_cons_of_neg (by simp [hv]), hrest]
      · rw [if_neg hh]
        rw [Bool.not_eq_true] at hh
        cases hm : pd.manifest with
        | absent =>
          have hv : pluginVisible pd = false := by
            unfold pluginVisible
            rw [hh, hm]
            rfl
          rw [List.filter_cons_of_neg (by simp [hv]), hrest]
        | malformed =>
          have hv : pluginVisible pd = false := by
            unfold pluginVisible
            rw [hh, hm]
            rfl
          rw [List.filter_cons_of_neg (by simp [hv]), hrest]
        | parsed n? =>
          have hv : pluginVisible pd = true := by
            unfold pluginVisible
            rw [hh, hm]
            rfl
          rw [List.filter_cons_of_pos (by simp [hv]), List.map_cons, List.map_cons,
            hrest]
          congr 1
          exact pluginOfDir_name ((hwf.2 pd hpd).2.1) hm
  rw [he fs.plugins (fun _ h => h)]

/-- Under well-formedness the names of `get_plugins` repeat nothing. -/
theorem get_plugins_names_nodup {fs : FS} (hwf : pluginsWf fs) :
    ((get_plugins fs).map Plugin.name).Nodup := by
  refine ((get_plugins_names_perm hwf).symm).nodup ?_
  refine List.Nodup.sublist (List.Sublist.map _ (List.filter_sublist _)) hwf.1

/-- Every `get_plugins` plugin is backed by a visible member directory
of the same name with all the claims' bookkeeping facts. -/
theorem get_plugins_backing {fs : FS} (hwf : pluginsWf fs) {p : Plugin}
    (hp : p ∈ get_plugins fs) :
    ∃ pd ∈ fs.plugins, pd.dirName = p.name ∧ pluginVisible pd = true ∧
      ∃ n?, pd.manifest = .parsed n? ∧ p = pluginOfDir fs pd n? := by
  obtain ⟨pd, hpd, n?, hh, hm, he⟩ := mem_get_plugins hp
  refine ⟨pd, hpd, ?_, ?_, n?, hm, he⟩
  · rw [he]
    exact (pluginOfDir_name ((hwf.2 pd hpd).2.1) hm).symm
  · unfold pluginVisible
    rw [hh, hm]
    rfl

/-- Membership of a directory name among the plugin names. -/
theorem dirName_mem_get_plugins_names {fs : FS} (hwf : pluginsWf fs) {pd : PluginDir}
    (hpd : pd ∈ fs.plugins) :
    pd.dirName ∈ (get_plugins fs).map Plugin.name ↔ pluginVisible pd = true := by
  rw [(get_plugins_names_perm hwf).mem_iff]
  constructor
  · intro h
    rw [List.mem_map] at h
    obtain ⟨q, hq, he⟩ := h
    rw [List.mem_filter] at hq
    have : q = pd := List.inj_on_of_nodup_map hwf.1 hq.1 hpd he
    rw [← this]
    exact hq.2
  · intro h
    exact List.mem_map_of_mem _ (List.mem_filter.mpr ⟨hpd, h⟩)

end PB

namespace PB

/-! ### Characterisation of `delete_asset`'s plugin loop -/

/-- When every visited plugin has the per-type subdirectory in place, the
delete loop succeeds and performs exactly the per-plugin filtering. -/
theorem deleteFold_ok (t : AssetType) (tgt : LinkTarget) :
    ∀ (ps : List Plugin) (fs : FS),
    (fs.plugins.map PluginDir.dirName).Nodup →
    (ps.map Plugin.name).Nodup →
    (∀ p ∈ ps, ∃ pd ∈ fs.plugins, pd.dirName = p.name ∧ pd.sub t ≠ none) →
    ps.foldl (deletePluginStep t tgt) (fs, none) =
      ({ fs with plugins := deletedPlugins t tgt (ps.map Plugin.name) fs.plugins },
       none) := by
  intro ps
  induction ps with
  | nil =>
    intro fs _ _ _
    rw [List.foldl_nil]
    have hpl : deletedPlugins t tgt (List.map Plugin.name []) fs.plugins =
        fs.plugins := by
      unfold deletedPlugins
      conv_rhs => rw [← List.map_id fs.plugins]
      apply List.map_congr_left
      intro q _
      simp
    rw [hpl]
  | cons p ps ih =>
    intro fs hnd hpn hfind
    obtain ⟨pd, hpdmem, hdn, hsubne⟩ := hfind p (List.mem_cons_self p ps)
    obtain ⟨es, hes⟩ := Option.ne_none_iff_exists'.mp hsubne
    have hlook : lookupPluginDir fs p.name = some pd := by
      rw [← hdn]
      exact lookupPluginDir_eq_of_mem hnd hpdmem
    have hnotin : p.name ∉ ps.map Plugin.name := by
      rw [List.map_cons, List.nodup_cons] at hpn
      exact hpn.1
    have hpn' : (ps.map Plugin.name).Nodup := by
      rw [List.map_cons, List.nodup_cons] at hpn
      exact hpn.2
    have hstep : deletePluginStep t tgt (fs, none) p =
        (fs.updatePlugin p.name t (es.filter fun e => !resolvesTo e tgt), none) := by
      simp only [deletePluginStep, hlook, hes]
    have hnd1 : ((fs.updatePlugin p.name t
        (es.filter fun e => !resolvesTo e tgt)).plugins.map PluginDir.dirName).Nodup := by
      rw [updatePlugin_dirNames]
      exact hnd
    have hfind1 : ∀ q ∈ ps, ∃ qd ∈ (fs.updatePlugin p.name t
        (es.filter fun e => !resolvesTo e tgt)).plugins,
        qd.dirName = q.name ∧ qd.sub t ≠ none := by
      intro q hq
      obtain ⟨qd, hq1, hq2, hq3⟩ := hfind q (List.mem_cons_of_mem p hq)
      have hne : qd.dirName ≠ p.name := by
        rw [hq2]
        intro he
        exact hnotin (he ▸ List.mem_map_of_mem Plugin.name hq)
      refine ⟨qd, ?_, hq2, hq3⟩
      unfold FS.updatePlugin
      have hm := List.mem_map_of_mem (fun pd : PluginDir =>
        if pd.dirName == p.name then pd.setSub t
          (some (es.filter fun e => !resolvesTo e tgt)) else pd) hq1
      simpa [hne] using hm
    rw [List.foldl_cons, hstep, ih _ hnd1 hpn' hfind1]
    have hcore : deletedPlugins t tgt (ps.map Plugin.name)
        ((fs.updatePlugin p.name t (es.filter fun e => !resolvesTo e tgt)).plugins) =
        deletedPlugins t tgt ((p :: ps).map Plugin.name) fs.plugins := by
      unfold deletedPlugins FS.updatePlugin
      rw [List.map_map]
      apply List.map_congr_left
      intro q hq
      simp only [Function.comp_apply]
      by_cases hqp : q.dirName = p.name
      · have hqpd : q = pd := List.inj_on_of_nodup_map hnd hq hpdmem (by rw [hqp, hdn])
        subst hqpd
        rw [if_pos (show (q.dirName == p.name) = true by simp [hqp])]
        have hdn' : (q.setSub t
            (some (es.filter fun e => !resolvesTo e tgt))).dirName = q.dirName :=
          setSub_dirName ..
        have hni : (q.setSub t
            (some (es.filter fun e => !resolvesTo e tgt))).dirName ∉
            ps.map Plugin.name := by
          rw [hdn', hqp]
          exact hnotin
        rw [if_neg hni]
        have hmm : q.dirName ∈ (p :: ps).map Plugin.name := by
          rw [List.map_cons, hqp]
          exact List.mem_cons_self _ _
        rw [if_pos hmm]
        unfold filterSubdir
        rw [hes]
        rfl
      · rw [if_neg (show ¬((q.dirName == p.name) = true) by simp [hqp])]
        by_cases hmem : q.dirName ∈ ps.map Plugin.name
        · rw [if_pos hmem,
            if_pos (show q.dirName ∈ (p :: ps).map Plugin.name by
              rw [List.map_cons]
              exact List.mem_cons_of_mem _ hmem)]
        · rw [if_neg hmem,
            if_neg (show ¬(q.dirName ∈ (p :: ps).map Plugin.name) by
              rw [List.map_cons, List.mem_cons]
              push_neg
              exact ⟨hqp, hmem⟩)]
    rw [hcore]
    rfl

end PB

namespace PB

/-- After replacing the plugin list the registry listings are untouched. -/
theorem regDirEntries_withPlugins (fs : FS) (P : List PluginDir) (t : AssetType) :
    regDirEntries { fs with plugins := P } t = regDirEntries fs t := by
  cases t <;> rfl

/-- Lookup of a `(type, name)` entry in the full usage mapping: present
with the alphabetical list of referencing plugins exactly when the
registry holds an asset of that type and name. -/
theorem usage_lookup_char (fs : FS) (t : AssetType) (n : String) :
    umLookup (get_usage_info fs) (keyStr t n) =
      if ∃ a ∈ get_registry_assets fs none, a.assetType = t ∧ a.name = n then
        some ⟨n, t,
          ((get_plugins fs).filter fun p => decide (n ∈ p.listOf t)).map Plugin.name⟩
      else none := by
  have h1 : get_usage_info fs = (get_plugins fs).foldl usageAddPlugin
      ((get_registry_assets fs none).foldl usageInitStep []) := rfl
  rw [h1, pluginsFold_lookup _ _ _ _ (fun p hp => get_plugins_lists_nodup hp),
    usageInit_lookup]
  by_cases hex : ∃ a ∈ get_registry_assets fs none, a.assetType = t ∧ a.name = n
  · rw [if_pos hex, if_pos hex]
    simp
  · rw [if_neg hex, if_neg hex]
    have h0 : umLookup ([] : UsageMap) (keyStr t n) = none := rfl
    rw [h0]
    rfl

/-- The delete guard's plugin list: for a registry-backed `(type, name)`
it is exactly the alphabetical list of plugins whose per-type asset list
contains the name. -/
theorem referencedPlugins_char (fs : FS) (t : AssetType) (n : String)
    (href : ∃ a ∈ get_registry_assets fs none, a.assetType = t ∧ a.name = n) :
    referencedPlugins fs t n =
      ((get_plugins fs).filter fun p => decide (n ∈ p.listOf t)).map Plugin.name := by
  unfold referencedPlugins
  rw [usage_lookup_char, if_pos href]

end PB

namespace PB

/-- **C2, counterexample.**  Command asset `a` (file `a.md`) is referenced
by plugin `P`; plugin `Q` is a parsed, visible plugin that has no
`commands` subdirectory.  The claim says `delete_asset` with `force`
succeeds; in fact the loop iterates `Q/commands` without an existence
check and the unhandled `FileNotFoundError` aborts the deletion before
the registry entry is removed. -/
theorem delete_guard_counterexample :
    referencedPlugins
        (⟨some [.file "a.md"], some [], some [],
          [⟨"P", .parsed none,
            some [⟨"a.md", .symlink (.reg .command "a.md")⟩], some [], some []⟩,
           ⟨"Q", .parsed none, none, some [], some []⟩], []⟩ : FS)
        .command "a" = ["P"] ∧
    (delete_asset
        (⟨some [.file "a.md"], some [], some [],
          [⟨"P", .parsed none,
            some [⟨"a.md", .symlink (.reg .command "a.md")⟩], some [], some []⟩,
           ⟨"Q", .parsed none, none, some [], some []⟩], []⟩ : FS)
        "a" .command true).2 = .error (.fsError "Q/commands") := by
  constructor
  · decide
  · decide

/-- **C2.**  Delete guard, for a registry asset of the given type and
name.  (a) When at least one plugin's per-type asset list contains the
name, `delete_asset` without `force` changes nothing and fails with an
`in use` error enumerating exactly the referencing plugins'
names (alphabetically).  (b) With `force`, provided every visible parsed
plugin has the per-type subdirectory, it succeeds: every entry of the
visited plugins' per-type subdirectories resolving to the asset's
registry path is removed, and then the registry entry itself is
removed.  (The scan is limited to the subdirectory of the asset's own
type.) -/
theorem delete_guard (fs : FS) (n : String) (t : AssetType)
    (hwf : pluginsWf fs)
    (href : ∃ a ∈ get_registry_assets fs none, a.assetType = t ∧ a.name = n) :
    ((((get_plugins fs).filter fun p => decide (n ∈ p.listOf t)) ≠ []) →
      delete_asset fs n t false =
        (fs, .error (.inUse (((get_plugins fs).filter fun p =>
          decide (n ∈ p.listOf t)).map Plugin.name)))) ∧
    (∀ entry, findAssetEntry fs t n = some entry →
      (∀ pd ∈ fs.plugins, pluginVisible pd = true → pd.sub t ≠ none) →
      delete_asset fs n t true =
        ({ fs with plugins := deletedPlugins t (.reg t entry.entryName) ((get_plugins fs).map Plugin.name) fs.plugins }.setRegDir t
           (some ((regDirEntries fs t).filter fun e =>
             e.entryName != entry.entryName)),
         .ok ())) := by
  have hrefc := referencedPlugins_char fs t n href
  constructor
  · intro hne
    have hie : (referencedPlugins fs t n).isEmpty = false := by
      rw [hrefc]
      cases hl : (get_plugins fs).filter fun p => decide (n ∈ p.listOf t) with
      | nil => exact absurd hl hne
      | cons a l => rfl
    unfold delete_asset
    rw [if_pos (by rw [hie]; rfl)]
    rw [hrefc]
  · intro entry hentry hsub
    have hfind' : ∀ p ∈ get_plugins fs, ∃ pd ∈ fs.plugins,
        pd.dirName = p.name ∧ pd.sub t ≠ none := by
      intro p hp
      obtain ⟨pd, hpd, hdn, hvis, _⟩ := get_plugins_backing hwf hp
      exact ⟨pd, hpd, hdn, hsub pd hpd hvis⟩
    have hfold := deleteFold_ok t (.reg t entry.entryName) (get_plugins fs) fs
      hwf.1 (get_plugins_names_nodup hwf) hfind'
    unfold delete_asset
    rw [if_neg (by simp)]
    simp only [hentry, hfold]
    rw [regDirEntries_withPlugins]

end PB

namespace PB

/-- Concrete instance of the delete guard: command asset `a` referenced
by plugin `P` alone; without `force` the call fails in-use naming `P`,
with `force` it removes `P`'s link and the registry file. -/
theorem delete_guard_witness :
    ((get_plugins (⟨some [.file "a.md"], some [], some [],
        [⟨"P", .parsed none,
          some [⟨"a.md", .symlink (.reg .command "a.md")⟩], some [], some []⟩],
        []⟩ : FS)).filter fun p => decide ("a" ∈ p.listOf .command)) ≠ [] ∧
    delete_asset (⟨some [.file "a.md"], some [], some [],
        [⟨"P", .parsed none,
          some [⟨"a.md", .symlink (.reg .command "a.md")⟩], some [], some []⟩],
        []⟩ : FS) "a" .command false =
      ((⟨some [.file "a.md"], some [], some [],
        [⟨"P", .parsed none,
          some [⟨"a.md", .symlink (.reg .command "a.md")⟩], some [], some []⟩],
        []⟩ : FS),
       .error (.inUse (((get_plugins (⟨some [.file "a.md"], some [], some [],
        [⟨"P", .parsed none,
          some [⟨"a.md", .symlink (.reg .command "a.md")⟩], some [], some []⟩],
        []⟩ : FS)).filter fun p => decide ("a" ∈ p.listOf .command)).map Plugin.name))) ∧
    delete_asset (⟨some [.file "a.md"], some [], some [],
        [⟨"P", .parsed none,
          some [⟨"a.md", .symlink (.reg .command "a.md")⟩], some [], some []⟩],
        []⟩ : FS) "a" .command true =
      ({ (⟨some [.file "a.md"], some [], some [],
          [⟨"P", .parsed none,
            some [⟨"a.md", .symlink (.reg .command "a.md")⟩], some [], some []⟩],
          []⟩ : FS) with plugins := deletedPlugins .command (.reg .command "a.md") ((get_plugins (⟨some [.file "a.md"], some [], some [], [⟨"P", .parsed none, some [⟨"a.md", .symlink (.reg .command "a.md")⟩], some [], some []⟩], []⟩ : FS)).map Plugin.name) [⟨"P", .parsed none, some [⟨"a.md", .symlink (.reg .command "a.md")⟩], some [], some []⟩] }.setRegDir .command
         (some (((regDirEntries (⟨some [.file "a.md"], some [], some [],
          [⟨"P", .parsed none,
            some [⟨"a.md", .symlink (.reg .command "a.md")⟩], some [], some []⟩],
          []⟩ : FS) .command)).filter fun e => e.entryName != "a.md")),
       .ok ()) := by
  have h := delete_guard (⟨some [.file "a.md"], some [], some [],
      [⟨"P", .parsed none,
        some [⟨"a.md", .symlink (.reg .command "a.md")⟩], some [], some []⟩],
      []⟩ : FS) "a" .command (by decide) (by decide)
  exact ⟨by decide, h.1 (by decide), h.2 (.file "a.md") (by decide) (by decide)⟩

end PB

namespace PB

/-! ### Characterisation of `rename_asset`'s plugin loop -/

/-- An error accumulator passes through the inner rename loop unchanged. -/
theorem renameFoldDir_err (oldT : LinkTarget) (nl : String) (newT : LinkTarget)
    (l : List PluginEntry) (cur : List PluginEntry) (e : Err) :
    l.foldl (renameDirStep oldT nl newT) (cur, some e) = (cur, some e) := by
  induction l with
  | nil => rfl
  | cons a l ih => rw [List.foldl_cons]; exact ih

/-- Entries that do not resolve to the old path leave the accumulator
alone. -/
theorem renameFoldDir_noMatch (oldT : LinkTarget) (nl : String) (newT : LinkTarget)
    (l : List PluginEntry) (cur : List PluginEntry)
    (h : ∀ e ∈ l, resolvesTo e oldT = false) :
    l.foldl (renameDirStep oldT nl newT) (cur, none) = (cur, none) := by
  induction l with
  | nil => rfl
  | cons a l ih =>
    rw [List.foldl_cons]
    have ha : resolvesTo a oldT = false := h a (List.mem_cons_self a l)
    have hstep : renameDirStep oldT nl newT (cur, none) a = (cur, none) := by
      simp only [renameDirStep, ha, Bool.false_eq_true, if_false]
    rw [hstep]
    exact ih fun e he => h e (List.mem_cons_of_mem a he)

/-- The inner rename loop, started on an arbitrary accumulator, when the
item list contains exactly one entry resolving to the old path. -/
theorem renameFoldDir_char (oldT : LinkTarget) (nl : String) (newT : LinkTarget) :
    ∀ (l : List PluginEntry) (cur : List PluginEntry) (e : PluginEntry),
    e ∈ l → resolvesTo e oldT = true →
    (∀ a ∈ l, resolvesTo a oldT = true → a = e) → l.Nodup →
    l.foldl (renameDirStep oldT nl newT) (cur, none) =
      (if (cur.filter fun x => x.entryName != e.entryName).any
          (fun x => x.entryName == nl) then
        ((cur.filter fun x => x.entryName != e.entryName), some (.fileExists nl))
      else
        ((cur.filter fun x => x.entryName != e.entryName) ++ [⟨nl, .symlink newT⟩],
         none)) := by
  intro l
  induction l with
  | nil =>
    intro cur e he
    cases he
  | cons a l ih =>
    intro cur e he hres huni hnd
    rw [List.foldl_cons, List.nodup_cons] at *
    by_cases hae : a = e
    · have hresa : resolvesTo a oldT = true := by rw [hae]; exact hres
      have hstep : renameDirStep oldT nl newT (cur, none) a =
          (if (cur.filter fun x => x.entryName != a.entryName).any
              (fun x => x.entryName == nl) then
            ((cur.filter fun x => x.entryName != a.entryName),
             some (.fileExists nl))
          else
            ((cur.filter fun x => x.entryName != a.entryName) ++
              [⟨nl, .symlink newT⟩], none)) := by
        simp only [renameDirStep, hresa, if_true]
      rw [hstep, hae]
      by_cases hcol : ((cur.filter fun x => x.entryName != e.entryName).any
          (fun x => x.entryName == nl)) = true
      · rw [if_pos hcol]
        exact renameFoldDir_err ..
      · rw [if_neg hcol]
        apply renameFoldDir_noMatch
        intro x hx
        by_contra hxr
        rw [Bool.not_eq_false] at hxr
        have hxe : x = e := huni x (List.mem_cons_of_mem a hx) hxr
        rw [← hae] at hxe
        exact hnd.1 (hxe ▸ hx)
    · have har : resolvesTo a oldT = false := by
        by_contra h
        rw [Bool.not_eq_false] at h
        exact hae (huni a (List.mem_cons_self a l) h)
      have hstep : renameDirStep oldT nl newT (cur, none) a = (cur, none) := by
        simp only [renameDirStep, har, Bool.false_eq_true, if_false]
      rw [hstep]
      have hel : e ∈ l := by
        rcases List.mem_cons.mp he with h | h
        · exact absurd h.symm hae
        · exact h
      exact ih cur e hel hres
        (fun b hb hbr => huni b (List.mem_cons_of_mem a hb) hbr) hnd.2

/-- When the subdirectory names repeat nothing, at most one entry
resolves to the old path, and the new link name clashes with no other
entry, the inner rename loop succeeds and computes
`renameSubdirEntries`. -/
theorem renameDirLinks_char (oldT : LinkTarget) (nl : String) (newT : LinkTarget)
    (es : List PluginEntry)
    (hnd : (es.map PluginEntry.entryName).Nodup)
    (huni : ∀ a ∈ es, ∀ b ∈ es, resolvesTo a oldT = true → resolvesTo b oldT = true →
      a = b)
    (hcol : ∀ e ∈ es, resolvesTo e oldT = true → ∀ x ∈ es, x.entryName = nl → x = e) :
    renameDirLinks oldT nl newT es = (renameSubdirEntries oldT nl newT es, none) := by
  unfold renameDirLinks renameSubdirEntries
  cases hf : es.find? fun x => resolvesTo x oldT with
  | none =>
    rw [renameFoldDir_noMatch]
    intro x hx
    have := List.find?_eq_none.mp hf x hx
    cases hrx : resolvesTo x oldT with
    | false => rfl
    | true => exact absurd hrx this
  | some e =>
    have hmem : e ∈ es := List.mem_of_find?_eq_some hf
    have hres : resolvesTo e oldT = true := by
      have h := List.find?_some hf
      simpa using h
    have hndv : es.Nodup := hnd.of_map
    rw [renameFoldDir_char oldT nl newT es es e hmem hres
      (fun a ha har => huni a ha e hmem har hres) hndv]
    rw [if_neg ?_]
    rw [Bool.not_eq_true, List.any_eq_false]
    intro x hx
    rw [List.mem_filter] at hx
    intro hxe
    rw [beq_iff_eq] at hxe
    have hxee : x = e := hcol e hmem hres x hx.1 hxe
    rw [hxee] at hx
    simp at hx

end PB

namespace PB

/-- When the inner rename succeeds on every visited plugin's per-type
subdirectory, the rename loop succeeds and performs exactly the
per-plugin replacement. -/
theorem renameFold_ok (t : AssetType) (oldT : LinkTarget) (nl : String)
    (newT : LinkTarget) :
    ∀ (ps : List Plugin) (fs : FS),
    (fs.plugins.map PluginDir.dirName).Nodup →
    (ps.map Plugin.name).Nodup →
    (∀ p ∈ ps, ∃ pd ∈ fs.plugins, pd.dirName = p.name ∧ ∃ es, pd.sub t = some es ∧
      renameDirLinks oldT nl newT es = (renameSubdirEntries oldT nl newT es, none)) →
    ps.foldl (renamePluginStep t oldT nl newT) (fs, none) =
      ({ fs with plugins := renamedPlugins t oldT nl newT (ps.map Plugin.name) fs.plugins },
       none) := by
  intro ps
  induction ps with
  | nil =>
    intro fs _ _ _
    rw [List.foldl_nil]
    have hpl : renamedPlugins t oldT nl newT (List.map Plugin.name []) fs.plugins =
        fs.plugins := by
      unfold renamedPlugins
      conv_rhs => rw [← List.map_id fs.plugins]
      apply List.map_congr_left
      intro q _
      simp
    rw [hpl]
  | cons p ps ih =>
    intro fs hnd hpn hfind
    obtain ⟨pd, hpdmem, hdn, es, hes, hok⟩ := hfind p (List.mem_cons_self p ps)
    have hlook : lookupPluginDir fs p.name = some pd := by
      rw [← hdn]
      exact lookupPluginDir_eq_of_mem hnd hpdmem
    have hnotin : p.name ∉ ps.map Plugin.name := by
      rw [List.map_cons, List.nodup_cons] at hpn
      exact hpn.1
    have hpn' : (ps.map Plugin.name).Nodup := by
      rw [List.map_cons, List.nodup_cons] at hpn
      exact hpn.2
    have hstep : renamePluginStep t oldT nl newT (fs, none) p =
        (fs.updatePlugin p.name t (renameSubdirEntries oldT nl newT es), none) := by
      simp only [renamePluginStep, hlook, hes, hok]
    have hnd1 : ((fs.updatePlugin p.name t
        (renameSubdirEntries oldT nl newT es)).plugins.map PluginDir.dirName).Nodup := by
      rw [updatePlugin_dirNames]
      exact hnd
    have hfind1 : ∀ q ∈ ps, ∃ qd ∈ (fs.updatePlugin p.name t
        (renameSubdirEntries oldT nl newT es)).plugins,
        qd.dirName = q.name ∧ ∃ es', qd.sub t = some es' ∧
        renameDirLinks oldT nl newT es' = (renameSubdirEntries oldT nl newT es', none) := by
      intro q hq
      obtain ⟨qd, hq1, hq2, hq3⟩ := hfind q (List.mem_cons_of_mem p hq)
      have hne : qd.dirName ≠ p.name := by
        rw [hq2]
        intro he
        exact hnotin (he ▸ List.mem_map_of_mem Plugin.name hq)
      refine ⟨qd, ?_, hq2, hq3⟩
      unfold FS.updatePlugin
      have hm := List.mem_map_of_mem (fun pd : PluginDir =>
        if pd.dirName == p.name then pd.setSub t
          (some (renameSubdirEntries oldT nl newT es)) else pd) hq1
      simpa [hne] using hm
    rw [List.foldl_cons, hstep, ih _ hnd1 hpn' hfind1]
    have hcore : renamedPlugins t oldT nl newT (ps.map Plugin.name)
        ((fs.updatePlugin p.name t (renameSubdirEntries oldT nl newT es)).plugins) =
        renamedPlugins t oldT nl newT ((p :: ps).map Plugin.name) fs.plugins := by
      unfold renamedPlugins FS.updatePlugin
      rw [List.map_map]
      apply List.map_congr_left
      intro q hq
      simp only [Function.comp_apply]
      by_cases hqp : q.dirName = p.name
      · have hqpd : q = pd := List.inj_on_of_nodup_map hnd hq hpdmem (by rw [hqp, hdn])
        subst hqpd
        rw [if_pos (show (q.dirName == p.name) = true by simp [hqp])]
        have hdn' : (q.setSub t
            (some (renameSubdirEntries oldT nl newT es))).dirName = q.dirName :=
          setSub_dirName ..
        have hni : (q.setSub t
            (some (renameSubdirEntries oldT nl newT es))).dirName ∉
            ps.map Plugin.name := by
          rw [hdn', hqp]
          exact hnotin
        rw [if_neg hni]
        have hmm : q.dirName ∈ (p :: ps).map Plugin.name := by
          rw [List.map_cons, hqp]
          exact List.mem_cons_self _ _
        rw [if_pos hmm]
        rw [hes]
        rfl
      · rw [if_neg (show ¬((q.dirName == p.name) = true) by simp [hqp])]
        by_cases hmem : q.dirName ∈ ps.map Plugin.name
        · rw [if_pos hmem,
            if_pos (show q.dirName ∈ (p :: ps).map Plugin.name by
              rw [List.map_cons]
              exact List.mem_cons_of_mem _ hmem)]
        · rw [if_neg hmem,
            if_neg (show ¬(q.dirName ∈ (p :: ps).map Plugin.name) by
              rw [List.map_cons, List.mem_cons]
              push_neg
              exact ⟨hqp, hmem⟩)]
    rw [hcore]
    rfl

end PB

namespace PB

/-- `renameRegistry` does not touch the plugins. -/
theorem renameRegistry_plugins (fs : FS) (t : AssetType) (o n : String) (b : Bool) :
    (renameRegistry fs t o n b).plugins = fs.plugins := by
  unfold renameRegistry
  rw [plugins_setRegDir]

/-- `renameRegistry` preserves plugin-side well-formedness. -/
theorem pluginsWf_renameRegistry {fs : FS} {t : AssetType} {o n : String} {b : Bool}
    (h : pluginsWf fs) : pluginsWf (renameRegistry fs t o n b) := by
  unfold pluginsWf at *
  rw [renameRegistry_plugins]
  exact h

/-- A successful registry lookup returns an entry bearing the looked-up
name. -/
theorem regLookup_entryName {fs : FS} {t : AssetType} {m : String} {e : RegEntry}
    (h : regLookup fs t m = some e) : e.entryName = m := by
  unfold regLookup at h
  rw [Option.bind_eq_some] at h
  obtain ⟨L, _, hf⟩ := h
  have := List.find?_some hf
  simpa using this

/-- The entry located by `findAssetEntry` is present in the registry
under its own name. -/
theorem regHasEntry_of_findAssetEntry {fs : FS} {t : AssetType} {n : String}
    {e : RegEntry} (h : findAssetEntry fs t n = some e) :
    regHasEntry fs t e.entryName = true := by
  unfold findAssetEntry at h
  cases hl : regLookup fs t n with
  | some e1 =>
    simp only [hl] at h
    injection h with he
    subst he
    unfold regHasEntry
    rw [regLookup_entryName hl, hl]
    rfl
  | none =>
    simp only [hl] at h
    unfold regHasEntry
    rw [regLookup_entryName h, h]
    rfl

end PB

namespace PB

/-- **C3.**  Rename preserves links.  Asset `old` exists (located as
`oldEntry`), the new name is not taken, every visible plugin has the
per-type subdirectory, at most one entry per subdirectory resolves to the
old registry path, and the new link name clashes with nothing else.  Then
`rename_asset` succeeds, renaming the registry entry and rewriting the
per-type subdirectory of every visited plugin; a plugin membership test
identifies the visited plugins as exactly the visible ones; the fresh
link resolves to the new registry path; and in every plugin subdirectory
holding a link that resolved to the old path, the rewritten listing
contains the fresh link to the new path, no entry resolving to the old
path, and every literal (non-symlink) entry it held before. -/
theorem rename_preserves_links (fs : FS) (old new : String) (t : AssetType)
    (oldEntry : RegEntry) (NE NL : String)
    (hwf : fsWf fs)
    (hold : findAssetEntry fs t old = some oldEntry)
    (hNE : NE = if oldEntry.isFileEntry then new ++ ".md" else new)
    (hNL : NL = if pySuffix NE == ".md" then new ++ ".md" else new)
    (hnew : regHasEntry fs t NE = false)
    (hsub : ∀ pd ∈ fs.plugins, pluginVisible pd = true → pd.sub t ≠ none)
    (huni : ∀ pd ∈ fs.plugins, ∀ a ∈ (pd.sub t).getD [], ∀ b ∈ (pd.sub t).getD [],
      resolvesTo a (.reg t oldEntry.entryName) = true →
      resolvesTo b (.reg t oldEntry.entryName) = true → a = b)
    (hcol : ∀ pd ∈ fs.plugins, ∀ e ∈ (pd.sub t).getD [],
      resolvesTo e (.reg t oldEntry.entryName) = true →
      ∀ x ∈ (pd.sub t).getD [], x.entryName = NL → x = e) :
    rename_asset fs old new t =
      ({ renameRegistry fs t oldEntry.entryName NE oldEntry.isFileEntry with plugins := renamedPlugins t (.reg t oldEntry.entryName) NL (.reg t NE) ((get_plugins (renameRegistry fs t oldEntry.entryName NE oldEntry.isFileEntry)).map Plugin.name) fs.plugins },
       .ok ()) ∧
    (∀ pd ∈ fs.plugins,
      (pd.dirName ∈ (get_plugins (renameRegistry fs t oldEntry.entryName NE oldEntry.isFileEntry)).map Plugin.name ↔ pluginVisible pd = true)) ∧
    resolvesTo ⟨NL, .symlink (.reg t NE)⟩ (.reg t NE) = true ∧
    (∀ pd ∈ fs.plugins, ∀ e ∈ (pd.sub t).getD [],
      resolvesTo e (.reg t oldEntry.entryName) = true →
      (⟨NL, .symlink (.reg t NE)⟩ ∈
        renameSubdirEntries (.reg t oldEntry.entryName) NL (.reg t NE)
          ((pd.sub t).getD [])) ∧
      (∀ x ∈ renameSubdirEntries (.reg t oldEntry.entryName) NL (.reg t NE)
          ((pd.sub t).getD []),
        resolvesTo x (.reg t oldEntry.entryName) = false) ∧
      (∀ x ∈ (pd.sub t).getD [], (∀ s, x.kind ≠ .symlink s) →
        x ∈ renameSubdirEntries (.reg t oldEntry.entryName) NL (.reg t NE)
          ((pd.sub t).getD []))) := by
  subst hNE
  subst hNL
  have holdHas : regHasEntry fs t oldEntry.entryName = true :=
    regHasEntry_of_findAssetEntry hold
  have hneq : (if oldEntry.isFileEntry then new ++ ".md" else new) ≠
      oldEntry.entryName := by
    intro h
    rw [h] at hnew
    simp [hnew] at holdHas
  have hTneq : LinkTarget.reg t (if oldEntry.isFileEntry then new ++ ".md" else new) ≠
      LinkTarget.reg t oldEntry.entryName := by
    intro h
    rw [LinkTarget.reg.injEq] at h
    exact hneq h.2
  have hwf1 : pluginsWf (renameRegistry fs t oldEntry.entryName
      (if oldEntry.isFileEntry then new ++ ".md" else new) oldEntry.isFileEntry) :=
    pluginsWf_renameRegistry hwf.2
  -- inner-loop success on every subdirectory of a member plugin
  have hinner : ∀ pd ∈ fs.plugins, ∀ es, pd.sub t = some es →
      renameDirLinks (.reg t oldEntry.entryName)
        (if pySuffix (if oldEntry.isFileEntry then new ++ ".md" else new) == ".md"
          then new ++ ".md" else new)
        (.reg t (if oldEntry.isFileEntry then new ++ ".md" else new)) es =
      (renameSubdirEntries (.reg t oldEntry.entryName)
        (if pySuffix (if oldEntry.isFileEntry then new ++ ".md" else new) == ".md"
          then new ++ ".md" else new)
        (.reg t (if oldEntry.isFileEntry then new ++ ".md" else new)) es, none) := by
    intro pd hpd es hes
    have hnd := (hwf.2.2 pd hpd).2.2 t (mem_allAssetTypes t)
    have huni' := huni pd hpd
    have hcol' := hcol pd hpd
    rw [hes] at hnd huni' hcol'
    simp only [Option.getD_some] at hnd huni' hcol'
    exact renameDirLinks_char _ _ _ _ hnd huni' hcol'
  refine ⟨?_, ?_, ?_, ?_⟩
  · -- the main equation
    have hfind1 : ∀ p ∈ get_plugins (renameRegistry fs t oldEntry.entryName
        (if oldEntry.isFileEntry then new ++ ".md" else new) oldEntry.isFileEntry),
        ∃ pd ∈ (renameRegistry fs t oldEntry.entryName
          (if oldEntry.isFileEntry then new ++ ".md" else new)
          oldEntry.isFileEntry).plugins,
        pd.dirName = p.name ∧ ∃ es, pd.sub t = some es ∧
        renameDirLinks (.reg t oldEntry.entryName)
          (if pySuffix (if oldEntry.isFileEntry then new ++ ".md" else new) == ".md"
            then new ++ ".md" else new)
          (.reg t (if oldEntry.isFileEntry then new ++ ".md" else new)) es =
        (renameSubdirEntries (.reg t oldEntry.entryName)
          (if pySuffix (if oldEntry.isFileEntry then new ++ ".md" else new) == ".md"
            then new ++ ".md" else new)
          (.reg t (if oldEntry.isFileEntry then new ++ ".md" else new)) es, none) := by
      intro p hp
      obtain ⟨pd, hpd, hdn, hvis, _⟩ := get_plugins_backing hwf1 hp
      rw [renameRegistry_plugins] at hpd
      obtain ⟨es, hes⟩ := Option.ne_none_iff_exists'.mp (hsub pd hpd hvis)
      refine ⟨pd, ?_, hdn, es, hes, hinner pd hpd es hes⟩
      rw [renameRegistry_plugins]
      exact hpd
    have hnd1 : ((renameRegistry fs t oldEntry.entryName
        (if oldEntry.isFileEntry then new ++ ".md" else new)
        oldEntry.isFileEntry).plugins.map PluginDir.dirName).Nodup := by
      rw [renameRegistry_plugins]
      exact hwf.2.1
    have hfold := renameFold_ok t (.reg t oldEntry.entryName)
      (if pySuffix (if oldEntry.isFileEntry then new ++ ".md" else new) == ".md"
        then new ++ ".md" else new)
      (.reg t (if oldEntry.isFileEntry then new ++ ".md" else new))
      (get_plugins (renameRegistry fs t oldEntry.entryName
        (if oldEntry.isFileEntry then new ++ ".md" else new) oldEntry.isFileEntry))
      (renameRegistry fs t oldEntry.entryName
        (if oldEntry.isFileEntry then new ++ ".md" else new) oldEntry.isFileEntry)
      hnd1 (get_plugins_names_nodup hwf1) hfind1
    unfold rename_asset
    simp only [hold]
    rw [if_neg (by rw [hnew]; exact Bool.false_ne_true)]
    simp only [hfold]
    rw [renameRegistry_plugins]
  · -- visited plugins are the visible ones
    intro pd hpd
    have hpd1 : pd ∈ (renameRegistry fs t oldEntry.entryName
        (if oldEntry.isFileEntry then new ++ ".md" else new)
        oldEntry.isFileEntry).plugins := by
      rw [renameRegistry_plugins]
      exact hpd
    exact dirName_mem_get_plugins_names hwf1 hpd1
  · simp [resolvesTo]
  · -- per-subdirectory link facts
    intro pd hpd e he hres
    have hnd := (hwf.2.2 pd hpd).2.2 t (mem_allAssetTypes t)
    have hfs : ((pd.sub t).getD []).find?
        (fun x => resolvesTo x (.reg t oldEntry.entryName)) = some e := by
      cases hq : ((pd.sub t).getD []).find?
          (fun x => resolvesTo x (.reg t oldEntry.entryName)) with
      | none =>
        have := List.find?_eq_none.mp hq e he
        simp [hres] at this
      | some e1 =>
        have hmem1 := List.mem_of_find?_eq_some hq
        have hres1 : resolvesTo e1 (.reg t oldEntry.entryName) = true := by
          have h := List.find?_some hq
          simpa using h
        rw [huni pd hpd e1 hmem1 e he hres1 hres]
    have hrs : renameSubdirEntries (.reg t oldEntry.entryName)
        (if pySuffix (if oldEntry.isFileEntry then new ++ ".md" else new) == ".md"
          then new ++ ".md" else new)
        (.reg t (if oldEntry.isFileEntry then new ++ ".md" else new))
        ((pd.sub t).getD []) =
        (((pd.sub t).getD []).filter fun x => x.entryName != e.entryName) ++
          [⟨(if pySuffix (if oldEntry.isFileEntry then new ++ ".md" else new) == ".md"
            then new ++ ".md" else new),
            .symlink (.reg t (if oldEntry.isFileEntry then new ++ ".md" else new))⟩] := by
      unfold renameSubdirEntries
      rw [hfs]
    refine ⟨?_, ?_, ?_⟩
    · rw [hrs]
      exact List.mem_append_right _ (List.mem_singleton.mpr rfl)
    · intro x hx
      rw [hrs, List.mem_append] at hx
      rcases hx with hx | hx
      · rw [List.mem_filter] at hx
        by_contra hc
        rw [Bool.not_eq_false] at hc
        have hxe : x = e := huni pd hpd x hx.1 e he hc hres
        rw [hxe] at hx
        simp at hx
      · rw [List.mem_singleton] at hx
        subst hx
        simp only [resolvesTo]
        rw [decide_eq_false hTneq]
    · intro x hx hk
      have hxe : x.entryName ≠ e.entryName := by
        intro hxen
        have hxeq : x = e := List.inj_on_of_nodup_map hnd hx he hxen
        cases hek : e.kind with
        | file => simp [resolvesTo, hek] at hres
        | dir => simp [resolvesTo, hek] at hres
        | symlink s => exact hk s (by rw [hxeq, hek])
      rw [hrs]
      exact List.mem_append_left _ (List.mem_filter.mpr ⟨hx, by simp [hxe]⟩)

end PB

namespace PB

/-- Concrete instance of link-preserving rename: plugin `P` links command
asset `a`; renaming `a` to `b` succeeds and rewrites `P`'s link. -/
theorem rename_preserves_links_witness :
    rename_asset (⟨some [.file "a.md"], some [], some [],
        [⟨"P", .parsed none,
          some [⟨"a.md", .symlink (.reg .command "a.md")⟩], some [], some []⟩],
        []⟩ : FS) "a" "b" .command =
      ({ renameRegistry (⟨some [.file "a.md"], some [], some [],
          [⟨"P", .parsed none,
            some [⟨"a.md", .symlink (.reg .command "a.md")⟩], some [], some []⟩],
          []⟩ : FS) .command "a.md" "b.md" true with plugins := renamedPlugins .command (.reg .command "a.md") "b.md" (.reg .command "b.md") ((get_plugins (renameRegistry (⟨some [.file "a.md"], some [], some [], [⟨"P", .parsed none, some [⟨"a.md", .symlink (.reg .command "a.md")⟩], some [], some []⟩], []⟩ : FS) .command "a.md" "b.md" true)).map Plugin.name) [⟨"P", .parsed none, some [⟨"a.md", .symlink (.reg .command "a.md")⟩], some [], some []⟩] },
       .ok ()) := by
  exact (rename_preserves_links (⟨some [.file "a.md"], some [], some [],
      [⟨"P", .parsed none,
        some [⟨"a.md", .symlink (.reg .command "a.md")⟩], some [], some []⟩],
      []⟩ : FS) "a" "b" .command (.file "a.md") "b.md" "b.md"
    (by decide) (by decide) (by decide) (by decide) (by decide) (by decide)
    (by decide) (by decide)).1

end PB

namespace PB

/-- **C3, counterexample.**  Asset `a` exists, name `b` is free, and
plugin `P`'s `commands` subdirectory holds a symlink resolving to `a`'s
registry path — the claim's premises.  But plugin `A` (alphabetically
first) has no `commands` subdirectory: the rename loop raises there
after the registry path was already renamed, and `P`'s link is never
replaced — it still points at the now-dangling old path. -/
theorem rename_preserves_links_counterexample :
    (rename_asset (⟨some [.file "a.md"], some [], some [],
        [⟨"A", .parsed none, none, some [], some []⟩,
         ⟨"P", .parsed none,
           some [⟨"a.md", .symlink (.reg .command "a.md")⟩], some [], some []⟩],
        []⟩ : FS) "a" "b" .command).2 = .error (.fsError "A/commands") ∧
    lookupPluginDir (rename_asset (⟨some [.file "a.md"], some [], some [],
        [⟨"A", .parsed none, none, some [], some []⟩,
         ⟨"P", .parsed none,
           some [⟨"a.md", .symlink (.reg .command "a.md")⟩], some [], some []⟩],
        []⟩ : FS) "a" "b" .command).1 "P" =
      some ⟨"P", .parsed none,
        some [⟨"a.md", .symlink (.reg .command "a.md")⟩], some [], some []⟩ ∧
    regHasEntry (rename_asset (⟨some [.file "a.md"], some [], some [],
        [⟨"A", .parsed none, none, some [], some []⟩,
         ⟨"P", .parsed none,
           some [⟨"a.md", .symlink (.reg .command "a.md")⟩], some [], some []⟩],
        []⟩ : FS) "a" "b" .command).1 .command "a.md" = false := by
  refine ⟨?_, ?_, ?_⟩
  · decide
  · decide
  · decide

end PB

namespace PB

/-! ### Round-trip helpers -/

/-- Rewriting one registry directory twice keeps only the last write. -/
theorem setRegDir_setRegDir (fs : FS) (t : AssetType)
    (d1 d2 : Option (List RegEntry)) :
    (fs.setRegDir t d1).setRegDir t d2 = fs.setRegDir t d2 := by
  cases t <;> rfl

/-- Entries of a freshly written registry directory. -/
theorem regDirEntries_setRegDir_self (fs : FS) (t : AssetType) (L : List RegEntry) :
    regDirEntries (fs.setRegDir t (some L)) t = L := by
  unfold regDirEntries
  rw [regDir_setRegDir_self]
  rfl

/-- `mkdir(exist_ok=True)` on the registry directory changes no lookup. -/
theorem regHasEntry_mkdir (fs : FS) (t : AssetType) (n : String) :
    regHasEntry (fs.setRegDir t (some (regDirEntries fs t))) t n =
      regHasEntry fs t n := by
  unfold regHasEntry regLookup regDirEntries
  rw [regDir_setRegDir_self]
  cases fs.regDir t <;> rfl

/-- Writing a registry directory preserves plugin-side well-formedness. -/
theorem pluginsWf_setRegDir {fs : FS} (t : AssetType) (d : Option (List RegEntry))
    (h : pluginsWf fs) : pluginsWf (fs.setRegDir t d) := by
  unfold pluginsWf at *
  rw [plugins_setRegDir]
  exact h

/-- `find?` skips a prefix in which it finds nothing. -/
theorem find?_append_left_none {α} (p : α → Bool) (l1 l2 : List α)
    (h : l1.find? p = none) : (l1 ++ l2).find? p = l2.find? p := by
  induction l1 with
  | nil => rfl
  | cons a l ih =>
    cases hpa : p a with
    | true =>
      rw [List.find?_cons_of_pos _ hpa] at h
      cases h
    | false =>
      rw [List.find?_cons_of_neg _ (by simp [hpa])] at h
      rw [List.cons_append, List.find?_cons_of_neg _ (by simp [hpa])]
      exact ih h

/-- A name the registry lacks is found in no directory listing. -/
theorem regDirEntries_find_none {fs : FS} {t : AssetType} {n : String}
    (h : regHasEntry fs t n = false) :
    (regDirEntries fs t).find? (·.entryName == n) = none := by
  unfold regHasEntry regLookup at h
  unfold regDirEntries
  cases hr : fs.regDir t with
  | none => rfl
  | some L =>
    rw [hr] at h
    simp only [Option.some_bind] at h
    simp only [Option.getD_some]
    cases hf : L.find? (·.entryName == n) with
    | none => rfl
    | some e =>
      rw [hf] at h
      simp at h

/-- Names absent from the registry survive the removal filter. -/
theorem filter_ne_of_absent {fs : FS} {t : AssetType} {nm : String}
    (h : regHasEntry fs t nm = false) :
    (regDirEntries fs t).filter (fun x => x.entryName != nm) = regDirEntries fs t := by
  rw [List.filter_eq_self]
  intro x hx
  have hfn := regDirEntries_find_none h
  rw [List.find?_eq_none] at hfn
  have := hfn x hx
  simpa using this

/-- `get_registry_assets` depends only on the directory listings (an
absent directory and an empty one list the same assets). -/
theorem get_registry_assets_congr {a b : FS}
    (h : ∀ t, regDirEntries a t = regDirEntries b t) :
    get_registry_assets a none = get_registry_assets b none := by
  unfold get_registry_assets
  have he : ∀ t, assetsOfDir t (a.regDir t) = assetsOfDir t (b.regDir t) := by
    intro t
    have h1 : ∀ fs : FS, assetsOfDir t (fs.regDir t) =
        assetsOfDir t (some (regDirEntries fs t)) := by
      intro fs
      unfold regDirEntries
      cases fs.regDir t <;> rfl
    rw [h1 a, h1 b, h]
  simp only [allAssetTypes, List.flatMap_cons, List.flatMap_nil, he]

/-- Successful file add: append the file entry, return the asset named
after the explicit name or the stem. -/
theorem add_file_ok {fs : FS} {t : AssetType} {f : String} (name? : Option String)
    (hf : regHasEntry fs t f = false) :
    add_to_registry fs (.file f) t name? =
      (fs.setRegDir t (some (regDirEntries fs t ++ [.file f])),
       .ok ⟨name?.getD (pyStem f), t, f⟩) := by
  simp only [add_to_registry]
  rw [if_neg (by rw [regHasEntry_mkdir, hf]; exact Bool.false_ne_true)]
  rw [regDirEntries_setRegDir_self, setRegDir_setRegDir]

/-- Successful directory add: append the directory entry under the
chosen name. -/
theorem add_dir_ok {fs : FS} {t : AssetType} {d : String} (name? : Option String)
    (h : regHasEntry fs t (name?.getD d) = false) :
    add_to_registry fs (.dir d) t name? =
      (fs.setRegDir t (some (regDirEntries fs t ++ [.dir (name?.getD d)])),
       .ok ⟨name?.getD d, t, name?.getD d⟩) := by
  simp only [add_to_registry]
  rw [if_neg (by rw [regHasEntry_mkdir, h]; exact Bool.false_ne_true)]
  rw [regDirEntries_setRegDir_self, setRegDir_setRegDir]

end PB

namespace PB

/-- After adding a `.md` file whose stem is otherwise unused, the
deletion lookup locates the new entry through the `.md` fallback. -/
theorem findAssetEntry_after_add_file {fs : FS} {t : AssetType} {f : String}
    (hmd : pySuffix f = ".md") (hf : regHasEntry fs t f = false)
    (hstem : regHasEntry fs t (pyStem f) = false) :
    findAssetEntry (fs.setRegDir t (some (regDirEntries fs t ++ [.file f]))) t
      (pyStem f) = some (.file f) := by
  have hlook : ∀ m, regLookup (fs.setRegDir t
      (some (regDirEntries fs t ++ [RegEntry.file f]))) t m =
      (regDirEntries fs t ++ [RegEntry.file f]).find? (·.entryName == m) := by
    intro m
    unfold regLookup
    rw [regDir_setRegDir_self]
    rfl
  have h1 : regLookup (fs.setRegDir t
      (some (regDirEntries fs t ++ [RegEntry.file f]))) t (pyStem f) = none := by
    rw [hlook, find?_append_left_none _ _ _ (regDirEntries_find_none hstem)]
    rw [List.find?_cons_of_neg _ (by simp [RegEntry.entryName, md_entry_ne_stem hmd])]
    rfl
  have h2 : regLookup (fs.setRegDir t
      (some (regDirEntries fs t ++ [RegEntry.file f]))) t (pyStem f ++ ".md") =
      some (.file f) := by
    rw [hlook, find?_append_left_none _ _ _
      (regDirEntries_find_none (by rw [← md_entry_eq hmd]; exact hf))]
    rw [List.find?_cons_of_pos _ (by simp [RegEntry.entryName, (md_entry_eq hmd).symm])]
  unfold findAssetEntry
  rw [h1, h2]

end PB

namespace PB

/-- After adding a directory under a fresh name, the deletion lookup
finds it directly. -/
theorem findAssetEntry_after_add_dir {fs : FS} {t : AssetType} {nm : String}
    (h : regHasEntry fs t nm = false) :
    findAssetEntry (fs.setRegDir t (some (regDirEntries fs t ++ [.dir nm]))) t nm =
      some (.dir nm) := by
  have h1 : regLookup (fs.setRegDir t
      (some (regDirEntries fs t ++ [RegEntry.dir nm]))) t nm = some (.dir nm) := by
    unfold regLookup
    rw [regDir_setRegDir_self]
    have : ((regDirEntries fs t ++ [RegEntry.dir nm]).find? (·.entryName == nm)) =
        some (.dir nm) := by
      rw [find?_append_left_none _ _ _ (regDirEntries_find_none h)]
      rw [List.find?_cons_of_pos _ (by simp [RegEntry.entryName])]
    simpa using this
  unfold findAssetEntry
  rw [h1]

/-- Forced deletion of a located asset, when every visible plugin has the
per-type subdirectory: remove resolving links from the visited plugins'
subdirectories and drop the registry entry. -/
theorem delete_asset_force_ok (fs : FS) (n : String) (t : AssetType)
    (entry : RegEntry)
    (hwf : pluginsWf fs)
    (hsub : ∀ pd ∈ fs.plugins, pluginVisible pd = true → pd.sub t ≠ none)
    (hentry : findAssetEntry fs t n = some entry) :
    delete_asset fs n t true =
      ({ fs with plugins := deletedPlugins t (.reg t entry.entryName) ((get_plugins fs).map Plugin.name) fs.plugins }.setRegDir t
         (some ((regDirEntries fs t).filter fun e =>
           e.entryName != entry.entryName)),
       .ok ()) := by
  have hfind' : ∀ p ∈ get_plugins fs, ∃ pd ∈ fs.plugins,
      pd.dirName = p.name ∧ pd.sub t ≠ none := by
    intro p hp
    obtain ⟨pd, hpd, hdn, hvis, _⟩ := get_plugins_backing hwf hp
    exact ⟨pd, hpd, hdn, hsub pd hpd hvis⟩
  have hfold := deleteFold_ok t (.reg t entry.entryName) (get_plugins fs) fs
    hwf.1 (get_plugins_names_nodup hwf) hfind'
  unfold delete_asset
  rw [if_neg (by simp)]
  simp only [hentry, hfold]
  rw [regDirEntries_withPlugins]

end PB

namespace PB

/-- Writing one registry directory leaves the other listings unchanged. -/
theorem regDirEntries_setRegDir_other {t t' : AssetType} (h : t' ≠ t) (fs : FS)
    (d : Option (List RegEntry)) :
    regDirEntries (fs.setRegDir t d) t' = regDirEntries fs t' := by
  unfold regDirEntries
  rw [regDir_setRegDir_other h]

/-- **C4.**  Round-trip add/delete.  With every visible plugin holding
the per-type subdirectory: adding a fresh `.md` file without an explicit
name (so the asset is named by its stem, which must be otherwise unused)
and force-deleting that name succeeds and restores the registry assets;
likewise adding a directory under any name (explicit or not) and
force-deleting it.  (The claim's remaining case — a file added under an
explicit name differing from the stem — is refuted separately: the copy
is stored under the source file's name, so the deletion lookup misses
it.) -/
theorem add_delete_roundtrip (fs : FS) (t : AssetType)
    (hwf : pluginsWf fs)
    (hsub : ∀ pd ∈ fs.plugins, pluginVisible pd = true → pd.sub t ≠ none) :
    (∀ f, pySuffix f = ".md" → regHasEntry fs t f = false →
      regHasEntry fs t (pyStem f) = false →
      ∃ fs2, (add_to_registry fs (.file f) t none).2 = .ok ⟨pyStem f, t, f⟩ ∧
        delete_asset (add_to_registry fs (.file f) t none).1 (pyStem f) t true =
          (fs2, .ok ()) ∧
        get_registry_assets fs2 none = get_registry_assets fs none) ∧
    (∀ d name?, regHasEntry fs t (name?.getD d) = false →
      ∃ fs2, (add_to_registry fs (.dir d) t name?).2 =
          .ok ⟨name?.getD d, t, name?.getD d⟩ ∧
        delete_asset (add_to_registry fs (.dir d) t name?).1 (name?.getD d) t true =
          (fs2, .ok ()) ∧
        get_registry_assets fs2 none = get_registry_assets fs none) := by
  constructor
  · intro f hmd hf hstem
    have hadd := add_file_ok none hf
    have hwf1 : pluginsWf (fs.setRegDir t
        (some (regDirEntries fs t ++ [RegEntry.file f]))) :=
      pluginsWf_setRegDir _ _ hwf
    have hsub1 : ∀ pd ∈ (fs.setRegDir t
        (some (regDirEntries fs t ++ [RegEntry.file f]))).plugins,
        pluginVisible pd = true → pd.sub t ≠ none := by
      rw [plugins_setRegDir]
      exact hsub
    have hdel := delete_asset_force_ok _ (pyStem f) t (.file f) hwf1 hsub1
      (findAssetEntry_after_add_file hmd hf hstem)
    refine ⟨({ fs.setRegDir t (some (regDirEntries fs t ++ [RegEntry.file f])) with plugins := deletedPlugins t (.reg t (RegEntry.file f).entryName) ((get_plugins (fs.setRegDir t (some (regDirEntries fs t ++ [RegEntry.file f])))).map Plugin.name) (fs.setRegDir t (some (regDirEntries fs t ++ [RegEntry.file f]))).plugins }).setRegDir t (some ((regDirEntries (fs.setRegDir t (some (regDirEntries fs t ++ [RegEntry.file f]))) t).filter fun e => e.entryName != (RegEntry.file f).entryName)), ?_, ?_, ?_⟩
    · rw [hadd]
      rfl
    · rw [hadd]
      exact hdel
    · apply get_registry_assets_congr
      intro t'
      by_cases ht : t' = t
      · subst ht
        rw [regDirEntries_setRegDir_self, regDirEntries_setRegDir_self]
        have hfe : (RegEntry.file f).entryName = f := rfl
        rw [hfe]
        rw [List.filter_append, filter_ne_of_absent hf]
        have hone : ([RegEntry.file f].filter fun e => e.entryName != f) = [] := by
          simp [RegEntry.entryName]
        rw [hone, List.append_nil]
      · rw [regDirEntries_setRegDir_other ht, regDirEntries_withPlugins,
          regDirEntries_setRegDir_other ht]
  · intro d name? hnm
    have hadd := add_dir_ok name? hnm
    have hwf1 : pluginsWf (fs.setRegDir t
        (some (regDirEntries fs t ++ [RegEntry.dir (name?.getD d)]))) :=
      pluginsWf_setRegDir _ _ hwf
    have hsub1 : ∀ pd ∈ (fs.setRegDir t
        (some (regDirEntries fs t ++ [RegEntry.dir (name?.getD d)]))).plugins,
        pluginVisible pd = true → pd.sub t ≠ none := by
      rw [plugins_setRegDir]
      exact hsub
    have hdel := delete_asset_force_ok _ (name?.getD d) t (.dir (name?.getD d))
      hwf1 hsub1 (findAssetEntry_after_add_dir hnm)
    refine ⟨({ fs.setRegDir t (some (regDirEntries fs t ++ [RegEntry.dir (name?.getD d)])) with plugins := deletedPlugins t (.reg t (RegEntry.dir (name?.getD d)).entryName) ((get_plugins (fs.setRegDir t (some (regDirEntries fs t ++ [RegEntry.dir (name?.getD d)])))).map Plugin.name) (fs.setRegDir t (some (regDirEntries fs t ++ [RegEntry.dir (name?.getD d)]))).plugins }).setRegDir t (some ((regDirEntries (fs.setRegDir t (some (regDirEntries fs t ++ [RegEntry.dir (name?.getD d)]))) t).filter fun e => e.entryName != (RegEntry.dir (name?.getD d)).entryName)), ?_, ?_, ?_⟩
    · rw [hadd]
    · rw [hadd]
      exact hdel
    · apply get_registry_assets_congr
      intro t'
      by_cases ht : t' = t
      · subst ht
        rw [regDirEntries_setRegDir_self, regDirEntries_setRegDir_self]
        have hfe : (RegEntry.dir (name?.getD d)).entryName = name?.getD d := rfl
        rw [hfe]
        rw [List.filter_append, filter_ne_of_absent hnm]
        have hone : ([RegEntry.dir (name?.getD d)].filter
            fun e => e.entryName != name?.getD d) = [] := by
          simp [RegEntry.entryName]
        rw [hone, List.append_nil]
      · rw [regDirEntries_setRegDir_other ht, regDirEntries_withPlugins,
          regDirEntries_setRegDir_other ht]

end PB

namespace PB

/-- **C4, counterexample.**  Adding file `b.md` under the explicit name
`z` succeeds, but the copy is stored under the *source file's* name
(`registry/commands/b.md`), so the subsequent forced delete of `z`
cannot locate the asset and fails — the round trip neither succeeds nor
restores anything. -/
theorem add_delete_roundtrip_counterexample :
    (add_to_registry (⟨some [], some [], some [], [], []⟩ : FS)
        (.file "b.md") .command (some "z")).2 = .ok ⟨"z", .command, "b.md"⟩ ∧
    delete_asset (add_to_registry (⟨some [], some [], some [], [], []⟩ : FS)
        (.file "b.md") .command (some "z")).1 "z" .command true =
      ((add_to_registry (⟨some [], some [], some [], [], []⟩ : FS)
          (.file "b.md") .command (some "z")).1,
       .error (.notFound "Asset 'z' not found")) := by
  constructor
  · decide
  · decide

/-- Concrete round trip: add `x.md` to an empty registry without an
explicit name, force-delete `x`; the registry asset listing is restored. -/
theorem add_delete_roundtrip_witness :
    ∃ fs2, (add_to_registry (⟨some [], some [], some [], [], []⟩ : FS)
        (.file "x.md") .command none).2 = .ok ⟨"x", .command, "x.md"⟩ ∧
      delete_asset (add_to_registry (⟨some [], some [], some [], [], []⟩ : FS)
          (.file "x.md") .command none).1 "x" .command true = (fs2, .ok ()) ∧
      get_registry_assets fs2 none =
        get_registry_assets (⟨some [], some [], some [], [], []⟩ : FS) none := by
  exact (add_delete_roundtrip (⟨some [], some [], some [], [], []⟩ : FS) .command
    (by decide) (by decide)).1 "x.md" (by decide) (by decide) (by decide)

end PB

namespace PB

/-! ### The missing-subdirectory failure mode -/

/-- An error accumulator passes through the rename loop unchanged. -/
theorem renameFoldPlug_err (t : AssetType) (oldT : LinkTarget) (nl : String)
    (newT : LinkTarget) (ps : List Plugin) (fs : FS) (e : Err) :
    ps.foldl (renamePluginStep t oldT nl newT) (fs, some e) = (fs, some e) := by
  induction ps with
  | nil => rfl
  | cons p ps ih => rw [List.foldl_cons]; exact ih

/-- An error accumulator passes through the delete loop unchanged. -/
theorem deleteFoldPlug_err (t : AssetType) (tgt : LinkTarget)
    (ps : List Plugin) (fs : FS) (e : Err) :
    ps.foldl (deletePluginStep t tgt) (fs, some e) = (fs, some e) := by
  induction ps with
  | nil => rfl
  | cons p ps ih => rw [List.foldl_cons]; exact ih

/-- If some visited plugin lacks the per-type subdirectory — while every
visited name resolves to a directory and no inner rename errors — the
rename loop ends in a `FileNotFoundError`. -/
theorem renameFold_fsError (t : AssetType) (oldT : LinkTarget) (nl : String)
    (newT : LinkTarget) :
    ∀ (ps : List Plugin) (fs : FS),
    (∃ p ∈ ps, ∃ pd ∈ fs.plugins, pd.dirName = p.name ∧ pd.sub t = none) →
    (fs.plugins.map PluginDir.dirName).Nodup →
    (ps.map Plugin.name).Nodup →
    (∀ p ∈ ps, ∃ pd ∈ fs.plugins, pd.dirName = p.name) →
    (∀ p ∈ ps, ∀ pd ∈ fs.plugins, pd.dirName = p.name → ∀ es, pd.sub t = some es →
      (renameDirLinks oldT nl newT es).2 = none) →
    ∃ fs' m, ps.foldl (renamePluginStep t oldT nl newT) (fs, none) =
      (fs', some (.fsError m)) := by
  intro ps
  induction ps with
  | nil =>
    rintro fs ⟨p, hp, _⟩
    exact absurd hp (List.not_mem_nil p)
  | cons p ps ih =>
    rintro fs ⟨q, hq, pdq, hpdq, hdnq, hmissq⟩ hnd hpn hfindName hinner
    rw [List.foldl_cons]
    obtain ⟨pdp, hpdp, hdnp⟩ := hfindName p (List.mem_cons_self p ps)
    have hlook : lookupPluginDir fs p.name = some pdp := by
      rw [← hdnp]
      exact lookupPluginDir_eq_of_mem hnd hpdp
    cases hsubp : pdp.sub t with
    | none =>
      have hstep : renamePluginStep t oldT nl newT (fs, none) p =
          (fs, some (.fsError (p.name ++ "/" ++ t.value))) := by
        simp only [renamePluginStep, hlook, hsubp]
      rw [hstep, renameFoldPlug_err]
      exact ⟨fs, p.name ++ "/" ++ t.value, rfl⟩
    | some es =>
      rcases hrdl : renameDirLinks oldT nl newT es with ⟨es', err?⟩
      have herr : err? = none := by
        have := hinner p (List.mem_cons_self p ps) pdp hpdp hdnp es hsubp
        rw [hrdl] at this
        exact this
      subst herr
      have hstep : renamePluginStep t oldT nl newT (fs, none) p =
          (fs.updatePlugin p.name t es', none) := by
        simp only [renamePluginStep, hlook, hsubp, hrdl]
      rw [hstep]
      have hqname : q.name ≠ p.name := by
        intro he
        have : pdq = pdp := List.inj_on_of_nodup_map hnd hpdq hpdp (by rw [hdnq, he, hdnp])
        rw [this, hsubp] at hmissq
        cases hmissq
      have hq' : q ∈ ps := by
        rcases List.mem_cons.mp hq with h | h
        · exact absurd (by rw [h]) hqname
        · exact h
      have hmemu : ∀ pd ∈ fs.plugins, pd.dirName ≠ p.name →
          pd ∈ (fs.updatePlugin p.name t es').plugins := by
        intro pd hpd hne
        unfold FS.updatePlugin
        have hm := List.mem_map_of_mem (fun pd : PluginDir =>
          if pd.dirName == p.name then pd.setSub t (some es') else pd) hpd
        simpa [hne] using hm
      apply ih
      · refine ⟨q, hq', pdq, ?_, hdnq, hmissq⟩
        exact hmemu pdq hpdq (by rw [hdnq]; exact hqname)
      · rw [updatePlugin_dirNames]
        exact hnd
      · rw [List.map_cons, List.nodup_cons] at hpn
        exact hpn.2
      · intro r hr
        obtain ⟨pdr, hpdr, hdnr⟩ := hfindName r (List.mem_cons_of_mem p hr)
        have hrname : r.name ≠ p.name := by
          intro he
          rw [List.map_cons, List.nodup_cons] at hpn
          exact hpn.1 (he ▸ List.mem_map_of_mem Plugin.name hr)
        exact ⟨pdr, hmemu pdr hpdr (by rw [hdnr]; exact hrname), hdnr⟩
      · intro r hr pd hpd hdnr es2 hes2
        have hrname : r.name ≠ p.name := by
          intro he
          rw [List.map_cons, List.nodup_cons] at hpn
          exact hpn.1 (he ▸ List.mem_map_of_mem Plugin.name hr)
        have hne : pd.dirName ≠ p.name := by rw [hdnr]; exact hrname
        -- pd is an unmodified image in the updated state
        have hpd0 : pd ∈ fs.plugins := by
          unfold FS.updatePlugin at hpd
          rw [List.mem_map] at hpd
          obtain ⟨pd1, hpd1, he1⟩ := hpd
          by_cases h1 : pd1.dirName = p.name
          · rw [if_pos (by simp [h1])] at he1
            rw [← he1] at hne
            rw [setSub_dirName] at hne
            exact absurd h1 hne
          · rw [if_neg (by simp [h1])] at he1
            rw [← he1]
            exact hpd1
        exact hinner r (List.mem_cons_of_mem p hr) pd hpd0 hdnr es2 hes2

/-- If some visited plugin lacks the per-type subdirectory — while every
visited name resolves to a directory — the delete loop ends in a
`FileNotFoundError`. -/
theorem deleteFold_fsError (t : AssetType) (tgt : LinkTarget) :
    ∀ (ps : List Plugin) (fs : FS),
    (∃ p ∈ ps, ∃ pd ∈ fs.plugins, pd.dirName = p.name ∧ pd.sub t = none) →
    (fs.plugins.map PluginDir.dirName).Nodup →
    (ps.map Plugin.name).Nodup →
    (∀ p ∈ ps, ∃ pd ∈ fs.plugins, pd.dirName = p.name) →
    ∃ fs' m, ps.foldl (deletePluginStep t tgt) (fs, none) =
      (fs', some (.fsError m)) := by
  intro ps
  induction ps with
  | nil =>
    rintro fs ⟨p, hp, _⟩
    exact absurd hp (List.not_mem_nil p)
  | cons p ps ih =>
    rintro fs ⟨q, hq, pdq, hpdq, hdnq, hmissq⟩ hnd hpn hfindName
    rw [List.foldl_cons]
    obtain ⟨pdp, hpdp, hdnp⟩ := hfindName p (List.mem_cons_self p ps)
    have hlook : lookupPluginDir fs p.name = some pdp := by
      rw [← hdnp]
      exact lookupPluginDir_eq_of_mem hnd hpdp
    cases hsubp : pdp.sub t with
    | none =>
      have hstep : deletePluginStep t tgt (fs, none) p =
          (fs, some (.fsError (p.name ++ "/" ++ t.value))) := by
        simp only [deletePluginStep, hlook, hsubp]
      rw [hstep, deleteFoldPlug_err]
      exact ⟨fs, p.name ++ "/" ++ t.value, rfl⟩
    | some es =>
      have hstep : deletePluginStep t tgt (fs, none) p =
          (fs.updatePlugin p.name t (es.filter fun e => !resolvesTo e tgt), none) := by
        simp only [deletePluginStep, hlook, hsubp]
      rw [hstep]
      have hqname : q.name ≠ p.name := by
        intro he
        have : pdq = pdp := List.inj_on_of_nodup_map hnd hpdq hpdp (by rw [hdnq, he, hdnp])
        rw [this, hsubp] at hmissq
        cases hmissq
      have hq' : q ∈ ps := by
        rcases List.mem_cons.mp hq with h | h
        · exact absurd (by rw [h]) hqname
        · exact h
      have hmemu : ∀ pd ∈ fs.plugins, pd.dirName ≠ p.name →
          pd ∈ (fs.updatePlugin p.name t
            (es.filter fun e => !resolvesTo e tgt)).plugins := by
        intro pd hpd hne
        unfold FS.updatePlugin
        have hm := List.mem_map_of_mem (fun pd : PluginDir =>
          if pd.dirName == p.name then pd.setSub t
            (some (es.filter fun e => !resolvesTo e tgt)) else pd) hpd
        simpa [hne] using hm
      apply ih
      · refine ⟨q, hq', pdq, ?_, hdnq, hmissq⟩
        exact hmemu pdq hpdq (by rw [hdnq]; exact hqname)
      · rw [updatePlugin_dirNames]
        exact hnd
      · rw [List.map_cons, List.nodup_cons] at hpn
        exact hpn.2
      · intro r hr
        obtain ⟨pdr, hpdr, hdnr⟩ := hfindName r (List.mem_cons_of_mem p hr)
        have hrname : r.name ≠ p.name := by
          intro he
          rw [List.map_cons, List.nodup_cons] at hpn
          exact hpn.1 (he ▸ List.mem_map_of_mem Plugin.name hr)
        exact ⟨pdr, hmemu pdr hpdr (by rw [hdnr]; exact hrname), hdnr⟩

end PB

namespace PB

/-- Presence of a name depends only on the type's directory listing. -/
theorem regHasEntry_congr {a b : FS} {t : AssetType} {n : String}
    (h : a.regDir t = b.regDir t) : regHasEntry a t n = regHasEntry b t n := by
  unfold regHasEntry regLookup
  rw [h]

/-- After `renameRegistry` the new name is present. -/
theorem regHasEntry_renameRegistry {fs : FS} {t : AssetType} {oldE newE : String}
    {isF : Bool} (h : regHasEntry fs t oldE = true) :
    regHasEntry (renameRegistry fs t oldE newE isF) t newE = true := by
  unfold regHasEntry regLookup at h ⊢
  unfold renameRegistry
  rw [regDir_setRegDir_self]
  cases hr : fs.regDir t with
  | none =>
    rw [hr] at h
    simp at h
  | some L =>
    rw [hr] at h
    simp only [Option.some_bind] at h ⊢
    have hex : ∃ e ∈ L, (e.entryName == oldE) = true := by
      cases hf : L.find? (·.entryName == oldE) with
      | none =>
        rw [hf] at h
        simp at h
      | some e0 =>
        refine ⟨e0, List.mem_of_find?_eq_some hf, ?_⟩
        have h2 := List.find?_some hf
        simpa using h2
    obtain ⟨e0, he0, hne0⟩ := hex
    have hentries : regDirEntries fs t = L := by
      unfold regDirEntries
      rw [hr]
      rfl
    rw [hentries]
    have hmem : (if isF then RegEntry.file newE else RegEntry.dir newE) ∈
        L.map fun e => if e.entryName == oldE then
          (if isF then RegEntry.file newE else RegEntry.dir newE) else e := by
      have hm := List.mem_map_of_mem (fun e : RegEntry =>
        if e.entryName == oldE then
          (if isF then RegEntry.file newE else RegEntry.dir newE) else e) he0
      simpa [hne0] using hm
    have hp : ((if isF then RegEntry.file newE else RegEntry.dir newE).entryName ==
        newE) = true := by
      cases isF <;> simp [RegEntry.entryName]
    cases hf2 : (L.map fun e => if e.entryName == oldE then
        (if isF then RegEntry.file newE else RegEntry.dir newE) else e).find?
        (·.entryName == newE) with
    | none =>
      have := List.find?_eq_none.mp hf2 _ hmem
      exact absurd hp this
    | some e2 => rfl

/-- An issue produced by the classifier names its plugin and type. -/
theorem classifyEntry_fields {fs : FS} {pname : String} {t : AssetType}
    {e : PluginEntry} {i : Issue} (h : classifyEntry fs pname t e = some i) :
    i.plugin = pname ∧ i.atype = t := by
  unfold classifyEntry at h
  cases hk : e.kind with
  | file => simp only [hk] at h; exact Option.noConfusion h
  | dir => simp only [hk] at h; exact Option.noConfusion h
  | symlink tgt =>
    simp only [hk] at h
    cases ht : targetExists fs tgt with
    | false =>
      rw [ht] at h
      rw [if_pos (show (!false) = true from rfl)] at h
      injection h with hi
      rw [← hi]
      exact ⟨rfl, rfl⟩
    | true =>
      rw [ht] at h
      rw [if_neg (show ¬((!true) = true) from by simp)] at h
      cases tgt with
      | reg t2 n2 => exact Option.noConfusion h
      | outside p2 =>
        injection h with hi
        rw [← hi]
        exact ⟨rfl, rfl⟩

end PB

namespace PB

/-- **C10.**  Implicit per-type-subdirectory precondition.  With a
visible parsed plugin `pd0` lacking the relevant subdirectory, and the
rename preconditions otherwise in place: `rename_asset` ends in an
unhandled `FileNotFoundError` with the registry path already renamed in
the error-time state; forced `delete_asset` ends in an unhandled
`FileNotFoundError`; whereas `rebuild_symlinks` still reports success
and `validate` attributes no issue to the missing subdirectory. -/
theorem missing_subdir_precondition (fs : FS) (old new : String) (t : AssetType)
    (oldEntry : RegEntry) (NE NL : String) (pd0 : PluginDir)
    (hwf : pluginsWf fs)
    (hpd0 : pd0 ∈ fs.plugins) (hvis : pluginVisible pd0 = true)
    (hmiss : pd0.sub t = none)
    (hold : findAssetEntry fs t old = some oldEntry)
    (hNE : NE = if oldEntry.isFileEntry then new ++ ".md" else new)
    (hNL : NL = if pySuffix NE == ".md" then new ++ ".md" else new)
    (hnew : regHasEntry fs t NE = false)
    (huni : ∀ pd ∈ fs.plugins, ∀ a ∈ (pd.sub t).getD [], ∀ b ∈ (pd.sub t).getD [],
      resolvesTo a (.reg t oldEntry.entryName) = true →
      resolvesTo b (.reg t oldEntry.entryName) = true → a = b)
    (hcol : ∀ pd ∈ fs.plugins, ∀ e ∈ (pd.sub t).getD [],
      resolvesTo e (.reg t oldEntry.entryName) = true →
      ∀ x ∈ (pd.sub t).getD [], x.entryName = NL → x = e) :
    (∃ fs' m, rename_asset fs old new t = (fs', .error (.fsError m)) ∧
      regHasEntry fs' t NE = true) ∧
    (∃ fs'' m', delete_asset fs old t true = (fs'', .error (.fsError m'))) ∧
    (rebuild_symlinks fs none).2 = .ok () ∧
    (∀ i ∈ (validate fs).2, ¬(i.plugin = pd0.dirName ∧ i.atype = t)) := by
  subst hNE
  subst hNL
  have holdHas : regHasEntry fs t oldEntry.entryName = true :=
    regHasEntry_of_findAssetEntry hold
  refine ⟨?_, ?_, ?_, ?_⟩
  · -- rename: FileNotFoundError after the registry was renamed
    have hwf1 : pluginsWf (renameRegistry fs t oldEntry.entryName
        (if oldEntry.isFileEntry then new ++ ".md" else new) oldEntry.isFileEntry) :=
      pluginsWf_renameRegistry hwf
    have hpd01 : pd0 ∈ (renameRegistry fs t oldEntry.entryName
        (if oldEntry.isFileEntry then new ++ ".md" else new)
        oldEntry.isFileEntry).plugins := by
      rw [renameRegistry_plugins]
      exact hpd0
    have hex : ∃ p ∈ get_plugins (renameRegistry fs t oldEntry.entryName
        (if oldEntry.isFileEntry then new ++ ".md" else new) oldEntry.isFileEntry),
        ∃ pd ∈ (renameRegistry fs t oldEntry.entryName
          (if oldEntry.isFileEntry then new ++ ".md" else new)
          oldEntry.isFileEntry).plugins,
        pd.dirName = p.name ∧ pd.sub t = none := by
      have hm := (dirName_mem_get_plugins_names hwf1 hpd01).mpr hvis
      rw [List.mem_map] at hm
      obtain ⟨p, hp, hpn⟩ := hm
      exact ⟨p, hp, pd0, hpd01, hpn.symm, hmiss⟩
    have hfindName : ∀ p ∈ get_plugins (renameRegistry fs t oldEntry.entryName
        (if oldEntry.isFileEntry then new ++ ".md" else new) oldEntry.isFileEntry),
        ∃ pd ∈ (renameRegistry fs t oldEntry.entryName
          (if oldEntry.isFileEntry then new ++ ".md" else new)
          oldEntry.isFileEntry).plugins, pd.dirName = p.name := by
      intro p hp
      obtain ⟨pd, hpd, hdn, _, _⟩ := get_plugins_backing hwf1 hp
      exact ⟨pd, hpd, hdn⟩
    have hnd1 : ((renameRegistry fs t oldEntry.entryName
        (if oldEntry.isFileEntry then new ++ ".md" else new)
        oldEntry.isFileEntry).plugins.map PluginDir.dirName).Nodup := by
      rw [renameRegistry_plugins]
      exact hwf.1
    have hinner : ∀ p ∈ get_plugins (renameRegistry fs t oldEntry.entryName
        (if oldEntry.isFileEntry then new ++ ".md" else new) oldEntry.isFileEntry),
        ∀ pd ∈ (renameRegistry fs t oldEntry.entryName
          (if oldEntry.isFileEntry then new ++ ".md" else new)
          oldEntry.isFileEntry).plugins,
        pd.dirName = p.name → ∀ es, pd.sub t = some es →
        (renameDirLinks (.reg t oldEntry.entryName)
          (if pySuffix (if oldEntry.isFileEntry then new ++ ".md" else new) == ".md"
            then new ++ ".md" else new)
          (.reg t (if oldEntry.isFileEntry then new ++ ".md" else new)) es).2 =
          none := by
      intro p _ pd hpd _ es hes
      rw [renameRegistry_plugins] at hpd
      have hnd := (hwf.2 pd hpd).2.2 t (mem_allAssetTypes t)
      have huni' := huni pd hpd
      have hcol' := hcol pd hpd
      rw [hes] at hnd huni' hcol'
      simp only [Option.getD_some] at hnd huni' hcol'
      rw [renameDirLinks_char _ _ _ _ hnd huni' hcol']
    obtain ⟨fs2, m, hres⟩ := renameFold_fsError t (.reg t oldEntry.entryName)
      (if pySuffix (if oldEntry.isFileEntry then new ++ ".md" else new) == ".md"
        then new ++ ".md" else new)
      (.reg t (if oldEntry.isFileEntry then new ++ ".md" else new))
      (get_plugins (renameRegistry fs t oldEntry.entryName
        (if oldEntry.isFileEntry then new ++ ".md" else new) oldEntry.isFileEntry))
      (renameRegistry fs t oldEntry.entryName
        (if oldEntry.isFileEntry then new ++ ".md" else new) oldEntry.isFileEntry)
      hex hnd1 (get_plugins_names_nodup hwf1) hfindName hinner
    refine ⟨fs2, m, ?_, ?_⟩
    · unfold rename_asset
      simp only [hold]
      rw [if_neg (by rw [hnew]; exact Bool.false_ne_true)]
      simp only [hres]
    · have h1 := foldl_renamePlugins_regDir t (.reg t oldEntry.entryName)
        (if pySuffix (if oldEntry.isFileEntry then new ++ ".md" else new) == ".md"
          then new ++ ".md" else new)
        (.reg t (if oldEntry.isFileEntry then new ++ ".md" else new))
        (get_plugins (renameRegistry fs t oldEntry.entryName
          (if oldEntry.isFileEntry then new ++ ".md" else new) oldEntry.isFileEntry))
        ((renameRegistry fs t oldEntry.entryName
          (if oldEntry.isFileEntry then new ++ ".md" else new) oldEntry.isFileEntry),
         none) t
      rw [hres] at h1
      rw [regHasEntry_congr h1]
      exact regHasEntry_renameRegistry holdHas
  · -- forced delete: FileNotFoundError
    have hex : ∃ p ∈ get_plugins fs, ∃ pd ∈ fs.plugins,
        pd.dirName = p.name ∧ pd.sub t = none := by
      have hm := (dirName_mem_get_plugins_names hwf hpd0).mpr hvis
      rw [List.mem_map] at hm
      obtain ⟨p, hp, hpn⟩ := hm
      exact ⟨p, hp, pd0, hpd0, hpn.symm, hmiss⟩
    have hfindName : ∀ p ∈ get_plugins fs, ∃ pd ∈ fs.plugins,
        pd.dirName = p.name := by
      intro p hp
      obtain ⟨pd, hpd, hdn, _, _⟩ := get_plugins_backing hwf hp
      exact ⟨pd, hpd, hdn⟩
    obtain ⟨fs'', m', hres⟩ := deleteFold_fsError t (.reg t oldEntry.entryName)
      (get_plugins fs) fs hex hwf.1 (get_plugins_names_nodup hwf) hfindName
    refine ⟨fs'', m', ?_⟩
    unfold delete_asset
    rw [if_neg (by simp)]
    simp only [hold, hres]
  · rfl
  · intro i hi
    rintro ⟨hplug, hat⟩
    have h2 := validate_eq_spec fs
    have hi2 : i ∈ validateIssuesSpec fs := by
      rw [h2] at hi
      exact hi
    unfold validateIssuesSpec at hi2
    rw [List.mem_flatMap] at hi2
    obtain ⟨p, hp, hi3⟩ := hi2
    rw [List.mem_flatMap] at hi3
    obtain ⟨t', ht', hi4⟩ := hi3
    cases hb : (lookupPluginDir fs p.name).bind (·.sub t') with
    | none =>
      simp only [hb] at hi4
      exact absurd hi4 (List.not_mem_nil i)
    | some entries =>
      simp only [hb] at hi4
      rw [List.mem_filterMap] at hi4
      obtain ⟨e, _, hce⟩ := hi4
      obtain ⟨hip, hia⟩ := classifyEntry_fields hce
      have hpn : p.name = pd0.dirName := by rw [← hip, hplug]
      have ht'' : t' = t := by rw [← hia, hat]
      subst ht''
      have hlook : lookupPluginDir fs p.name = some pd0 := by
        rw [hpn]
        exact lookupPluginDir_eq_of_mem hwf.1 hpd0
      rw [hlook] at hb
      simp only [Option.some_bind] at hb
      rw [hmiss] at hb
      exact Option.noConfusion hb

end PB

namespace PB

/-- Concrete missing-subdirectory scenario: asset `a` linked by plugin
`P`, plugin `Q` parsed with no `commands` subdirectory.  Rename and
forced delete both fail with filesystem errors (the rename having
already moved the registry entry), while rebuild reports success and
validation attributes nothing to `Q`'s missing subdirectory. -/
theorem missing_subdir_precondition_witness :
    (∃ fs' m, rename_asset (⟨some [.file "a.md"], some [], some [],
        [⟨"P", .parsed none,
          some [⟨"a.md", .symlink (.reg .command "a.md")⟩], some [], some []⟩,
         ⟨"Q", .parsed none, none, some [], some []⟩], []⟩ : FS) "a" "b" .command =
        (fs', .error (.fsError m)) ∧
      regHasEntry fs' .command "b.md" = true) ∧
    (∃ fs'' m', delete_asset (⟨some [.file "a.md"], some [], some [],
        [⟨"P", .parsed none,
          some [⟨"a.md", .symlink (.reg .command "a.md")⟩], some [], some []⟩,
         ⟨"Q", .parsed none, none, some [], some []⟩], []⟩ : FS) "a" .command true =
        (fs'', .error (.fsError m'))) ∧
    (rebuild_symlinks (⟨some [.file "a.md"], some [], some [],
        [⟨"P", .parsed none,
          some [⟨"a.md", .symlink (.reg .command "a.md")⟩], some [], some []⟩,
         ⟨"Q", .parsed none, none, some [], some []⟩], []⟩ : FS) none).2 = .ok () ∧
    (∀ i ∈ (validate (⟨some [.file "a.md"], some [], some [],
        [⟨"P", .parsed none,
          some [⟨"a.md", .symlink (.reg .command "a.md")⟩], some [], some []⟩,
         ⟨"Q", .parsed none, none, some [], some []⟩], []⟩ : FS)).2,
      ¬(i.plugin = "Q" ∧ i.atype = .command)) := by
  exact missing_subdir_precondition (⟨some [.file "a.md"], some [], some [],
      [⟨"P", .parsed none,
        some [⟨"a.md", .symlink (.reg .command "a.md")⟩], some [], some []⟩,
       ⟨"Q", .parsed none, none, some [], some []⟩], []⟩ : FS) "a" "b" .command
    (.file "a.md") "b.md" "b.md" ⟨"Q", .parsed none, none, some [], some []⟩
    (by decide) (by decide) (by decide) (by decide) (by decide) (by decide)
    (by decide) (by decide) (by decide) (by decide)

end PB
